import Mathlib

/-!
# hggutils / jsonrpc: dispatcher and websocket engine

A shallow embedding of `src/jsonrpc/handler.go`, `src/jsonrpc/server.go` and the
shutdown part of `src/jsonrpc/websocket.go`.

Conventions of the embedding.

* Effects are explicit: a Go function that calls back into its environment
  (`w`, `rpcError`, `done`, the handler method, the JSON encoder) returns the list of
  `Event`s it causes, in program order.  Logging, metrics (`stats.Record`) and
  tracing spans have no influence on replies or control flow and are left out.
* A run-time panic that escapes a function (index out of range, call of a nil
  func value, failed type assertion) is recorded in `Run.fault`; deferred calls
  still run before the panic leaves the function.
* `reflect.Value`s are the constructors of `Value`; the static kind of a
  return slot (`Type().Out(i).Kind()`) is kept apart from the dynamic kind of
  the value found in it (`reflect.TypeOf(v).Kind()`).
* Go maps are association lists; `int`/`int64` are `Int`, `uint64` is `Nat`
  (no arithmetic in this part can overflow except the channel counter, which
  is reduced modulo `2^64`).
-/

namespace Jsonrpc

/-! ## Data model -/

/-- `rpcParseError` of server.go. -/
def rpcParseError : Int := -32700
/-- `rpcMethodNotFound` of server.go. -/
def rpcMethodNotFound : Int := -32601
/-- `rpcInvalidParams` of server.go. -/
def rpcInvalidParams : Int := -32602

/-- The part of `reflect.Kind` that `handle` distinguishes: channel types,
interface types (whose values may be of any dynamic type) and everything else. -/
inductive Kind
  | chan
  | iface
  | other
  deriving DecidableEq, Repr

/-- Run-time values as seen through `reflect.Value` / `interface{}`.
`nil` is the nil interface (also the zero `reflect.Value` of a fresh slice slot),
`err m` a non-nil value implementing `error` whose `Error()` text is `m`,
`chan c` a channel, `u64 n` an unsigned integer, `obj t` any other value that
`encoding/json` can encode, and `unsupported t` any other value that it cannot encode:
a func, a complex number, a NaN or infinite float, a cyclic value, or a value whose
`MarshalJSON` fails. -/
inductive Value
  | nil
  | err (msg : String)
  | chan (src : Nat)
  | u64 (n : Nat)
  | obj (tag : String)
  | unsupported (tag : String)
  deriving DecidableEq, Repr

/-- The dynamic kind test `reflect.TypeOf(v).Kind() == reflect.Chan`. -/
def Value.isChan : Value → Bool
  | .chan _ => true
  | _ => false

/-- The type assertion `v.(error).Error()`: the text of an error value, `none` when the
assertion panics. -/
def Value.errorText : Value → Option String
  | .err m => some m
  | _ => none

/-- Modelled from the spec: the param container `param` (its declaration is not among
the sources; the code uses the fields `data` and `v`): the raw bytes of the JSON value
as received, and an in-memory value supplied by local code for outbound frames. -/
structure param where
  data : String := ""
  v : Value := Value.nil
  deriving DecidableEq, Repr

/-- `request` of handler.go. -/
structure request where
  Jsonrpc : String := ""
  ID : Option Int := none
  Method : String := ""
  Params : List param := []
  Meta : List (String × String) := []
  deriving DecidableEq, Repr

/-- `respError` of handler.go. -/
structure respError where
  Code : Int
  Message : String
  deriving DecidableEq, Repr

/-- `response` of handler.go; `Result = Value.nil` is the nil interface. -/
structure response where
  Jsonrpc : String := ""
  Result : Value := Value.nil
  ID : Int := 0
  Error : Option respError := none
  deriving DecidableEq, Repr

/-- A `reflect.Type` used as a decode target. -/
structure RType where
  name : String
  deriving DecidableEq, Repr

/-- What `f.Call(params)` does: the method panics with a value (given by its `%s`
rendering) or returns its output slots. -/
inductive CallOutcome
  | panics (p : String)
  | returns (out : List Value)
  deriving DecidableEq, Repr

/-- The `reflect.Value` of a method function: its `%s` rendering, the static kinds of
its return slots (`Type().Out(i).Kind()`) and its behaviour under `Call`. -/
structure Func where
  text : String
  outKinds : List Kind
  call : List Value → CallOutcome

/-- `rpcHandler` of handler.go. `nParams` and `hasCtx` are lengths/flags that
`register` only ever sets to non-negative numbers. -/
structure rpcHandler where
  paramReceivers : List RType
  nParams : Nat
  receiver : Value
  handlerFunc : Func
  hasCtx : Nat
  errOut : Int
  valOut : Int

/-- `handlers` of handler.go: `map[string]rpcHandler`. -/
abbrev handlers := List (String × rpcHandler)

/-- The `io.Writer` handed to a write callback; `isHTTP` is the outcome of the type
test `w.(http.ResponseWriter)`. -/
structure Writer where
  isHTTP : Bool
  deriving DecidableEq, Repr

/-- Observable effects of the dispatcher. -/
inductive Event
  /-- `hw.WriteHeader(status)` -/
  | header (status : Nat)
  /-- One response frame written by `json.NewEncoder(w).Encode(resp)` -/
  | frame (resp : response)
  /-- `done(keepCtx)` -/
  | done (keepCtx : Bool)
  /-- Decoding of the positional param `i` into a fresh value of its declared type -/
  | decode (i : Nat)
  /-- `f.Call(args)` of the method registered under `method` -/
  | invoke (method : String) (args : List Value)
  /-- `chOut(ch, id)`: the stream-opener is called -/
  | openStream (ch : Value) (id : Int)
  deriving DecidableEq, Repr

/-- Result of running a function that may panic: the events it caused and the
panic that left it, if any. -/
structure Run where
  events : List Event
  fault : Option String := none
  deriving DecidableEq, Repr

/-- The write callback `func(io.Writer)`. -/
abbrev WriteCb := Writer → List Event
/-- The write function `w func(func(io.Writer))`. -/
abbrev WriteFn := WriteCb → List Event
/-- `rpcErrFunc` of handler.go. -/
abbrev rpcErrFunc := WriteFn → request → Int → String → List Event
/-- `chanOut` of handler.go; the result is the returned error (`none` = nil). -/
abbrev chanOut := Value → Int → Option String
/-- The JSON decoder `json.NewDecoder(bytes).Decode(target)` for a target type. -/
abbrev Decoder := RType → String → Except String Value

/-- Whether `encoding/json` can encode a value found in `response.Result`: channel
values cannot be encoded (`Marshal` returns an `UnsupportedTypeError`), and neither can
the values of the other kinds that it refuses or fails on. -/
def Value.jsonEncodable : Value → Bool
  | .chan _ => false
  | .unsupported _ => false
  | _ => true

/-- The write callback body `if err := json.NewEncoder(w).Encode(resp); err != nil
{ log...; return }`: the encoder marshals the whole response before it writes, so the
frame is written when the response can be encoded, and nothing is written otherwise. -/
def encode (resp : response) : List Event :=
  if resp.Result.jsonEncodable = true then [Event.frame resp] else []

/-! ## server.go -/

/-- `rpcError` of server.go. -/
def rpcError (wf : WriteFn) (req : request) (code : Int) (err : String) : List Event :=
  wf (fun w =>
    (if w.isHTTP then [Event.header 500] else []) ++
    (match req.ID with
     | none => []
     | some id =>
       encode { Jsonrpc := "2.0", ID := id,
                Error := some { Code := code, Message := err } }))

/-! ## handler.go -/

/-- `doCall` of handler.go: the deferred `recover` turns a panic of the method into the
returned error. -/
def doCall (methodName : String) (f : Func) (params : List Value) :
    List Value × Option String :=
  match f.call params with
  | .panics i => ([], some ("panic in rpc method '" ++ methodName ++ "': " ++ i))
  | .returns out => (out, none)

/-- Indexing `xs[i]` with a Go `int`; `none` is the run-time panic. -/
def index? {α : Type} (xs : List α) (i : Int) : Option α :=
  if i < 0 then none else xs[i.toNat]?

/-- Outcome of the param decoding loop of `handle`. -/
inductive DecodeResult
  | ok (callParams : List Value)
  | failed (i : Nat) (err : String)
  | fault
  deriving DecidableEq, Repr

/-- The loop `for i := 0; i < handler.nParams; i++` of `handle` (lines 212-221), with
`n` iterations left, the next index `i` and the current `callParams`. -/
def decodeLoop (decode : Decoder) (handler : rpcHandler) (req : request) :
    Nat → Nat → List Value → List Event × DecodeResult
  | 0, _, callParams => ([], DecodeResult.ok callParams)
  | n + 1, i, callParams =>
    match handler.paramReceivers[i]? with
    | none => ([], DecodeResult.fault)
    | some ty =>
      match req.Params[i]? with
      | none => ([], DecodeResult.fault)
      | some p =>
        match decode ty p.data with
        | .error e => ([Event.decode i], DecodeResult.failed i e)
        | .ok v =>
          let r := decodeLoop decode handler req n (i + 1)
            (callParams.set (i + 1 + handler.hasCtx) v)
          (Event.decode i :: r.1, r.2)

/-- Lines 237-281 of `handle`: building and writing the reply of a call that returned
`callResult` for a request with id `id`. -/
def handleReply (handler : rpcHandler) (callResult : List Value) (id : Int)
    (w : WriteFn) (chOut : Option chanOut) : Run :=
  let resp : response := { Jsonrpc := "2.0", ID := id }
  -- if handler.errOut != -1 { ... }
  let withErr : Option response :=
    if handler.errOut ≠ -1 then
      match index? callResult handler.errOut with
      | none => none
      | some e =>
        if e ≠ Value.nil then
          match e.errorText with
          | none => none
          | some m => some { resp with Error := some { Code := 1, Message := m } }
        else some resp
    else some resp
  match withErr with
  | none => { events := [], fault := some "error slot" }
  | some resp =>
    -- if handler.valOut != -1 { resp.Result = ... }
    let withVal : Option response :=
      if handler.valOut ≠ -1 then
        match index? callResult handler.valOut with
        | none => none
        | some v => some { resp with Result := v }
      else some resp
    match withVal with
    | none => { events := [], fault := some "value slot" }
    | some resp =>
      if resp.Result ≠ Value.nil ∧ resp.Result.isChan = true then
        match chOut with
        | none => { events := [], fault := some "nil func call" }
        | some open_ =>
          match open_ resp.Result id with
          | none => { events := [Event.openStream resp.Result id] }
          | some e =>
            { events := Event.openStream resp.Result id ::
                w (fun _ => encode
                  { resp with Error := some { Code := 1, Message := e } }) }
      else
        { events := w (fun _ => encode resp) }

/-- Lines 200-281 of `handle`: everything that runs under `defer done(outCh)`. -/
def handleBody (decode : Decoder) (ctx : Value) (req : request) (w : WriteFn)
    (rpcError : rpcErrFunc) (chOut : Option chanOut) (handler : rpcHandler)
    (outCh : Bool) : Run :=
  if chOut.isNone ∧ outCh = true then
    { events := rpcError w req rpcMethodNotFound
        ("method '" ++ req.Method ++ "' not supported in this mode (no out channel support)") }
  else
    let callParams := List.replicate (1 + handler.hasCtx + handler.nParams) Value.nil
    let callParams := callParams.set 0 handler.receiver
    let callParams := if handler.hasCtx = 1 then callParams.set 1 ctx else callParams
    match decodeLoop decode handler req handler.nParams 0 callParams with
    | (evs, DecodeResult.fault) => { events := evs, fault := some "index out of range" }
    | (evs, DecodeResult.failed _ e) =>
      { events := evs ++ rpcError w req rpcParseError
          ("unmarshaling params for '" ++ handler.handlerFunc.text ++ "': " ++ e) }
    | (evs, DecodeResult.ok callParams) =>
      match doCall req.Method handler.handlerFunc callParams with
      | (_, some err) =>
        { events := evs ++ Event.invoke req.Method callParams ::
            rpcError w req 0 ("fatal error calling '" ++ req.Method ++ "': " ++ err) }
      | (callResult, none) =>
        match req.ID with
        | none => { events := evs ++ [Event.invoke req.Method callParams] }
        | some id =>
          let r := handleReply handler callResult id w chOut
          { events := evs ++ Event.invoke req.Method callParams :: r.events,
            fault := r.fault }

/-- Line 197 of `handle`:
`handler.valOut != -1 && handler.handlerFunc.Type().Out(handler.valOut).Kind() == reflect.Chan`;
`none` is the panic of `Out` on an index that is not a return slot. -/
def outCh? (handler : rpcHandler) : Option Bool :=
  if handler.valOut ≠ -1 then
    (index? handler.handlerFunc.outKinds handler.valOut).map (fun k => decide (k = Kind.chan))
  else some false

/-- `handlers.handle` of handler.go. -/
def handle (decode : Decoder) (h : handlers) (ctx : Value) (req : request) (w : WriteFn)
    (rpcError : rpcErrFunc) (done : Bool → List Event) (chOut : Option chanOut) : Run :=
  match h.lookup req.Method with
  | none =>
    { events := rpcError w req rpcMethodNotFound ("method '" ++ req.Method ++ "' not found")
        ++ done false }
  | some handler =>
    if req.Params.length ≠ handler.nParams then
      { events := rpcError w req rpcInvalidParams "wrong param count" ++ done false }
    else
      match outCh? handler with
      | none => { events := [], fault := some "reflect: Out index out of range" }
      | some outCh =>
        -- defer done(outCh)
        let r := handleBody decode ctx req w rpcError chOut handler outCh
        { events := r.events ++ done outCh, fault := r.fault }

/-- The write function `wf` of `handleReader`: the callback runs on the writer `w`. -/
def directWriter (w : Writer) : WriteFn := fun cb => cb w

/-- The completion callback as an observable event. -/
def doneEvent : Bool → List Event := fun keepCtx => [Event.done keepCtx]

/-- `handlers.handleReader` of handler.go. `decoded` is the outcome of decoding the
body into `req` (`some e` = the decoder's error, `req` then being what was filled in
so far); `done` is the empty function and there is no stream-opener. -/
def handleReader (decode : Decoder) (h : handlers) (ctx : Value) (req : request)
    (decoded : Option String) (w : Writer) (rpcError : rpcErrFunc) : Run :=
  match decoded with
  | some e => { events := rpcError (directWriter w) req rpcParseError ("unmarshaling request: " ++ e) }
  | none => handle decode h ctx req (directWriter w) rpcError (fun _ => []) none

/-- The response frames among a list of events. -/
def frames : List Event → List response
  | [] => []
  | Event.frame r :: es => r :: frames es
  | _ :: es => frames es

/-- The `done` calls among a list of events. -/
def doneCalls : List Event → List Bool
  | [] => []
  | Event.done b :: es => b :: doneCalls es
  | _ :: es => doneCalls es

/-- The method invocations among a list of events. -/
def invocations : List Event → List (String × List Value)
  | [] => []
  | Event.invoke m a :: es => (m, a) :: invocations es
  | _ :: es => invocations es

/-- The indices of the params decoded among a list of events. -/
def decodes : List Event → List Nat
  | [] => []
  | Event.decode i :: es => i :: decodes es
  | _ :: es => decodes es

/-- Text `s` contains text `t` as a contiguous part. -/
def contains (s t : String) : Prop := t.data <:+: s.data

instance (s t : String) : Decidable (contains s t) := by
  unfold contains; infer_instance

/-! ## websocket.go -/

/-- `chValue` of websocket.go. -/
def chValue : String := "xrpc.ch.val"
/-- `chClose` of websocket.go. -/
def chClose : String := "xrpc.ch.close"

/-- `outChanReg` of websocket.go. -/
structure outChanReg where
  reqID : Int
  chID : Nat
  ch : Value
  deriving DecidableEq, Repr

/-- A message marshalled onto `writeChan`: a response or a request/notification. -/
inductive Msg
  | response (r : response)
  | request (r : request)
  deriving DecidableEq, Repr

/-- Modelled from the spec: the client-side response `clientResponse` (its declaration
is not among the sources; `handleResponse` and `closeInFlight` fill the fields `Jsonrpc`,
`Result`, `ID` and `Error`); `Result` is the raw result bytes. -/
structure clientResponse where
  Jsonrpc : String := ""
  Result : String := ""
  ID : Int := 0
  Error : Option respError := none
  deriving DecidableEq, Repr

/-- Modelled from the spec: the inflight entry `clientRequest` (its declaration is not
among the sources): the request, the reply-delivery channel `ready` and the optional
stream-opener `retCh`, both identified by a number. -/
structure clientRequest where
  req : request
  ready : Nat
  retCh : Option Nat := none
  deriving DecidableEq, Repr

/-- The tables and the channel counter of `wsConn`. Cancellation handles and incoming
channel handlers are identified by numbers. -/
structure wsConn where
  inflight : List (Int × clientRequest) := []
  chanHandlers : List (Nat × Nat) := []
  handling : List (Int × Nat) := []
  chanCtr : Nat := 0
  deriving DecidableEq, Repr

/-- Observable effects of the connection engine. -/
inductive WsEvent
  /-- `ready <- resp`: a response is delivered to a reply slot -/
  | deliver (ready : Nat) (resp : clientResponse)
  /-- A cancellation handle is invoked -/
  | cancel (handle : Nat)
  /-- An incoming channel handler is called: `hnd(m, ok)`, `m = none` for nil -/
  | chanCall (hnd : Nat) (m : Option String) (ok : Bool)
  /-- `c.conn.Close()` -/
  | connClose
  /-- `go c.handleCtxAsync(chanCtx, id)`: the cancellation-propagation task for the
  stream opened by `opener` is started -/
  | ctxAsync (opener : Nat) (id : Int)
  /-- `c.writeChan <- msg`: a message is put on the write queue -/
  | enqueue (msg : Msg)
  deriving DecidableEq, Repr

/-- `wsConn.handleChanOut` of websocket.go. `registered` is the branch the `select`
takes: the registration is received by the multiplexer (`true`) or the connection is
exiting (`false`). Returns the connection, the registration sent, and the error. -/
def handleChanOut (c : wsConn) (ch : Value) (req : Int) (registered : Bool) :
    wsConn × Option outChanReg × Option String :=
  let id := (c.chanCtr + 1) % 2 ^ 64
  let c := { c with chanCtr := id }
  if registered then (c, some { reqID := req, chID := id, ch := ch }, none)
  else (c, none, some "connection closing")

/-- The selector state of `handleOutChans`. -/
structure OutChans where
  cases : List Value
  caseToID : List Nat
  deriving DecidableEq, Repr

/-- What `reflect.Select` reports in `handleOutChans`. -/
inductive Selected
  /-- `chosen = 0`, a registration was received -/
  | registration (reg : outChanReg)
  /-- `chosen = 0`, the registration channel is closed -/
  | registrationClosed
  /-- `chosen = 1` -/
  | exiting (ok : Bool)
  /-- `chosen >= 2` -/
  | source (chosen : Nat) (val : Value) (ok : Bool)
  deriving DecidableEq, Repr

/-- Outcome of one iteration of the loop of `handleOutChans`. -/
inductive StepResult
  | continue_ (s : OutChans) (out : List Msg)
  | return_
  | fault
  deriving DecidableEq, Repr

/-- One iteration of the `for` loop of `wsConn.handleOutChans` (`internal = 2`). -/
def handleOutChansStep (s : OutChans) : Selected → StepResult
  | .registrationClosed => StepResult.return_
  | .registration reg =>
    StepResult.continue_
      { caseToID := s.caseToID ++ [reg.chID], cases := s.cases ++ [reg.ch] }
      [Msg.response { Jsonrpc := "2.0", ID := reg.reqID, Result := Value.u64 reg.chID }]
  | .exiting false => StepResult.return_
  | .exiting true => StepResult.continue_ s []
  | .source chosen _ false =>
    match s.caseToID[chosen - 2]? with
    | none => StepResult.fault
    | some id =>
      let n := s.cases.length - 1
      match s.cases[n]?, s.caseToID[n - 2]?, decide (chosen < s.cases.length) with
      | some lastCase, some lastID, true =>
        let cases := if n > 0 then s.cases.set chosen lastCase else s.cases
        let caseToID := if n > 0 then s.caseToID.set (chosen - 2) lastID else s.caseToID
        StepResult.continue_
          { cases := cases.take n, caseToID := caseToID.take (n - 2) }
          [Msg.request { Jsonrpc := "2.0", ID := none, Method := chClose,
                         Params := [{ v := Value.u64 id }] }]
      | _, _, _ => StepResult.fault
  | .source chosen val true =>
    match s.caseToID[chosen - 2]? with
    | none => StepResult.fault
    | some id =>
      StepResult.continue_ s
        [Msg.request { Jsonrpc := "2.0", ID := none, Method := chValue,
                       Params := [{ v := Value.u64 id }, { v := val }] }]

/-- `wsConn.closeInFlight` of websocket.go. The tables are visited in the order of
the association lists. -/
def closeInFlight (c : wsConn) : wsConn × List WsEvent :=
  let delivered := c.inflight.map (fun e =>
    WsEvent.deliver e.2.ready
      { Jsonrpc := "2.0", ID := e.1,
        Error := some { Message := "handler: websocket connection closed", Code := 2 } })
  let cancelled := c.handling.map (fun e => WsEvent.cancel e.2)
  ({ c with inflight := [], handling := [] }, delivered ++ cancelled)

/-- The loop of `wsConn.closeChans`: for each key still to visit, look the handler up,
delete the key, call the handler with `(nil, false)`. A key that is no longer in the
table yields a nil func, whose call panics (`none`). -/
def closeChansLoop : List Nat → List (Nat × Nat) → Option (List (Nat × Nat) × List WsEvent)
  | [], table => some (table, [])
  | chid :: rest, table =>
    match table.lookup chid with
    | none => none
    | some hnd =>
      match closeChansLoop rest (table.filter (fun e => e.1 != chid)) with
      | none => none
      | some (table', evs) => some (table', WsEvent.chanCall hnd none false :: evs)

/-- `wsConn.closeChans` of websocket.go. -/
def closeChans (c : wsConn) : Option (wsConn × List WsEvent) :=
  (closeChansLoop (c.chanHandlers.map Prod.fst) c.chanHandlers).map
    (fun r => ({ c with chanHandlers := r.1 }, r.2))

/-- The calls that `handleWsConn` defers. -/
inductive Deferred
  | closeInFlight
  | closeChans
  | connClose
  deriving DecidableEq, Repr

/-- The `defer` statements of `wsConn.handleWsConn` (lines 462-464), in program order. -/
def handleWsConnDefers : List Deferred :=
  [Deferred.closeInFlight, Deferred.closeChans, Deferred.connClose]

/-- Running one deferred call. -/
def runDeferred (c : wsConn) : Deferred → Option (wsConn × List WsEvent)
  | .closeInFlight => some (closeInFlight c)
  | .closeChans => closeChans c
  | .connClose => some (c, [WsEvent.connClose])

/-- Running deferred calls, the first of the list first; a panic (`none`) of one
call ends the model run. -/
def runDefers : List Deferred → wsConn → Option (wsConn × List WsEvent)
  | [], c => some (c, [])
  | d :: ds, c =>
    match runDeferred c d with
    | none => none
    | some (c', evs) =>
      match runDefers ds c' with
      | none => none
      | some (c'', evs') => some (c'', evs ++ evs')

/-- The order in which Go runs deferred calls when the function returns: last
deferred, first run. -/
def shutdownOrder : List Deferred := handleWsConnDefers.reverse

/-- What happens when `wsConn.handleWsConn` returns: its deferred calls run. -/
def handleWsConnReturn (c : wsConn) : Option (wsConn × List WsEvent) :=
  runDefers shutdownOrder c

/-- The responses delivered to the reply slot `ready` among a list of events. -/
def deliveredTo (ready : Nat) : List WsEvent → List clientResponse
  | [] => []
  | WsEvent.deliver r resp :: es =>
    if r = ready then resp :: deliveredTo ready es else deliveredTo ready es
  | _ :: es => deliveredTo ready es

/-- The cancellation handles invoked among a list of events. -/
def cancelled : List WsEvent → List Nat
  | [] => []
  | WsEvent.cancel h :: es => h :: cancelled es
  | _ :: es => cancelled es

/-- The synthetic response of `closeInFlight` for the inflight id `id`. -/
def closedResponse (id : Int) : clientResponse :=
  { Jsonrpc := "2.0", ID := id,
    Error := some { Message := "handler: websocket connection closed", Code := 2 } }

/-- A connection with one call in flight (id 6, reply slot 60), one incoming channel
handler (chanId 3, handler 30) and one call being handled (id 5, cancel handle 50). -/
def sampleConn : wsConn :=
  { inflight := [(6, { req := { Jsonrpc := "2.0", ID := some 6, Method := "Svc.Echo" },
                       ready := 60 })],
    chanHandlers := [(3, 30)],
    handling := [(5, 50)],
    chanCtr := 0 }

/-- A stream-opener for the examples: `handleChanOut` on a fresh connection, taking
the given branch of its `select`. -/
def sampleOpener (registered : Bool) : chanOut :=
  fun ch req => (handleChanOut {} ch req registered).2.2

/-! ### Frames and the client-side tables -/

/-- `frame` of websocket.go. `Result` is the raw `json.RawMessage`; the empty text
stands for nil (a decoded JSON value is never empty). -/
structure frame where
  Jsonrpc : String := ""
  ID : Option Int := none
  Meta : List (String × String) := []
  Method : String := ""
  Params : List param := []
  Result : String := ""
  Error : Option respError := none
  deriving DecidableEq, Repr

/-- `delete(m, k)` on a map. -/
def mapDelete {κ α : Type} [BEq κ] (m : List (κ × α)) (k : κ) : List (κ × α) :=
  m.filter (fun e => e.1 != k)

/-- `m[k] = v` on a map. -/
def mapSet {κ α : Type} [BEq κ] (m : List (κ × α)) (k : κ) (v : α) : List (κ × α) :=
  mapDelete m k ++ [(k, v)]

/-- `json.Unmarshal(data, &id)` for an integer target; `none` is an error. -/
abbrev Unmarshal (α : Type) := String → Option α

/-- `wsConn.handleResponse` of websocket.go. `none` is the panic of `*frame.ID` on a
frame without id. The deliver function that the stream-opener `retCh` returns is
identified by the number of the opener. -/
def handleResponse (unmarshal : Unmarshal Nat) (c : wsConn) (f : frame) :
    Option (wsConn × List WsEvent) :=
  match f.ID with
  | none => none
  | some id =>
    match c.inflight.lookup id with
    | none => some (c, [])
    | some req =>
      let resp : clientResponse :=
        { Jsonrpc := f.Jsonrpc, Result := f.Result, ID := id, Error := f.Error }
      match req.retCh, decide (f.Result ≠ "") with
      | some opener, true =>
        match unmarshal f.Result with
        | none => some (c, [])
        | some chid =>
          some ({ c with chanHandlers := mapSet c.chanHandlers chid opener,
                         inflight := mapDelete c.inflight id },
                [WsEvent.ctxAsync opener id, WsEvent.deliver req.ready resp])
      | _, _ =>
        some ({ c with inflight := mapDelete c.inflight id },
              [WsEvent.deliver req.ready resp])

/-- `wsConn.cancelCtx` of websocket.go. `none` is the panic of `req.Params[0]` on a
frame without params. -/
def cancelCtx (unmarshal : Unmarshal Int) (c : wsConn) (req : frame) :
    Option (wsConn × List WsEvent) :=
  match req.Params[0]? with
  | none => none
  | some p =>
    match unmarshal p.data with
    | none => some (c, [])
    | some id =>
      match c.handling.lookup id with
      | some cf => some (c, [WsEvent.cancel cf])
      | none => some (c, [])

/-- `wsConn.handleChanMessage` of websocket.go. `none` is an index panic. -/
def handleChanMessage (unmarshal : Unmarshal Nat) (c : wsConn) (f : frame) :
    Option (wsConn × List WsEvent) :=
  match f.Params[0]? with
  | none => none
  | some p =>
    match unmarshal p.data with
    | none => some (c, [])
    | some chid =>
      match c.chanHandlers.lookup chid with
      | none => some (c, [])
      | some hnd =>
        match f.Params[1]? with
        | none => none
        | some payload => some (c, [WsEvent.chanCall hnd (some payload.data) true])

/-- `wsConn.handleChanClose` of websocket.go. `none` is an index panic. -/
def handleChanClose (unmarshal : Unmarshal Nat) (c : wsConn) (f : frame) :
    Option (wsConn × List WsEvent) :=
  match f.Params[0]? with
  | none => none
  | some p =>
    match unmarshal p.data with
    | none => some (c, [])
    | some chid =>
      match c.chanHandlers.lookup chid with
      | none => some (c, [])
      | some hnd =>
        some ({ c with chanHandlers := mapDelete c.chanHandlers chid },
              [WsEvent.chanCall hnd none false])

/-- The chanIds that a sequence of `handleChanOut` calls allocates on a connection;
each call is given with the channel, the request id and the branch its `select` takes. -/
def allocChanIds : wsConn → List (Value × Int × Bool) → List Nat
  | _, [] => []
  | c, (ch, req, registered) :: rest =>
    (handleChanOut c ch req registered).1.chanCtr ::
      allocChanIds (handleChanOut c ch req registered).1 rest

/-- The messages put on the write queue among a list of events. -/
def enqueued : List WsEvent → List Msg
  | [] => []
  | WsEvent.enqueue m :: es => m :: enqueued es
  | _ :: es => enqueued es

/-- The calls of incoming channel handlers among a list of events. -/
def chanCalls : List WsEvent → List (Nat × Option String × Bool)
  | [] => []
  | WsEvent.chanCall h m ok :: es => (h, m, ok) :: chanCalls es
  | _ :: es => chanCalls es

/-- A decoder of unsigned decimal ids for the examples. -/
def sampleUnmarshalNat : Unmarshal Nat := fun s =>
  if s = "1" then some 1 else if s = "3" then some 3 else if s = "5" then some 5 else none

/-- A decoder of integer ids for the examples. -/
def sampleUnmarshalInt : Unmarshal Int := fun s =>
  if s = "5" then some 5 else if s = "6" then some 6 else if s = "9" then some 9 else none

/-- A client connection with two calls in flight: id 7 expects a stream (reply slot 70,
stream-opener 9), id 8 is an ordinary call (reply slot 80). -/
def clientConn : wsConn :=
  { inflight := [(7, { req := { Jsonrpc := "2.0", ID := some 7, Method := "Svc.Tail" },
                       ready := 70, retCh := some 9 }),
                 (8, { req := { Jsonrpc := "2.0", ID := some 8, Method := "Svc.Echo" },
                       ready := 80 })],
    chanHandlers := [(3, 30)] }

/-! ### Inbound calls -/

/-- The reply writer `nextWriter` that `handleCall` hands to `handle` (lines 331-343):
the empty function for a notification; for a call with id the function
`func(v interface{}) { msg, _ := json.Marshal(v); c.writeChan <- msg }`. That function
takes a value, while `handle` hands its writer a write callback of type
`func(io.Writer)`, so what it does with the callback is not determined by the source:
it is the parameter `enqueue`. -/
def nextWriter (enqueue : WriteFn) (id : Option Int) : WriteFn :=
  match id with
  | none => fun _ => []
  | some _ => enqueue

/-- Lines 339-347 of `wsConn.handleCall`: for a call with id the cancellation handle
`cancel` of the call's context is stored in the handling table. -/
def handleCallRegister (c : wsConn) (f : frame) (cancel : Nat) : wsConn :=
  match f.ID with
  | none => c
  | some id => { c with handling := mapSet c.handling id cancel }

/-- The completion callback `done` that `handleCall` builds (lines 334-338, 349-357),
applied to the connection as it is when the call completes. -/
def handleCallDone (f : frame) (cancel : Nat) (c : wsConn) (keepCtx : Bool) :
    wsConn × List WsEvent :=
  match f.ID with
  | none => (c, if keepCtx then [] else [WsEvent.cancel cancel])
  | some id =>
    if keepCtx then (c, [])
    else ({ c with handling := mapDelete c.handling id }, [WsEvent.cancel cancel])

/-- The `request` that `handleCall` builds from a frame (lines 321-327). -/
def frameRequest (f : frame) : request :=
  { Jsonrpc := f.Jsonrpc, ID := f.ID, Meta := f.Meta, Method := f.Method,
    Params := f.Params }

/-- `wsConn.handleCall` of websocket.go: the connection after the registration, and the
run of the `handle` task it starts (`none` on a connection without handler, where the
call is only logged). The `done` calls of the run are applied by `completeCall`;
`enqueue` is the open part of `nextWriter`. -/
def handleCall (decode : Decoder) (handler : Option handlers) (ctx : Value) (c : wsConn)
    (f : frame) (cancel : Nat) (chOut : chanOut) (enqueue : WriteFn) : wsConn × Option Run :=
  match handler with
  | none => (c, none)
  | some h =>
    (handleCallRegister c f cancel,
     some (handle decode h ctx (frameRequest f) (nextWriter enqueue f.ID) rpcError doneEvent
       (some chOut)))

/-- The connection once the dispatched call has completed: the `done` calls of its
run are applied in order. -/
def completeCall (f : frame) (cancel : Nat) (c : wsConn) (run : Run) :
    wsConn × List WsEvent :=
  (doneCalls run.events).foldl
    (fun acc keepCtx =>
      ((handleCallDone f cancel acc.1 keepCtx).1,
       acc.2 ++ (handleCallDone f cancel acc.1 keepCtx).2))
    (c, [])

/-- What goes onto the HTTP response among a list of events: status headers and
frames. -/
def wire : List Event → List Event
  | [] => []
  | Event.header s :: es => Event.header s :: wire es
  | Event.frame r :: es => Event.frame r :: wire es
  | _ :: es => wire es

/-- A request frame with id, method and raw params. -/
def mkFrame (id : Option Int) (method : String) (params : List String) : frame :=
  { Jsonrpc := "2.0", ID := id, Method := method,
    Params := params.map (fun d => { data := d }) }

/-- The possible contents of the HTTP response to the request `req`: nothing at all
(a notification that succeeded, or a run that panicked); status 500 alone (an error
reply to a notification); status 500 followed by an error frame written by `rpcError`
with one of its four codes; or, with no status set, the frame written by `handle`
itself, whose error is absent or has code 1. -/
def HttpReply (req : request) (evs : List Event) : Prop :=
  evs = [] ∨
  evs = [Event.header 500] ∨
  (∃ id code msg, req.ID = some id ∧ code ∈ [rpcParseError, rpcMethodNotFound,
      rpcInvalidParams, 0] ∧
    evs = [Event.header 500,
           Event.frame { Jsonrpc := "2.0", ID := id,
                         Error := some { Code := code, Message := msg } }]) ∨
  (∃ r : response, req.ID = some r.ID ∧
    (r.Error = none ∨ ∃ m, r.Error = some { Code := 1, Message := m }) ∧
    evs = [Event.frame r])

/-! ### The streaming channel multiplexer -/

/-- The selector state with which `handleOutChans` enters its loop (lines 98-109). -/
def initOutChans (regV exitV : Value) : OutChans :=
  { cases := [regV, exitV], caseToID := [] }

/-- The (source, chanId) pairs of a selector state: slot `i + 2` with `caseToID[i]`. -/
def OutChans.pairs (s : OutChans) : List (Value × Nat) :=
  (s.cases.drop 2).zip s.caseToID

/-- The selections that `reflect.Select` can report in a state: an index of a source
slot lies behind the two internal slots and within `cases`. -/
def Selected.valid (s : OutChans) : Selected → Prop
  | .source chosen _ _ => 2 ≤ chosen ∧ chosen < s.cases.length
  | _ => True

/-- The invariant of the selector state: `caseToID` has one entry per source slot, and
slots 0 and 1 hold the registration and exit channels. -/
structure OutChans.Inv (s : OutChans) (regV exitV : Value) : Prop where
  len : s.cases.length = s.caseToID.length + 2
  slot0 : s.cases[0]? = some regV
  slot1 : s.cases[1]? = some exitV

/-- The response that tells the client the chanId of a streaming call. -/
def chanResponse (reqID : Int) (chID : Nat) : Msg :=
  Msg.response { Jsonrpc := "2.0", ID := reqID, Result := Value.u64 chID }

/-- The notification `xrpc.ch.val [chID, v]`. -/
def chanValMsg (chID : Nat) (v : Value) : Msg :=
  Msg.request { Jsonrpc := "2.0", ID := none, Method := chValue,
                Params := [{ v := Value.u64 chID }, { v := v }] }

/-- The notification `xrpc.ch.close [chID]`. -/
def chanCloseMsg (chID : Nat) : Msg :=
  Msg.request { Jsonrpc := "2.0", ID := none, Method := chClose,
                Params := [{ v := Value.u64 chID }] }

/-- What the multiplexer's environment does: a registration arrives; `reflect.Select`
reports the case of a stream with a value received; it reports that case with its
channel closed. The case is named by the source channel it holds and the chanId it was
registered under: the slot of a stream moves when another stream is removed, and one
channel may be registered under several chanIds, in which case `reflect.Select` reports
either of its cases. -/
inductive MuxEvent
  | register (reg : outChanReg)
  | value (src : Value) (chID : Nat) (v : Value)
  | closed (src : Value) (chID : Nat)
  deriving DecidableEq, Repr

/-- The slot of `cases` that holds the source `src` paired with the chanId `chID`; as
long as the chanIds are distinct there is one such slot at most. -/
def slotOf (s : OutChans) (src : Value) (chID : Nat) : Option Nat :=
  if (src, chID) ∈ s.pairs then
    some (s.pairs.findIdx (fun p => decide (p = (src, chID))) + 2)
  else none

/-- What `reflect.Select` reports for an event; `none` when the selector holds no case
with that source and chanId, so that the event cannot happen. -/
def selectOf (s : OutChans) : MuxEvent → Option Selected
  | .register reg => some (Selected.registration reg)
  | .value src c v => (slotOf s src c).map (fun k => Selected.source k v true)
  | .closed src c => (slotOf s src c).map (fun k => Selected.source k Value.nil false)

/-- Running the loop of `handleOutChans` over a sequence of events; `none` when an
event cannot happen in the state reached, or when the loop panics. -/
def muxRun : OutChans → List MuxEvent → Option (OutChans × List Msg)
  | s, [] => some (s, [])
  | s, e :: rest =>
    match selectOf s e with
    | none => none
    | some sel =>
      match handleOutChansStep s sel with
      | .continue_ s' out =>
        match muxRun s' rest with
        | none => none
        | some (s'', out') => some (s'', out ++ out')
      | _ => none

/-- The registrations among a sequence of events. -/
def registrations : List MuxEvent → List outChanReg
  | [] => []
  | .register reg :: rest => reg :: registrations rest
  | _ :: rest => registrations rest

/-- The values received at the case of the source `src` registered under the chanId
`c` in a sequence of events, in order. -/
def valuesFrom (src : Value) (c : Nat) : List MuxEvent → List Value
  | [] => []
  | .value s k v :: rest =>
    if s = src ∧ k = c then v :: valuesFrom src c rest else valuesFrom src c rest
  | _ :: rest => valuesFrom src c rest

/-- Whether the case of the source `src` registered under the chanId `c` is reported
closed in a sequence of events. -/
def closedIn (src : Value) (c : Nat) (es : List MuxEvent) : Bool :=
  decide (MuxEvent.closed src c ∈ es)

/-- Whether a message concerns the chanId `c`: the response announcing `c`, or a
notification whose first param is `c`. -/
def Msg.concerns (c : Nat) : Msg → Bool
  | .response r => decide (r.Result = Value.u64 c)
  | .request r =>
    match r.Params with
    | p :: _ => decide (p.v = Value.u64 c)
    | [] => false

/-- The messages concerning the chanId `c` among the messages enqueued, in order. -/
def concerning (c : Nat) (out : List Msg) : List Msg :=
  out.filter (Msg.concerns c)

/-- The notifications for a stream with chanId `c` fed by the source `src`: one
`xrpc.ch.val` per value received at its case in the events, in order, then the
`xrpc.ch.close` if its case is reported closed in the events. -/
def chanFrames (c : Nat) (src : Value) (es : List MuxEvent) : List Msg :=
  (valuesFrom src c es).map (chanValMsg c) ++
    (if closedIn src c es = true then [chanCloseMsg c] else [])

/-- What a run of the multiplexer from state `s` over the events `es`, ending in state
`s'` with the messages `out` enqueued, guarantees. -/
structure MuxFacts (regV exitV : Value) (s : OutChans) (es : List MuxEvent)
    (s' : OutChans) (out : List Msg) : Prop where
  /-- The invariant holds at the end. -/
  inv : s'.Inv regV exitV
  /-- Every pair of the final state was in the initial state or was registered. -/
  origin : ∀ p ∈ s'.pairs, p ∈ s.pairs ∨ ∃ reg ∈ registrations es, p = (reg.ch, reg.chID)
  /-- A stream that was live at the start gets its value and close notifications. -/
  live : ∀ src c, (src, c) ∈ s.pairs → concerning c out = chanFrames c src es
  /-- A stream registered during the run gets its response first, then its value and
  close notifications. -/
  fresh : ∀ reg ∈ registrations es,
    concerning reg.chID out =
      chanResponse reg.reqID reg.chID :: chanFrames reg.chID reg.ch es
  /-- Nothing is enqueued for a chanId that is neither live nor registered. -/
  silent : ∀ c, c ∉ s.pairs.map Prod.snd → c ∉ (registrations es).map (fun r => r.chID) →
    concerning c out = []
  /-- A chanId that is neither in the selector nor registered has no event. -/
  absent : ∀ src c, c ∉ s.pairs.map Prod.snd →
    c ∉ (registrations es).map (fun r => r.chID) →
    valuesFrom src c es = [] ∧ closedIn src c es = false

/-- A run of the multiplexer for the examples: call 4 registers the source channel 7
under chanId 1, call 5 registers the same channel under chanId 2; the case of chanId 2
receives "y", the case of chanId 1 receives "x" and is reported closed. -/
def sampleMuxEvents : List MuxEvent :=
  [MuxEvent.register { reqID := 4, chID := 1, ch := Value.chan 7 },
   MuxEvent.register { reqID := 5, chID := 2, ch := Value.chan 7 },
   MuxEvent.value (Value.chan 7) 2 (Value.obj "\"y\""),
   MuxEvent.value (Value.chan 7) 1 (Value.obj "\"x\""),
   MuxEvent.closed (Value.chan 7) 1]

/-- Whether a sequence of events can happen when the streams in `live` are open: a
value or a close is reported only at the case of a stream that was registered and is
not yet closed. -/
def feasible : List (Value × Nat) → List MuxEvent → Bool
  | _, [] => true
  | live, .register reg :: rest => feasible (live ++ [(reg.ch, reg.chID)]) rest
  | live, .value src c _ :: rest => decide ((src, c) ∈ live) && feasible live rest
  | live, .closed src c :: rest =>
    decide ((src, c) ∈ live) && feasible (live.filter (fun x => x != (src, c))) rest

/-- A selector state for the examples: the sources 7 and 8 stream under the chanIds 1
and 2. -/
def sampleOutChans : OutChans :=
  { cases := [Value.obj "reg", Value.obj "exit", Value.chan 7, Value.chan 8],
    caseToID := [1, 2] }

/-! ### Replies on the wire -/

/-- A scalar JSON value. -/
inductive JLeaf
  | null
  | str (s : String)
  | num (n : Int)
  deriving DecidableEq, Repr

/-- A member value of the JSON object that `response` is marshalled to: a scalar, an
object of scalars (the error), or a value kept as its text, which is how the member
`result` is carried and what the target `json.RawMessage` stores. The text between
`json.Marshal` and `json.Unmarshal` is not modelled: the decoder receives the members
that the encoder produced, in the same order. -/
inductive JVal
  | leaf (v : JLeaf)
  | obj (members : List (String × JLeaf))
  | raw (text : String)
  deriving DecidableEq, Repr

/-- The members of a marshalled `*respError`, by the tags `code` and `message`. -/
def marshalError (e : respError) : JVal :=
  JVal.obj [("code", JLeaf.num e.Code), ("message", JLeaf.str e.Message)]

/-- Decoding a scalar into a string field that holds `old`: `null` has no effect, a
number is an error. -/
def JLeaf.asStr (old : String) : JLeaf → Option String
  | .str t => some t
  | .null => some old
  | .num _ => none

/-- Decoding a scalar into an integer field that holds `old`: `null` has no effect, a
string is an error. -/
def JLeaf.asInt (old : Int) : JLeaf → Option Int
  | .num n => some n
  | .null => some old
  | .str _ => none

/-- Storing one member of an object into a `respError`: the member is stored in the
field with its tag, and a member with another key is skipped. -/
def storeError (e : respError) (k : String) (v : JLeaf) : Option respError :=
  if k = "code" then (v.asInt e.Code).map (fun n => { e with Code := n })
  else if k = "message" then (v.asStr e.Message).map (fun m => { e with Message := m })
  else some e

/-- Decoding the members of an object into a `respError`, member by member; the first
error ends the decoding. -/
def unmarshalError : List (String × JLeaf) → respError → Option respError
  | [], e => some e
  | (k, v) :: rest, e =>
    match storeError e k v with
    | none => none
    | some e' => unmarshalError rest e'

/-- The members that `json.Marshal` produces for a `response`, by its tags: `jsonrpc`,
`result` (left out for the nil interface), `id`, `error` (left out for the nil pointer),
in the order of the fields. `enc` is the encoding of the result value; `none` is the
error of `Marshal` for a value that cannot be encoded. -/
def marshalResponse (enc : Value → Option String) (r : response) :
    Option (List (String × JVal)) :=
  let tail : List (String × JVal) :=
    ("id", JVal.leaf (JLeaf.num r.ID)) ::
      (match r.Error with
       | none => []
       | some e => [("error", marshalError e)])
  match r.Result with
  | .nil => some (("jsonrpc", JVal.leaf (JLeaf.str r.Jsonrpc)) :: tail)
  | v =>
    match enc v with
    | none => none
    | some t =>
      some (("jsonrpc", JVal.leaf (JLeaf.str r.Jsonrpc)) :: ("result", JVal.raw t) :: tail)

/-- Decoding a member value into a string field that holds `old`. -/
def JVal.asStr (old : String) : JVal → Option String
  | .leaf v => v.asStr old
  | .obj _ => none
  | .raw _ => none

/-- Decoding a member value into a field of type `*int64`: `null` gives the nil
pointer. -/
def JVal.asID : JVal → Option (Option Int)
  | .leaf (.num n) => some (some n)
  | .leaf .null => some none
  | .leaf (.str _) => none
  | .obj _ => none
  | .raw _ => none

/-- Decoding a member value into a `json.RawMessage`: the text of the value. Only values
carried as text are represented. -/
def JVal.asRaw : JVal → Option String
  | .raw t => some t
  | .leaf _ => none
  | .obj _ => none

/-- Decoding a member value into a field of type `*respError` that holds `old`: an
object is decoded into the struct pointed to (a fresh one for the nil pointer), `null`
gives the nil pointer. -/
def JVal.asError (old : Option respError) : JVal → Option (Option respError)
  | .obj members =>
    (unmarshalError members (old.getD { Code := 0, Message := "" })).map some
  | .leaf .null => some none
  | .leaf (.str _) => none
  | .leaf (.num _) => none
  | .raw _ => none

/-- Storing one member of an object into a `frame` by the tags of its fields; a member
with an unknown key is skipped. The members `params` and `meta` need values that `JVal`
does not represent: they are errors here. -/
def storeFrame (f : frame) (k : String) (v : JVal) : Option frame :=
  if k = "jsonrpc" then (v.asStr f.Jsonrpc).map (fun t => { f with Jsonrpc := t })
  else if k = "id" then v.asID.map (fun i => { f with ID := i })
  else if k = "method" then (v.asStr f.Method).map (fun t => { f with Method := t })
  else if k = "result" then v.asRaw.map (fun t => { f with Result := t })
  else if k = "error" then (v.asError f.Error).map (fun e => { f with Error := e })
  else if k = "params" ∨ k = "meta" then none
  else some f

/-- Decoding the members of an object into a `frame`, on top of the frame `f`, member by
member; the first error ends the decoding. -/
def unmarshalFrame : List (String × JVal) → frame → Option frame
  | [], f => some f
  | (k, v) :: rest, f =>
    match storeFrame f k v with
    | none => none
    | some f' => unmarshalFrame rest f'

/-- An encoding of result values for the examples: an unsigned integer as its decimal
digits, any other encodable value as the text that tags it; a channel is refused. -/
def sampleMarshal : Value → Option String
  | .nil => some "null"
  | .err _ => some "\x7b\x7d"
  | .chan _ => none
  | .u64 n => some (Nat.repr n)
  | .obj t => some t
  | .unsupported _ => none

/-- The reply to the ordinary call 8 for the examples. -/
def sampleReply : response :=
  { Jsonrpc := "2.0", Result := Value.obj "\"ok\"", ID := 8 }

/-- The members that the sample reply is marshalled to. -/
def sampleReplyMembers : List (String × JVal) :=
  [("jsonrpc", JVal.leaf (JLeaf.str "2.0")), ("result", JVal.raw "\"ok\""),
   ("id", JVal.leaf (JLeaf.num 8))]

/-! ### Inbound frames -/

/-- `wsCancel` of websocket.go. -/
def wsCancel : String := "xrpc.cancel"
/-- `wsPing` of websocket.go. -/
def wsPing : String := "xrpc.ping"
/-- `wsPong` of websocket.go. -/
def wsPong : String := "xrpc.pong"

/-- What one call of `handleFrame` leaves behind when it returns: the connection, the
effects on the tables and reply slots, the messages put on `keepAliveChan`, and the run
of the `handle` task that `handleCall` starts, if any. -/
structure FrameOutcome where
  conn : wsConn
  events : List WsEvent := []
  keepAlive : List Msg := []
  task : Option Run := none
  deriving DecidableEq, Repr

/-- The outcome of a built-in handler that returns a connection and its effects. -/
def FrameOutcome.ofEngine (r : wsConn × List WsEvent) : FrameOutcome :=
  { conn := r.1, events := r.2 }

/-- `wsConn.handleFrame` of websocket.go: the `switch` on `frame.Method`. `none` is a
runtime fault of the handler called. `now` is the text of `time.Now()` that the pong
carries; `cancel` is the cancellation handle of the context that `handleCall` makes, and
`enqueue` the open part of its `nextWriter`. -/
def handleFrame (unmarshalNat : Unmarshal Nat) (unmarshalInt : Unmarshal Int)
    (decode : Decoder) (handler : Option handlers) (ctx : Value) (now : String)
    (cancel : Nat) (chOut : chanOut) (enqueue : WriteFn) (c : wsConn) (f : frame) :
    Option FrameOutcome :=
  if f.Method = "" then (handleResponse unmarshalNat c f).map FrameOutcome.ofEngine
  else if f.Method = wsCancel then (cancelCtx unmarshalInt c f).map FrameOutcome.ofEngine
  else if f.Method = wsPing then
    some { conn := c,
           keepAlive := [Msg.request { Jsonrpc := "2.0", Method := wsPong,
                                       Params := [{ v := Value.obj now }] }] }
  else if f.Method = wsPong then some { conn := c }
  else if f.Method = chValue then
    (handleChanMessage unmarshalNat c f).map FrameOutcome.ofEngine
  else if f.Method = chClose then
    (handleChanClose unmarshalNat c f).map FrameOutcome.ofEngine
  else
    some { conn := (handleCall decode handler ctx c f cancel chOut enqueue).1,
           task := (handleCall decode handler ctx c f cancel chOut enqueue).2 }

/-! ### Registration of a receiver's methods -/

/-- Modelled from the spec: `contextType` (its declaration is not among the sources),
the cancellation-context type with which `register` compares the first argument. -/
def contextType : RType := { name := "context.Context" }

/-- Modelled from the spec: the type of failures, which `processFuncOut` looks for among
the return slots. -/
def errType : RType := { name := "error" }

/-- A `reflect.Method` of the receiver's type: its name, the parameter types of its
function type (`In(0)` is the receiver; `method.Type` and `method.Func.Type()` are the
same type), the types of its return slots, and its function value. -/
structure reflectMethod where
  Name : String
  ins : List RType
  outs : List RType := []
  Func : Func

/-- The index of the first return slot that satisfies `p`, `-1` when there is none. -/
def slotIndex (p : RType → Bool) (outs : List RType) : Int :=
  if outs.any p then (outs.findIdx p : Nat) else -1

/-- Modelled from the spec: `processFuncOut` (its declaration is not among the sources):
`valOut` is the index of the first return slot that is not a failure, `errOut` the index
of the return slot whose type is the failure type. -/
def processFuncOut (outs : List RType) : Int × Int :=
  (slotIndex (fun t => t != errType) outs, slotIndex (fun t => t == errType) outs)

/-- The loop `for i := 0; i < ins; i++ { recvs[i] = method.Type.In(i + 1 + hasCtx) }`
of `register`, with `start = 1 + hasCtx`; `none` is the panic of `In` on an index out of
range. -/
def paramTypes (ins : List RType) (start : Nat) : Nat → Option (List RType)
  | 0 => some []
  | n + 1 =>
    match paramTypes ins start n, ins[n + start]? with
    | some recvs, some t => some (recvs ++ [t])
    | _, _ => none

/-- The test `funcType.NumIn() >= 2 && funcType.In(1) == contextType` of `register`, as
the number `hasCtx`. -/
def hasCtxOf (ins : List RType) : Nat :=
  if 2 ≤ ins.length ∧ ins[1]? = some contextType then 1 else 0

/-- The body of the loop over the methods in `handlers.register` (lines 91-119). `none`
is a runtime fault: `make` with a negative length, or `In` with an index out of range. -/
def registerMethod (nspace : String) (val : Value) (h : handlers)
    (method : reflectMethod) : Option handlers :=
  if (method.ins.length : Int) - 1 - (hasCtxOf method.ins : Nat) < 0 then none
  else
    (paramTypes method.ins (1 + hasCtxOf method.ins)
        (method.ins.length - 1 - hasCtxOf method.ins)).map
      (fun recvs =>
        mapSet h (nspace ++ "." ++ method.Name)
          { paramReceivers := recvs,
            nParams := method.ins.length - 1 - hasCtxOf method.ins,
            handlerFunc := method.Func,
            receiver := val,
            hasCtx := hasCtxOf method.ins,
            errOut := (processFuncOut method.outs).2,
            valOut := (processFuncOut method.outs).1 })

/-- The loop over the methods in `handlers.register`; a fault ends it. -/
def registerLoop (nspace : String) (val : Value) :
    List reflectMethod → handlers → Option handlers
  | [], h => some h
  | m :: rest, h =>
    match registerMethod nspace val h m with
    | none => none
    | some h' => registerLoop nspace val rest h'

/-- `handlers.register` of handler.go. `val` is `reflect.ValueOf(r)` and `methods` the
methods that `val.Type().Method(i)` enumerates; `none` is a runtime fault, among them
the panic of `val.NumMethod()` on the zero `Value` of a nil receiver. -/
def handlers.register (h : handlers) (nspace : String) (val : Value)
    (methods : List reflectMethod) : Option handlers :=
  if val = Value.nil then none else registerLoop nspace val methods h

/-- The non-receiver arguments of a method. -/
def reflectMethod.args (m : reflectMethod) : List RType := m.ins.drop 1

/-- What each call of a sequence of `handleChanOut` calls does: the registration it sends
to the multiplexer (`none` when the connection is exiting) and the error it returns. -/
def chanOutRuns : wsConn → List (Value × Int × Bool) →
    List (Option outChanReg × Option String)
  | _, [] => []
  | c, (ch, req, registered) :: rest =>
    (handleChanOut c ch req registered).2 ::
      chanOutRuns (handleChanOut c ch req registered).1 rest

/-- The chanIds in the registrations that a sequence of `handleChanOut` calls sends, in
call order. -/
def sentChanIds (c : wsConn) (calls : List (Value × Int × Bool)) : List Nat :=
  (chanOutRuns c calls).filterMap (fun r => r.1.map (fun reg => reg.chID))

/-- What a call with the allocated chanId `id` sends and returns. -/
def chanOutResult (call : Value × Int × Bool) (id : Nat) :
    Option outChanReg × Option String :=
  if call.2.2 = true then (some { reqID := call.2.1, chID := id, ch := call.1 }, none)
  else (none, some "connection closing")

/-- What goes onto the HTTP response when `handleReader` serves the request `req`:
the status headers and frames of its run with an HTTP writer and the server's
`rpcError`. -/
def httpWire (decode : Decoder) (h : handlers) (ctx : Value) (req : request)
    (decoded : Option String) : List Event :=
  wire (handleReader decode h ctx req decoded { isHTTP := true } rpcError).events

/-- Status 500 followed by the error frame for the request `req`; the frame is left out
for a notification. -/
def httpError (req : request) (code : Int) (msg : String) : List Event :=
  Event.header 500 ::
    (match req.ID with
     | none => []
     | some id =>
       [Event.frame { Jsonrpc := "2.0", ID := id,
                      Error := some { Code := code, Message := msg } }])

/-- A reply writer for the examples: it puts nothing on record. -/
def sampleWriter : WriteFn := fun _ => []

/-! ## A sample service -/

/-- A decoder for the examples: an empty input is an error (`EOF`), any other input
decodes to a value tagged with its text. -/
def sampleDecode : Decoder := fun _ data =>
  if data = "" then Except.error "EOF" else Except.ok (Value.obj data)

/-- The method `Echo(string) (string, error)`: returns its argument. -/
def echoHandler : rpcHandler :=
  { paramReceivers := [{ name := "string" }], nParams := 1, receiver := Value.obj "svc",
    handlerFunc := { text := "Echo", outKinds := [Kind.other, Kind.iface],
                     call := fun args => CallOutcome.returns [args.getD 1 Value.nil, Value.nil] },
    hasCtx := 0, errOut := 1, valOut := 0 }

/-- The method `Tail() (<-chan string, error)`: returns channel 7. -/
def tailHandler : rpcHandler :=
  { paramReceivers := [], nParams := 0, receiver := Value.obj "svc",
    handlerFunc := { text := "Tail", outKinds := [Kind.chan, Kind.iface],
                     call := fun _ => CallOutcome.returns [Value.chan 7, Value.nil] },
    hasCtx := 0, errOut := 1, valOut := 0 }

/-- The method `Get() interface{}`: declared with an interface result, returns channel 9. -/
def getHandler : rpcHandler :=
  { paramReceivers := [], nParams := 0, receiver := Value.obj "svc",
    handlerFunc := { text := "Get", outKinds := [Kind.iface],
                     call := fun _ => CallOutcome.returns [Value.chan 9] },
    hasCtx := 0, errOut := -1, valOut := 0 }

/-- The method `Boom(ctx) error`: panics with "boom". -/
def boomHandler : rpcHandler :=
  { paramReceivers := [], nParams := 0, receiver := Value.obj "svc",
    handlerFunc := { text := "Boom", outKinds := [Kind.iface],
                     call := fun _ => CallOutcome.panics "boom" },
    hasCtx := 1, errOut := 0, valOut := -1 }

/-- The method `Fail() (string, error)`: returns an error "nope". -/
def failHandler : rpcHandler :=
  { paramReceivers := [], nParams := 0, receiver := Value.obj "svc",
    handlerFunc := { text := "Fail", outKinds := [Kind.other, Kind.iface],
                     call := fun _ => CallOutcome.returns [Value.obj "", Value.err "nope"] },
    hasCtx := 0, errOut := 1, valOut := 0 }

/-- The registry after `register("Svc", svc)`. -/
def sampleRegistry : handlers :=
  [("Svc.Echo", echoHandler), ("Svc.Tail", tailHandler), ("Svc.Get", getHandler),
   ("Svc.Boom", boomHandler), ("Svc.Fail", failHandler)]

/-- A request frame with id, method and raw params. -/
def mkRequest (id : Option Int) (method : String) (params : List String) : request :=
  { Jsonrpc := "2.0", ID := id, Method := method,
    Params := params.map (fun d => { data := d }) }

/-- The static stream test of `handle` (line 197) holds: the value return slot exists
and its declared type is a channel type. -/
def isStream (hd : rpcHandler) : Prop := outCh? hd = some true

instance (hd : rpcHandler) : Decidable (isStream hd) := by
  unfold isStream; infer_instance

/-- The method `Watch(string) (<-chan string, error)`: returns channel 8. -/
def watchHandler : rpcHandler :=
  { paramReceivers := [{ name := "string" }], nParams := 1, receiver := Value.obj "svc",
    handlerFunc := { text := "Watch", outKinds := [Kind.chan, Kind.iface],
                     call := fun _ => CallOutcome.returns [Value.chan 8, Value.nil] },
    hasCtx := 0, errOut := 1, valOut := 0 }

/-- The registry after registering `Watch` as well. -/
def watchRegistry : handlers := ("Svc.Watch", watchHandler) :: sampleRegistry

/-- The leading arguments of the call: the receiver, then the context when
`hasCtx = 1` (for any other `hasCtx` the slots stay zero values). -/
def callPrefix (hd : rpcHandler) (ctx : Value) : List Value :=
  hd.receiver :: (if hd.hasCtx = 1 then [ctx] else List.replicate hd.hasCtx Value.nil)

/-- The request reaches the decoding loop of `handle` for descriptor `hd`: the method is
registered, the param count matches, the stream test yields `outCh`, a streaming method
has a stream-opener, and the descriptor has one parameter type per param. -/
structure Dispatches (h : handlers) (req : request) (chOut : Option chanOut)
    (hd : rpcHandler) (outCh : Bool) : Prop where
  reg : h.lookup req.Method = some hd
  count : req.Params.length = hd.nParams
  slot : outCh? hd = some outCh
  gate : chOut = none → outCh = false
  types : hd.paramReceivers.length = hd.nParams

/-- Every positional param decodes into its declared type, giving `vs` in order. -/
def DecodesTo (decode : Decoder) (hd : rpcHandler) (req : request) (vs : List Value) : Prop :=
  List.Forall₂ (fun tp v => decode tp.1 tp.2.data = Except.ok v)
    (hd.paramReceivers.zip req.Params) vs

/-- Some positional param does not decode into its declared type. -/
def DecodeFails (decode : Decoder) (hd : rpcHandler) (req : request) : Prop :=
  ∃ tp ∈ hd.paramReceivers.zip req.Params, ∀ v, decode tp.1 tp.2.data ≠ Except.ok v

/-- The return slots `out` fit the descriptor: the value and error slots exist and the
error slot holds nil or an error value. -/
structure SlotsOk (hd : rpcHandler) (out : List Value) : Prop where
  val : hd.valOut ≠ -1 → ∃ v, index? out hd.valOut = some v
  err : hd.errOut ≠ -1 → ∃ e, index? out hd.errOut = some e ∧ (e = Value.nil ∨ ∃ m, e = Value.err m)

/-- The value slot of a call result (`nil` when the method has none). -/
def valueSlot (hd : rpcHandler) (out : List Value) : Value :=
  if hd.valOut ≠ -1 then (index? out hd.valOut).getD Value.nil else Value.nil

/-- The text of the error found in the error slot, if the method has an error slot
and it is non-nil. -/
def errorSlot (hd : rpcHandler) (out : List Value) : Option String :=
  if hd.errOut ≠ -1 then (index? out hd.errOut).bind Value.errorText else none

/-- The descriptor that the loop body of `register` stores for a method with a receiver
argument (see `registerMethod_eq`). -/
def descriptorOf (val : Value) (m : reflectMethod) : rpcHandler :=
  { paramReceivers := m.args.drop (hasCtxOf m.ins),
    nParams := m.ins.length - 1 - hasCtxOf m.ins,
    handlerFunc := m.Func,
    receiver := val,
    hasCtx := hasCtxOf m.ins,
    errOut := (processFuncOut m.outs).2,
    valOut := (processFuncOut m.outs).1 }

/-- The function type `func(svc, context.Context, string)` for the examples. -/
def sampleGetIns : List RType :=
  [{ name := "*Svc" }, contextType, { name := "string" }]

/-- The methods `Echo(string)` and `Get(context.Context, string)` of the sample
receiver, as `reflect` enumerates them. -/
def sampleMethods : List reflectMethod :=
  [{ Name := "Echo", ins := [{ name := "*Svc" }, { name := "string" }],
     outs := [{ name := "string" }, errType], Func := echoHandler.handlerFunc },
   { Name := "Get", ins := sampleGetIns,
     outs := [{ name := "string" }, errType], Func := getHandler.handlerFunc }]

end Jsonrpc

namespace Rockfmw

open Jsonrpc (mapSet mapDelete)

/-! # rockfmw/rpc_map.go -/

/-- A `reflect.Type`, as far as `register` inspects it: a named type with its name and
package path (a builtin type has the empty package path), a pointer type, or another
unnamed type (slice, map, func, ...), given by its text. -/
inductive GoType
  | named (name pkgPath : String)
  | ptr (elem : GoType)
  | unnamed (text : String)
  deriving DecidableEq, Repr

/-- `Type.Name()`: empty for an unnamed type. -/
def GoType.Name : GoType → String
  | .named n _ => n
  | _ => ""

/-- `Type.PkgPath()`: empty for an unnamed type. -/
def GoType.PkgPath : GoType → String
  | .named _ p => p
  | _ => ""

/-- `Type.Elem()` of a pointer type. It is only applied to pointer types. -/
def GoType.Elem : GoType → GoType
  | .ptr e => e
  | t => t

/-- The loop `for t.Kind() == reflect.Ptr { t = t.Elem() }`. -/
def GoType.base : GoType → GoType
  | .ptr e => e.base
  | t => t

/-- The type `reflect.TypeOf((*DoneHandle)(nil)).Elem()`. -/
def doneHandleType : GoType :=
  GoType.named "DoneHandle" "github.com/shandiekeji/hggutils/rockfmw"

/-- A `reflect.Method`, as far as `register` inspects it; `ins` are the parameter types
of `method.Type`, the receiver first. -/
structure Method where
  Name : String
  PkgPath : String := ""
  ins : List GoType
  deriving DecidableEq, Repr

/-- The receiver handed to `register`, seen through reflection: its type, the text of
the type, the methods that `rcvrType.Method(i)` enumerates, in that order, and whether
the value is a nil pointer. -/
structure Receiver where
  rcvrType : GoType
  typeString : String
  methods : List Method
  nilPointer : Bool := false
  deriving DecidableEq, Repr

/-- `serviceMethod` of rpc_map.go. -/
structure serviceMethod where
  method : Method
  argsType : GoType
  deriving DecidableEq, Repr

/-- `service` of rpc_map.go; `rcvr` stands for both `rcvr` and `rcvrType`. -/
structure service where
  name : String
  rcvr : Receiver
  methods : List (String × serviceMethod)
  deriving DecidableEq, Repr

/-- `serviceMap` of rpc_map.go; the nil map and the empty map are both the empty list. -/
structure serviceMap where
  services : List (String × service) := []
  deriving DecidableEq, Repr

/-- The errors that `register` returns, in the order of their `fmt.Errorf` calls. -/
inductive RegisterError
  | notExported (name : String)
  | noServiceName (typeString : String)
  | noMethods (name : String)
  | alreadyDefined (name : String)
  deriving DecidableEq, Repr

/-- `isExported` of rpc_map.go: whether the first rune of the name is upper case
(`unicode.IsUpper`, here `isUpper`); the empty name decodes to `utf8.RuneError`, which
is not upper case. -/
def isExported (isUpper : Char → Bool) (name : String) : Bool :=
  match name.data with
  | [] => false
  | c :: _ => isUpper c

/-- `isExportedOrBuiltin` of rpc_map.go. -/
def isExportedOrBuiltin (isUpper : Char → Bool) (t : GoType) : Bool :=
  isExported isUpper t.base.Name || t.base.PkgPath == ""

/-- The body of the loop over the methods in `register` (lines 51-94): a method that
fails one of the tests is skipped, the others are stored under their lower-cased name
(`strings.ToLower`, here `toLower`). -/
def setupMethod (toLower : String → String) (isUpper : Char → Bool)
    (methods : List (String × serviceMethod)) (method : Method) :
    List (String × serviceMethod) :=
  if method.PkgPath ≠ "" then methods
  else
    match method.ins with
    | [_, args, reply] =>
      match args with
      | .ptr _ =>
        if isExportedOrBuiltin isUpper args = false then methods
        else if reply ≠ doneHandleType then methods
        else mapSet methods (toLower method.Name) { method := method, argsType := args.Elem }
      | _ => methods
    | _ => methods

/-- `reflect.Indirect(s.rcvr).Type().Name()`; `none` is the panic of `Type()` on the zero
`Value` that `Indirect` gives for a nil pointer. -/
def Receiver.indirectName (r : Receiver) : Option String :=
  match r.rcvrType with
  | .ptr elem => if r.nilPointer then none else some elem.Name
  | t => some t.Name

/-- `serviceMap.register` of rpc_map.go. The receiver `none` is the nil interface.
The outer `none` is a panic: of `Indirect(s.rcvr).Type()` for a nil receiver when no
name is given, and of `s.rcvrType.NumMethod()` on the nil `reflect.Type` of the nil
interface. Returns the registry and the error. -/
def register (toLower : String → String) (isUpper : Char → Bool) (slf : serviceMap)
    (rcvr : Option Receiver) (name : String) : Option (serviceMap × Option RegisterError) :=
  match rcvr with
  | none => none
  | some r =>
    match (if name = "" then r.indirectName else some name) with
    | none => none
    | some sname =>
      if name = "" ∧ isExported isUpper sname = false then
        some (slf, some (RegisterError.notExported sname))
      else if sname = "" then some (slf, some (RegisterError.noServiceName r.typeString))
      else
        let methods := r.methods.foldl (setupMethod toLower isUpper) []
        if methods.length = 0 then some (slf, some (RegisterError.noMethods sname))
        else if (slf.services.lookup sname).isSome then
          some (slf, some (RegisterError.alreadyDefined sname))
        else
          some ({ services := mapSet slf.services sname
                    { name := sname, rcvr := r, methods := methods } }, none)

/-- Eligibility in the words of the specification: the method is exported, it takes
exactly two arguments besides the receiver, the first a pointer to an exported or
builtin type, the second of type `DoneHandle`. -/
def eligible (isUpper : Char → Bool) (m : Method) : Bool :=
  m.PkgPath == "" &&
    match m.ins with
    | [_, .ptr elem, reply] => isExportedOrBuiltin isUpper elem && reply == doneHandleType
    | _ => false

/-- The entry that the service holds for an eligible method: the method and the type
that its first argument points to. -/
def entryOf (m : Method) : serviceMethod :=
  { method := m, argsType := (m.ins.getD 1 (GoType.unnamed "")).Elem }

/-- The last method of a list that is eligible and whose lower-cased name is `key`. -/
def lastEligible (toLower : String → String) (isUpper : Char → Bool) (key : String) :
    List Method → Option Method
  | [] => none
  | m :: rest =>
    match lastEligible toLower isUpper key rest with
    | some m' => some m'
    | none => if eligible isUpper m = true ∧ toLower m.Name = key then some m else none

/-- The name under which `register` files the service: the given name, or the name of
the receiver's type when none is given. -/
def resolvedName (r : Receiver) (name : String) : String :=
  if name = "" then r.indirectName.getD "" else name

/-- An upper-case test for the examples: the letters A to Z. -/
def sampleIsUpper : Char → Bool := fun c => decide (65 ≤ c.toNat ∧ c.toNat ≤ 90)

/-- A lower-casing for the examples. -/
def sampleToLower : String → String := fun s =>
  if s = "GetX" ∨ s = "Getx" then "getx" else if s = "Put" then "put" else s

/-- A method `name(*Args, DoneHandle)` for the examples. -/
def sampleMethod (name : String) : Method :=
  { Name := name,
    ins := [GoType.ptr (GoType.named "Store" "main"),
            GoType.ptr (GoType.named "Args" "main"), doneHandleType] }

/-- A receiver of type `*Store` for the examples, with the eligible methods `GetX`,
`Getx` and `Put`, and a method `Len` without arguments. -/
def sampleReceiver : Receiver :=
  { rcvrType := GoType.ptr (GoType.named "Store" "main"), typeString := "*main.Store",
    methods := [sampleMethod "GetX", sampleMethod "Getx",
                { Name := "Len", ins := [GoType.ptr (GoType.named "Store" "main")] },
                sampleMethod "Put"] }

/-- Putting a character in front of the first part of a split. -/
def consHead (c : Char) : List (List Char) → List (List Char)
  | p :: ps => (c :: p) :: ps
  | [] => [[c]]

/-- `strings.Split(s, ".")` on the characters of `s`: the parts between the dots; the
text without a dot, also the empty one, is its only part. -/
def splitChars : List Char → List (List Char)
  | [] => [[]]
  | c :: cs => if c = '.' then [] :: splitChars cs else consHead c (splitChars cs)

/-- `strings.Split(method, ".")`. -/
def split (s : String) : List String :=
  (splitChars s.data).map String.mk

/-- The errors that `get` returns, in the order of their `fmt.Errorf` calls. -/
inductive GetError
  | illFormed (method : String)
  | noService (method : String)
  | noMethod (method : String)
  deriving DecidableEq, Repr

/-- `serviceMap.get` of rpc_map.go; `toLower` is `strings.ToLower`. -/
def get (toLower : String → String) (slf : serviceMap) (method : String) :
    Except GetError (service × serviceMethod) :=
  match split method with
  | [svcName, methName] =>
    match slf.services.lookup svcName with
    | none => Except.error (GetError.noService method)
    | some svc =>
      match svc.methods.lookup (toLower methName) with
      | none => Except.error (GetError.noMethod method)
      | some sm => Except.ok (svc, sm)
  | _ => Except.error (GetError.illFormed method)

/-- The method table that `register` builds for the sample receiver. -/
def sampleEntries : List (String × serviceMethod) :=
  [("getx", entryOf (sampleMethod "Getx")), ("put", entryOf (sampleMethod "Put"))]

/-- The registry after the sample receiver is registered under the name `sname`. -/
def sampleServices (sname : String) : serviceMap :=
  { services := [(sname, { name := sname, rcvr := sampleReceiver, methods := sampleEntries })] }

end Rockfmw

namespace Jsonrpc

/-! ## Basic facts about the event projections -/

theorem frames_append (xs ys : List Event) : frames (xs ++ ys) = frames xs ++ frames ys := by
  induction xs with
  | nil => rfl
  | cons e es ih => cases e <;> simp [frames, ih]

theorem doneCalls_append (xs ys : List Event) :
    doneCalls (xs ++ ys) = doneCalls xs ++ doneCalls ys := by
  induction xs with
  | nil => rfl
  | cons e es ih => cases e <;> simp [doneCalls, ih]

theorem invocations_append (xs ys : List Event) :
    invocations (xs ++ ys) = invocations xs ++ invocations ys := by
  induction xs with
  | nil => rfl
  | cons e es ih => cases e <;> simp [invocations, ih]

theorem decodes_append (xs ys : List Event) :
    decodes (xs ++ ys) = decodes xs ++ decodes ys := by
  induction xs with
  | nil => rfl
  | cons e es ih => cases e <;> simp [decodes, ih]

/-- Channel values cannot be encoded. -/
theorem jsonEncodable_of_chan (v : Value) (h : v.isChan = true) :
    v.jsonEncodable = false := by
  cases v <;> simp_all [Value.isChan, Value.jsonEncodable]

/-- The test of line 256 fails exactly for values that are not channels. -/
theorem isChan_false_of (v : Value) (h : ¬ (v ≠ Value.nil ∧ v.isChan = true)) :
    v.isChan = false := by
  cases v <;> simp_all [Value.isChan]

theorem frames_encode (r : response) (h : r.Result.jsonEncodable = true) :
    frames (encode r) = [r] := by
  simp [encode, h, frames]

theorem frames_encode_not (r : response) (h : r.Result.jsonEncodable = false) :
    frames (encode r) = [] := by
  simp [encode, h, frames]

theorem frames_encode_chan (r : response) (h : r.Result.isChan = true) :
    frames (encode r) = [] :=
  frames_encode_not r (jsonEncodable_of_chan _ h)

theorem invocations_encode (r : response) : invocations (encode r) = [] := by
  unfold encode; split <;> rfl

theorem doneCalls_encode (r : response) : doneCalls (encode r) = [] := by
  unfold encode; split <;> rfl

theorem decodes_encode (r : response) : decodes (encode r) = [] := by
  unfold encode; split <;> rfl

/-- A name that is not a key of the registry is not found by the map lookup. -/
theorem lookup_of_not_key (h : handlers) (name : String)
    (hmiss : name ∉ h.map Prod.fst) : h.lookup name = none := by
  induction h with
  | nil => rfl
  | cons kv rest ih =>
    obtain ⟨k, v⟩ := kv
    simp only [List.map_cons, List.mem_cons, not_or] at hmiss
    have hne : (name == k) = false := by
      simpa using hmiss.1
    simp [List.lookup, hne, ih hmiss.2]

/-- What the server's `rpcError` writes through the direct writer of `handleReader`. -/
theorem rpcError_direct (wr : Writer) (req : request) (code : Int) (msg : String) :
    rpcError (directWriter wr) req code msg =
      (if wr.isHTTP then [Event.header 500] else []) ++
      (match req.ID with
       | none => []
       | some id =>
         [Event.frame { Jsonrpc := "2.0", ID := id,
                        Error := some { Code := code, Message := msg } }]) := rfl

theorem frames_rpcError_some (wr : Writer) (req : request) (code : Int) (msg : String)
    (id : Int) (hid : req.ID = some id) :
    frames (rpcError (directWriter wr) req code msg) =
      [{ Jsonrpc := "2.0", ID := id, Error := some { Code := code, Message := msg } }] := by
  rw [rpcError_direct, hid]
  cases wr.isHTTP <;> simp [frames]

theorem frames_rpcError_none (wr : Writer) (req : request) (code : Int) (msg : String)
    (hid : req.ID = none) :
    frames (rpcError (directWriter wr) req code msg) = [] := by
  rw [rpcError_direct, hid]
  cases wr.isHTTP <;> simp [frames]

theorem doneCalls_rpcError (wr : Writer) (req : request) (code : Int) (msg : String) :
    doneCalls (rpcError (directWriter wr) req code msg) = [] := by
  rw [rpcError_direct]
  cases wr.isHTTP <;> cases req.ID <;> simp [doneCalls]

theorem invocations_rpcError (wr : Writer) (req : request) (code : Int) (msg : String) :
    invocations (rpcError (directWriter wr) req code msg) = [] := by
  rw [rpcError_direct]
  cases wr.isHTTP <;> cases req.ID <;> simp [invocations]

theorem decodes_rpcError (wr : Writer) (req : request) (code : Int) (msg : String) :
    decodes (rpcError (directWriter wr) req code msg) = [] := by
  rw [rpcError_direct]
  cases wr.isHTTP <;> cases req.ID <;> simp [decodes]

/-! ## The early error paths of `handle` -/

/-- The run of `handle` on a method that is not registered, for arbitrary callbacks. -/
theorem handle_miss (decode : Decoder) (h : handlers) (ctx : Value) (req : request)
    (w : WriteFn) (re : rpcErrFunc) (done : Bool → List Event) (chOut : Option chanOut)
    (hmiss : h.lookup req.Method = none) :
    handle decode h ctx req w re done chOut =
      { events := re w req (-32601) ("method '" ++ req.Method ++ "' not found") ++ done false,
        fault := none } := by
  simp [handle, hmiss, rpcMethodNotFound]

/-- The run of `handle` on a registered method with the wrong number of params. -/
theorem handle_arity (decode : Decoder) (h : handlers) (ctx : Value) (req : request)
    (w : WriteFn) (re : rpcErrFunc) (done : Bool → List Event) (chOut : Option chanOut)
    (hd : rpcHandler) (hreg : h.lookup req.Method = some hd)
    (hcount : req.Params.length ≠ hd.nParams) :
    handle decode h ctx req w re done chOut =
      { events := re w req (-32602) "wrong param count" ++ done false, fault := none } := by
  simp [handle, hreg, hcount, rpcInvalidParams]

/-- C2: for every request whose method name is not a key of the registry, whatever
its params, `handle` calls the error reply with code -32601, the message
"method '<name>' not found" and the request, then `done(false)`, and returns normally;
with the server's `rpcError` a request with id `i` gets exactly one frame, which carries
`i`, that code and that message; `done(false)` is the only `done` call, no method is
invoked and no param is decoded. -/
theorem handle_unknown_method (decode : Decoder) (h : handlers) (ctx : Value)
    (req : request) (chOut : Option chanOut) (wr : Writer)
    (hmiss : req.Method ∉ h.map Prod.fst) :
    (∀ (w : WriteFn) (re : rpcErrFunc) (done : Bool → List Event),
      handle decode h ctx req w re done chOut =
        { events := re w req (-32601) ("method '" ++ req.Method ++ "' not found")
            ++ done false,
          fault := none }) ∧
    (∀ id, req.ID = some id →
      frames (handle decode h ctx req (directWriter wr) rpcError doneEvent chOut).events =
        [{ Jsonrpc := "2.0", ID := id,
           Error := some { Code := -32601,
                           Message := "method '" ++ req.Method ++ "' not found" } }]) ∧
    doneCalls (handle decode h ctx req (directWriter wr) rpcError doneEvent chOut).events
      = [false] ∧
    invocations (handle decode h ctx req (directWriter wr) rpcError doneEvent chOut).events
      = [] ∧
    decodes (handle decode h ctx req (directWriter wr) rpcError doneEvent chOut).events
      = [] := by
  have hl := lookup_of_not_key h req.Method hmiss
  refine ⟨fun w re done => handle_miss decode h ctx req w re done chOut hl, ?_, ?_, ?_, ?_⟩
  · intro id hid
    rw [handle_miss decode h ctx req _ _ _ chOut hl]
    simp [frames_append, frames_rpcError_some _ _ _ _ id hid, doneEvent, frames]
  · rw [handle_miss decode h ctx req _ _ _ chOut hl]
    simp [doneCalls_append, doneCalls_rpcError, doneEvent, doneCalls]
  · rw [handle_miss decode h ctx req _ _ _ chOut hl]
    simp [invocations_append, invocations_rpcError, doneEvent, invocations]
  · rw [handle_miss decode h ctx req _ _ _ chOut hl]
    simp [decodes_append, decodes_rpcError, doneEvent, decodes]

/-- C3: for every request whose method is registered but whose number of params differs
from the descriptor's `nParams`, `handle` calls the error reply with code -32602 and the
message "wrong param count", then `done(false)`, and returns normally; with the server's
`rpcError` a request with id `i` gets exactly one frame, carrying `i`, code -32602 and a
message that contains "wrong param count"; `done(false)` is the only `done` call and the
method is not invoked. -/
theorem handle_wrong_param_count (decode : Decoder) (h : handlers) (ctx : Value)
    (req : request) (chOut : Option chanOut) (wr : Writer) (hd : rpcHandler)
    (hreg : h.lookup req.Method = some hd) (hcount : req.Params.length ≠ hd.nParams) :
    (∀ (w : WriteFn) (re : rpcErrFunc) (done : Bool → List Event),
      handle decode h ctx req w re done chOut =
        { events := re w req (-32602) "wrong param count" ++ done false, fault := none }) ∧
    contains "wrong param count" "wrong param count" ∧
    (∀ id, req.ID = some id →
      frames (handle decode h ctx req (directWriter wr) rpcError doneEvent chOut).events =
        [{ Jsonrpc := "2.0", ID := id,
           Error := some { Code := -32602, Message := "wrong param count" } }]) ∧
    doneCalls (handle decode h ctx req (directWriter wr) rpcError doneEvent chOut).events
      = [false] ∧
    invocations (handle decode h ctx req (directWriter wr) rpcError doneEvent chOut).events
      = [] := by
  refine ⟨fun w re done => handle_arity decode h ctx req w re done chOut hd hreg hcount,
    List.infix_refl _, ?_, ?_, ?_⟩
  · intro id hid
    rw [handle_arity decode h ctx req _ _ _ chOut hd hreg hcount]
    simp [frames_append, frames_rpcError_some _ _ _ _ id hid, doneEvent, frames]
  · rw [handle_arity decode h ctx req _ _ _ chOut hd hreg hcount]
    simp [doneCalls_append, doneCalls_rpcError, doneEvent, doneCalls]
  · rw [handle_arity decode h ctx req _ _ _ chOut hd hreg hcount]
    simp [invocations_append, invocations_rpcError, doneEvent, invocations]

/-- The run of `handle` on a streaming method when no stream-opener is given. -/
theorem handle_no_opener (decode : Decoder) (h : handlers) (ctx : Value) (req : request)
    (w : WriteFn) (re : rpcErrFunc) (done : Bool → List Event)
    (hd : rpcHandler) (hreg : h.lookup req.Method = some hd)
    (hcount : req.Params.length = hd.nParams) (hstream : isStream hd) :
    handle decode h ctx req w re done none =
      { events := re w req (-32601)
          ("method '" ++ req.Method ++ "' not supported in this mode (no out channel support)")
          ++ done true,
        fault := none } := by
  unfold isStream at hstream
  simp [handle, hreg, hcount, hstream, handleBody, rpcMethodNotFound]

/-- C4 (as amended): for every request to a registered method whose value return slot
is a channel, when `handle` is given no stream-opener it calls the error reply with code
-32601 and a message containing "not supported in this mode", does not invoke the method,
and the deferred completion callback runs exactly once, as `done(true)`. -/
theorem handle_stream_unsupported (decode : Decoder) (h : handlers) (ctx : Value)
    (req : request) (wr : Writer) (hd : rpcHandler)
    (hreg : h.lookup req.Method = some hd)
    (hcount : req.Params.length = hd.nParams) (hstream : isStream hd) :
    (∀ (w : WriteFn) (re : rpcErrFunc) (done : Bool → List Event),
      handle decode h ctx req w re done none =
        { events := re w req (-32601)
            ("method '" ++ req.Method ++ "' not supported in this mode (no out channel support)")
            ++ done true,
          fault := none }) ∧
    contains ("method '" ++ req.Method ++ "' not supported in this mode (no out channel support)")
      "not supported in this mode" ∧
    (∀ id, req.ID = some id →
      frames (handle decode h ctx req (directWriter wr) rpcError doneEvent none).events =
        [{ Jsonrpc := "2.0", ID := id,
           Error := some { Code := -32601,
                           Message := "method '" ++ req.Method ++
                             "' not supported in this mode (no out channel support)" } }]) ∧
    doneCalls (handle decode h ctx req (directWriter wr) rpcError doneEvent none).events
      = [true] ∧
    invocations (handle decode h ctx req (directWriter wr) rpcError doneEvent none).events
      = [] := by
  refine ⟨fun w re done => handle_no_opener decode h ctx req w re done hd hreg hcount hstream,
    ?_, ?_, ?_, ?_⟩
  · refine ⟨("method '" ++ req.Method ++ "' ").data, " (no out channel support)".data, ?_⟩
    simp [String.data_append]
  · intro id hid
    rw [handle_no_opener decode h ctx req _ _ _ hd hreg hcount hstream]
    simp [frames_append, frames_rpcError_some _ _ _ _ id hid, doneEvent, frames]
  · rw [handle_no_opener decode h ctx req _ _ _ hd hreg hcount hstream]
    simp [doneCalls_append, doneCalls_rpcError, doneEvent, doneCalls]
  · rw [handle_no_opener decode h ctx req _ _ _ hd hreg hcount hstream]
    simp [invocations_append, invocations_rpcError, doneEvent, invocations]

/-- C4, counterexample: for `Svc.Tail` (value slot of channel type) without a
stream-opener the completion callback is called with `true`, never with `false`. -/
theorem handle_stream_unsupported_done_true :
    isStream tailHandler ∧
    doneCalls (handle sampleDecode sampleRegistry Value.nil (mkRequest (some 4) "Svc.Tail" [])
      (directWriter { isHTTP := true }) rpcError doneEvent none).events = [true] ∧
    false ∉ doneCalls (handle sampleDecode sampleRegistry Value.nil
      (mkRequest (some 4) "Svc.Tail" []) (directWriter { isHTTP := true }) rpcError
      doneEvent none).events := by
  decide

/-! ## The param decoding loop -/

/-- The element right after a prefix. -/
theorem getElem?_after_prefix {α : Type} (l1 : List α) (a : α) (l2 : List α) :
    (l1 ++ a :: l2)[l1.length]? = some a := by
  induction l1 with
  | nil => simp
  | cons x xs ih => simpa using ih

/-- The decoding loop causes decode events only. -/
theorem decodeLoop_events (decode : Decoder) (hd : rpcHandler) (req : request) :
    ∀ (n i : Nat) (cp : List Value),
      frames (decodeLoop decode hd req n i cp).1 = [] ∧
      doneCalls (decodeLoop decode hd req n i cp).1 = [] ∧
      invocations (decodeLoop decode hd req n i cp).1 = [] := by
  intro n
  induction n with
  | zero => intro i cp; simp [decodeLoop, frames, doneCalls, invocations]
  | succ n ih =>
    intro i cp
    rw [decodeLoop]
    cases h1 : hd.paramReceivers[i]? with
    | none => simp [frames, doneCalls, invocations]
    | some ty =>
      cases h2 : req.Params[i]? with
      | none => simp [frames, doneCalls, invocations]
      | some p =>
        cases h3 : decode ty p.data with
        | error e => simp [h3, frames, doneCalls, invocations]
        | ok v =>
          have := ih (i + 1) (cp.set (i + 1 + hd.hasCtx) v)
          simpa [h3, frames, doneCalls, invocations] using this

/-- When every remaining param decodes, the loop fills the remaining slots of
`callParams` with the decoded values in order. -/
theorem decodeLoop_ok_aux (decode : Decoder) (hd : rpcHandler) (req : request)
    (pre : List Value) (hpre : pre.length = 1 + hd.hasCtx) :
    ∀ (vs : List Value) (t1 t2 : List RType) (p1 p2 : List param) (ds : List Value),
      hd.paramReceivers = t1 ++ t2 → req.Params = p1 ++ p2 →
      t1.length = ds.length → p1.length = ds.length →
      List.Forall₂ (fun tp v => decode tp.1 tp.2.data = Except.ok v) (t2.zip p2) vs →
      t2.length = vs.length → p2.length = vs.length →
      decodeLoop decode hd req vs.length ds.length
          (pre ++ ds ++ List.replicate vs.length Value.nil)
        = ((List.range' ds.length vs.length).map Event.decode,
           DecodeResult.ok (pre ++ ds ++ vs)) := by
  intro vs
  induction vs with
  | nil => intro t1 t2 p1 p2 ds _ _ _ _ _ _ _; simp [decodeLoop]
  | cons v vs ih =>
    intro t1 t2 p1 p2 ds ht hp hl1 hl2 hall hlt hlp
    match t2, p2, hlt, hlp with
    | ty :: t2, p :: p2, hlt, hlp =>
      simp only [List.zip_cons_cons, List.forall₂_cons] at hall
      obtain ⟨hv, hrest⟩ := hall
      have h1 : hd.paramReceivers[ds.length]? = some ty := by
        rw [ht, ← hl1]; exact getElem?_after_prefix _ _ _
      have h2 : req.Params[ds.length]? = some p := by
        rw [hp, ← hl2]; exact getElem?_after_prefix _ _ _
      have hset : (pre ++ ds ++ List.replicate (v :: vs).length Value.nil).set
            (ds.length + 1 + hd.hasCtx) v
          = pre ++ (ds ++ [v]) ++ List.replicate vs.length Value.nil := by
        have hidx : ds.length + 1 + hd.hasCtx = (pre ++ ds).length + 0 := by
          simp [hpre]; omega
        rw [hidx, List.length_cons, List.replicate_succ]
        rw [List.set_append_right _ _ (by omega)]
        simp
      have ih' := ih (t1 ++ [ty]) t2 (p1 ++ [p]) p2 (ds ++ [v])
        (by simp [ht]) (by simp [hp]) (by simp [hl1]) (by simp [hl2]) hrest
        (by simpa using hlt) (by simpa using hlp)
      rw [List.length_cons, decodeLoop]
      simp only [h1, h2, hv]
      rw [show (pre ++ ds ++ List.replicate (vs.length + 1) Value.nil).set
            (ds.length + 1 + hd.hasCtx) v
          = pre ++ (ds ++ [v]) ++ List.replicate vs.length Value.nil from hset]
      have hlen : (ds ++ [v]).length = ds.length + 1 := by simp
      rw [hlen] at ih'
      rw [ih']
      simp [List.range'_succ]

/-- When some remaining param does not decode, the loop stops at the first such
param with its decode error; it never panics. -/
theorem decodeLoop_failed_aux (decode : Decoder) (hd : rpcHandler) (req : request) :
    ∀ (n : Nat) (t1 t2 : List RType) (p1 p2 : List param) (i : Nat) (cp : List Value),
      hd.paramReceivers = t1 ++ t2 → req.Params = p1 ++ p2 →
      t1.length = i → p1.length = i → t2.length = n → p2.length = n →
      (∃ tp ∈ t2.zip p2, ∀ v, decode tp.1 tp.2.data ≠ Except.ok v) →
      ∃ k e ty p, hd.paramReceivers[k]? = some ty ∧ req.Params[k]? = some p ∧
        decode ty p.data = Except.error e ∧
        (decodeLoop decode hd req n i cp).2 = DecodeResult.failed k e := by
  intro n
  induction n with
  | zero =>
    intro t1 t2 p1 p2 i cp _ _ _ _ hlt _ hbad
    have : t2 = [] := List.length_eq_zero.mp hlt
    subst this
    simp at hbad
  | succ n ih =>
    intro t1 t2 p1 p2 i cp ht hp hl1 hl2 hlt hlp hbad
    match t2, p2, hlt, hlp with
    | ty :: t2, p :: p2, hlt, hlp =>
      have h1 : hd.paramReceivers[i]? = some ty := by
        rw [ht, ← hl1]; exact getElem?_after_prefix _ _ _
      have h2 : req.Params[i]? = some p := by
        rw [hp, ← hl2]; exact getElem?_after_prefix _ _ _
      rw [decodeLoop]
      cases h3 : decode ty p.data with
      | error e =>
        exact ⟨i, e, ty, p, h1, h2, h3, by simp [h1, h2, h3]⟩
      | ok v =>
        have hbad' : ∃ tp ∈ t2.zip p2, ∀ v, decode tp.1 tp.2.data ≠ Except.ok v := by
          obtain ⟨tp, hmem, hne⟩ := hbad
          simp only [List.zip_cons_cons, List.mem_cons] at hmem
          rcases hmem with rfl | hmem
          · exact absurd h3 (hne v)
          · exact ⟨tp, hmem, hne⟩
        obtain ⟨k, e, ty', p', hk1, hk2, hk3, hk4⟩ :=
          ih (t1 ++ [ty]) t2 (p1 ++ [p]) p2 (i + 1) (cp.set (i + 1 + hd.hasCtx) v)
            (by simp [ht]) (by simp [hp]) (by simp [hl1]) (by simp [hl2])
            (by simpa using hlt) (by simpa using hlp) hbad'
        exact ⟨k, e, ty', p', hk1, hk2, hk3, by simp [h1, h2, h3, hk4]⟩

/-! ## The call and the reply -/

/-- The freshly made `callParams` (lines 206-210): the call prefix followed by one zero
slot per param. -/
theorem initial_callParams (hd : rpcHandler) (ctx : Value) :
    (if hd.hasCtx = 1 then
        ((List.replicate (1 + hd.hasCtx + hd.nParams) Value.nil).set 0 hd.receiver).set 1 ctx
      else (List.replicate (1 + hd.hasCtx + hd.nParams) Value.nil).set 0 hd.receiver)
      = callPrefix hd ctx ++ List.replicate hd.nParams Value.nil := by
  unfold callPrefix
  by_cases hc : hd.hasCtx = 1
  · simp only [hc, if_true]
    rw [show 1 + 1 + hd.nParams = (hd.nParams + 1) + 1 by omega,
      List.replicate_succ, List.replicate_succ]
    simp
  · simp only [hc, if_false]
    rw [show 1 + hd.hasCtx + hd.nParams = (hd.hasCtx + hd.nParams) + 1 by omega,
      List.replicate_succ, List.replicate_add]
    simp

theorem callPrefix_length (hd : rpcHandler) (ctx : Value) :
    (callPrefix hd ctx).length = 1 + hd.hasCtx := by
  unfold callPrefix
  by_cases hc : hd.hasCtx = 1 <;> simp [hc, Nat.add_comm]

/-- The body of `handle` once every param has decoded: the method is called with the
call prefix followed by the decoded values. -/
theorem handleBody_decoded (decode : Decoder) (ctx : Value) (req : request) (w : WriteFn)
    (re : rpcErrFunc) (chOut : Option chanOut) (hd : rpcHandler) (outCh : Bool)
    (vs : List Value) (hgate : chOut = none → outCh = false)
    (hcount : req.Params.length = hd.nParams) (htypes : hd.paramReceivers.length = hd.nParams)
    (hdec : DecodesTo decode hd req vs) :
    handleBody decode ctx req w re chOut hd outCh =
      match hd.handlerFunc.call (callPrefix hd ctx ++ vs) with
      | .panics p =>
        { events := (List.range' 0 hd.nParams).map Event.decode ++
            Event.invoke req.Method (callPrefix hd ctx ++ vs) ::
            re w req 0 ("fatal error calling '" ++ req.Method ++ "': " ++
              ("panic in rpc method '" ++ req.Method ++ "': " ++ p)) }
      | .returns out =>
        match req.ID with
        | none =>
          { events := (List.range' 0 hd.nParams).map Event.decode ++
              [Event.invoke req.Method (callPrefix hd ctx ++ vs)] }
        | some id =>
          { events := (List.range' 0 hd.nParams).map Event.decode ++
              Event.invoke req.Method (callPrefix hd ctx ++ vs) ::
              (handleReply hd out id w chOut).events,
            fault := (handleReply hd out id w chOut).fault } := by
  have hvl : vs.length = hd.nParams := by
    have := hdec.length_eq
    simp [List.length_zip, hcount, htypes] at this
    exact this.symm
  have hloop := decodeLoop_ok_aux decode hd req (callPrefix hd ctx)
    (callPrefix_length hd ctx) vs [] hd.paramReceivers [] req.Params []
    (by simp) (by simp) rfl rfl hdec (by rw [htypes, hvl]) (by rw [hcount, hvl])
  simp only [List.append_nil, List.length_nil, hvl] at hloop
  have hg : ¬ (chOut.isNone = true ∧ outCh = true) := by
    rintro ⟨h1, h2⟩
    have := hgate (by simpa using h1)
    simp [this] at h2
  unfold handleBody
  simp only [hg, if_false]
  rw [initial_callParams, hloop]
  simp only [doCall]
  cases hd.handlerFunc.call (callPrefix hd ctx ++ vs) with
  | panics p => rfl
  | returns out => cases req.ID <;> rfl

/-- The body of `handle` when some param does not decode: the error reply with code
-32700 after decode events only; the method is not called. -/
theorem handleBody_decode_failed (decode : Decoder) (ctx : Value) (req : request)
    (w : WriteFn) (re : rpcErrFunc) (chOut : Option chanOut) (hd : rpcHandler)
    (outCh : Bool) (hgate : chOut = none → outCh = false)
    (hcount : req.Params.length = hd.nParams) (htypes : hd.paramReceivers.length = hd.nParams)
    (hbad : DecodeFails decode hd req) :
    ∃ (evs : List Event) (k : Nat) (e : String) (ty : RType) (p : param),
      hd.paramReceivers[k]? = some ty ∧ req.Params[k]? = some p ∧
      decode ty p.data = Except.error e ∧
      frames evs = [] ∧ doneCalls evs = [] ∧ invocations evs = [] ∧
      handleBody decode ctx req w re chOut hd outCh =
        { events := evs ++ re w req (-32700)
            ("unmarshaling params for '" ++ hd.handlerFunc.text ++ "': " ++ e),
          fault := none } := by
  have hg : ¬ (chOut.isNone = true ∧ outCh = true) := by
    rintro ⟨h1, h2⟩
    have := hgate (by simpa using h1)
    simp [this] at h2
  obtain ⟨k, e, ty, p, h1, h2, h3, h4⟩ :=
    decodeLoop_failed_aux decode hd req hd.nParams [] hd.paramReceivers [] req.Params 0
      (callPrefix hd ctx ++ List.replicate hd.nParams Value.nil)
      (by simp) (by simp) rfl rfl htypes hcount hbad
  obtain ⟨e1, e2, e3⟩ := decodeLoop_events decode hd req hd.nParams 0
    (callPrefix hd ctx ++ List.replicate hd.nParams Value.nil)
  refine ⟨(decodeLoop decode hd req hd.nParams 0
      (callPrefix hd ctx ++ List.replicate hd.nParams Value.nil)).1, k, e, ty, p,
    h1, h2, h3, e1, e2, e3, ?_⟩
  unfold handleBody
  simp only [hg, if_false]
  rw [initial_callParams]
  generalize decodeLoop decode hd req hd.nParams 0
      (callPrefix hd ctx ++ List.replicate hd.nParams Value.nil) = r at h4 ⊢
  obtain ⟨evs, res⟩ := r
  simp only at h4
  subst h4
  simp [rpcParseError]

/-- The run of `handle` for a request that reaches the decoding loop. -/
theorem handle_dispatches (decode : Decoder) (h : handlers) (ctx : Value) (req : request)
    (w : WriteFn) (re : rpcErrFunc) (done : Bool → List Event) (chOut : Option chanOut)
    (hd : rpcHandler) (outCh : Bool) (hdisp : Dispatches h req chOut hd outCh) :
    handle decode h ctx req w re done chOut =
      { events := (handleBody decode ctx req w re chOut hd outCh).events ++ done outCh,
        fault := (handleBody decode ctx req w re chOut hd outCh).fault } := by
  simp [handle, hdisp.reg, hdisp.count, hdisp.slot]

/-- The reply stage of `handle` for return slots that fit the descriptor: the reply
object carries the value slot and, when the error slot is non-nil, the error with
code 1; a channel value goes to the stream-opener instead. -/
theorem handleReply_eq (hd : rpcHandler) (out : List Value) (id : Int) (w : WriteFn)
    (chOut : Option chanOut) (hok : SlotsOk hd out) :
    handleReply hd out id w chOut =
      if (valueSlot hd out).isChan = true then
        match chOut with
        | none => { events := [], fault := some "nil func call" }
        | some open_ =>
          match open_ (valueSlot hd out) id with
          | none => { events := [Event.openStream (valueSlot hd out) id] }
          | some e =>
            { events := Event.openStream (valueSlot hd out) id ::
                w (fun _ => encode
                  { Jsonrpc := "2.0", Result := valueSlot hd out, ID := id,
                    Error := some { Code := 1, Message := e } }) }
      else
        { events := w (fun _ => encode
            { Jsonrpc := "2.0", Result := valueSlot hd out, ID := id,
              Error := (errorSlot hd out).map (fun m => { Code := 1, Message := m }) }) } := by
  have hnil : ∀ v : Value, v.isChan = true → v ≠ Value.nil := by
    intro v hv hn; subst hn; simp [Value.isChan] at hv
  unfold handleReply valueSlot errorSlot
  by_cases he : hd.errOut = -1 <;> by_cases hv : hd.valOut = -1
  · simp [he, hv, Value.isChan]
  · obtain ⟨v, hv'⟩ := hok.val hv
    by_cases hc : v.isChan = true
    · simp [he, hv, hv', hc, hnil v hc]
    · simp [he, hv, hv', hc]
  · obtain ⟨e, he', hcase⟩ := hok.err he
    rcases hcase with rfl | ⟨m, rfl⟩
    · simp [he, hv, he', Value.isChan, Value.errorText]
    · simp [he, hv, he', Value.isChan, Value.errorText]
  · obtain ⟨v, hv'⟩ := hok.val hv
    obtain ⟨e, he', hcase⟩ := hok.err he
    by_cases hc : v.isChan = true
    · rcases hcase with rfl | ⟨m, rfl⟩
      · simp [he, hv, hv', he', hc, hnil v hc, Value.errorText]
      · simp [he, hv, hv', he', hc, hnil v hc, Value.errorText]
    · rcases hcase with rfl | ⟨m, rfl⟩
      · simp [he, hv, hv', he', hc, Value.errorText]
      · simp [he, hv, hv', he', hc, Value.errorText]

/-- The reply stage never invokes a method. -/
theorem handleReply_invocations (hd : rpcHandler) (out : List Value) (id : Int)
    (wr : Writer) (chOut : Option chanOut) :
    invocations (handleReply hd out id (directWriter wr) chOut).events = [] := by
  unfold handleReply
  simp only []
  repeat' split
  all_goals simp [invocations, directWriter, invocations_encode]

/-- Text built around a middle part contains that part. -/
theorem contains_middle (a m b : String) : contains (a ++ m ++ b) m := by
  refine ⟨a.data, b.data, ?_⟩
  simp [String.data_append]

/-- C5 (as amended): for every request that passes the lookup, arity and stream-mode
checks (a streaming method needs a stream-opener), if decoding some positional param
into its declared type fails, `handle` calls the error reply with code -32700 and the
request after decode events only, a request with id `i` gets exactly one frame, carrying
`i` and code -32700, and the method is never invoked; if every param decodes, the method
is invoked exactly once, with the receiver, the context when `hasCtx = 1`, and the
decoded values in positional order. -/
theorem handle_decode_params (decode : Decoder) (h : handlers) (ctx : Value)
    (req : request) (chOut : Option chanOut) (wr : Writer) (hd : rpcHandler) (outCh : Bool)
    (hdisp : Dispatches h req chOut hd outCh) :
    (DecodeFails decode hd req →
      (∃ (evs : List Event) (msg : String),
        frames evs = [] ∧ doneCalls evs = [] ∧ invocations evs = [] ∧
        ∀ (w : WriteFn) (re : rpcErrFunc) (done : Bool → List Event),
          handle decode h ctx req w re done chOut =
            { events := evs ++ re w req (-32700) msg ++ done outCh, fault := none }) ∧
      invocations (handle decode h ctx req (directWriter wr) rpcError doneEvent chOut).events
        = [] ∧
      (∀ id, req.ID = some id → ∃ msg,
        frames (handle decode h ctx req (directWriter wr) rpcError doneEvent chOut).events =
          [{ Jsonrpc := "2.0", ID := id,
             Error := some { Code := -32700, Message := msg } }])) ∧
    (∀ vs, DecodesTo decode hd req vs →
      invocations (handle decode h ctx req (directWriter wr) rpcError doneEvent chOut).events
        = [(req.Method,
            hd.receiver ::
              ((if hd.hasCtx = 1 then [ctx] else List.replicate hd.hasCtx Value.nil) ++ vs))]) := by
  constructor
  · intro hbad
    -- the decode events and the message do not depend on the callbacks
    have hg : ¬ (chOut.isNone = true ∧ outCh = true) := by
      rintro ⟨h1, h2⟩
      have := hdisp.gate (by simpa using h1)
      simp [this] at h2
    obtain ⟨k, e, ty, p, _, _, _, h4⟩ :=
      decodeLoop_failed_aux decode hd req hd.nParams [] hd.paramReceivers [] req.Params 0
        (callPrefix hd ctx ++ List.replicate hd.nParams Value.nil)
        (by simp) (by simp) rfl rfl hdisp.types hdisp.count hbad
    obtain ⟨e1, e2, e3⟩ := decodeLoop_events decode hd req hd.nParams 0
      (callPrefix hd ctx ++ List.replicate hd.nParams Value.nil)
    have hbody : ∀ (w : WriteFn) (re : rpcErrFunc),
        handleBody decode ctx req w re chOut hd outCh =
          { events := (decodeLoop decode hd req hd.nParams 0
                (callPrefix hd ctx ++ List.replicate hd.nParams Value.nil)).1 ++
              re w req (-32700)
                ("unmarshaling params for '" ++ hd.handlerFunc.text ++ "': " ++ e),
            fault := none } := by
      intro w re
      unfold handleBody
      simp only [hg, if_false]
      rw [initial_callParams]
      generalize decodeLoop decode hd req hd.nParams 0
          (callPrefix hd ctx ++ List.replicate hd.nParams Value.nil) = r at h4 ⊢
      obtain ⟨evs, res⟩ := r
      simp only at h4
      subst h4
      simp [rpcParseError]
    refine ⟨⟨(decodeLoop decode hd req hd.nParams 0
        (callPrefix hd ctx ++ List.replicate hd.nParams Value.nil)).1,
      "unmarshaling params for '" ++ hd.handlerFunc.text ++ "': " ++ e,
      e1, e2, e3, fun w re done => ?_⟩, ?_, ?_⟩
    · rw [handle_dispatches decode h ctx req w re done chOut hd outCh hdisp, hbody w re]
    · rw [handle_dispatches decode h ctx req _ _ _ chOut hd outCh hdisp, hbody]
      simp [invocations_append, e3, invocations_rpcError, doneEvent, invocations]
    · intro id hid
      refine ⟨"unmarshaling params for '" ++ hd.handlerFunc.text ++ "': " ++ e, ?_⟩
      rw [handle_dispatches decode h ctx req _ _ _ chOut hd outCh hdisp, hbody]
      simp only [frames_append, e1, frames_rpcError_some _ _ _ _ id hid, doneEvent, frames,
        List.nil_append, List.append_nil]
  · intro vs hdec
    have hev : ∀ n i, invocations ((List.range' i n).map Event.decode) = [] := by
      intro n
      induction n with
      | zero => intro i; rfl
      | succ n ih => intro i; simp [List.range'_succ, invocations, ih]
    rw [handle_dispatches decode h ctx req _ _ _ chOut hd outCh hdisp,
      handleBody_decoded decode ctx req _ _ chOut hd outCh vs hdisp.gate hdisp.count
        hdisp.types hdec]
    unfold callPrefix
    cases hd.handlerFunc.call
        (hd.receiver :: (if hd.hasCtx = 1 then [ctx] else List.replicate hd.hasCtx Value.nil)
          ++ vs) with
    | panics p =>
      simp [invocations_append, hev, invocations, invocations_rpcError, doneEvent]
    | returns out =>
      cases req.ID with
      | none => simp [invocations_append, hev, invocations, doneEvent]
      | some id =>
        simp [invocations_append, hev, invocations, doneEvent, handleReply_invocations]

/-- C6: for every request with an id whose method panics with value `p`, the panic does
not leave `handle`: `doCall` returns the error "panic in rpc method '<name>': <p>", and
`handle` returns normally having written exactly one frame, with the request's id, no
result and an error of code 0 whose message contains the method name and the panic
value. -/
theorem handle_method_panics (decode : Decoder) (h : handlers) (ctx : Value)
    (req : request) (chOut : Option chanOut) (wr : Writer) (hd : rpcHandler) (outCh : Bool)
    (vs : List Value) (p : String) (id : Int)
    (hdisp : Dispatches h req chOut hd outCh) (hdec : DecodesTo decode hd req vs)
    (hpanic : hd.handlerFunc.call (callPrefix hd ctx ++ vs) = CallOutcome.panics p)
    (hid : req.ID = some id) :
    doCall req.Method hd.handlerFunc (callPrefix hd ctx ++ vs) =
      ([], some ("panic in rpc method '" ++ req.Method ++ "': " ++ p)) ∧
    (∀ (w : WriteFn) (re : rpcErrFunc) (done : Bool → List Event),
      (handle decode h ctx req w re done chOut).fault = none) ∧
    frames (handle decode h ctx req (directWriter wr) rpcError doneEvent chOut).events =
      [{ Jsonrpc := "2.0", Result := Value.nil, ID := id,
         Error := some { Code := 0,
                         Message := "fatal error calling '" ++ req.Method ++ "': " ++
                           ("panic in rpc method '" ++ req.Method ++ "': " ++ p) } }] ∧
    contains ("fatal error calling '" ++ req.Method ++ "': " ++
      ("panic in rpc method '" ++ req.Method ++ "': " ++ p)) req.Method ∧
    contains ("fatal error calling '" ++ req.Method ++ "': " ++
      ("panic in rpc method '" ++ req.Method ++ "': " ++ p)) p := by
  have hev : ∀ n i, frames ((List.range' i n).map Event.decode) = [] := by
    intro n
    induction n with
    | zero => intro i; rfl
    | succ n ih => intro i; simp [List.range'_succ, frames, ih]
  refine ⟨by simp [doCall, hpanic], fun w re done => ?_, ?_, ?_, ?_⟩
  · rw [handle_dispatches decode h ctx req w re done chOut hd outCh hdisp,
      handleBody_decoded decode ctx req w re chOut hd outCh vs hdisp.gate hdisp.count
        hdisp.types hdec, hpanic]
  · rw [handle_dispatches decode h ctx req _ _ _ chOut hd outCh hdisp,
      handleBody_decoded decode ctx req _ _ chOut hd outCh vs hdisp.gate hdisp.count
        hdisp.types hdec, hpanic]
    simp [frames_append, hev, frames, frames_rpcError_some _ _ _ _ id hid, doneEvent]
  · refine ⟨"fatal error calling '".data,
      ("': " ++ ("panic in rpc method '" ++ req.Method ++ "': " ++ p)).data, ?_⟩
    simp [String.data_append]
  · refine ⟨("fatal error calling '" ++ req.Method ++ "': " ++
      ("panic in rpc method '" ++ req.Method ++ "': ")).data, [], ?_⟩
    simp [String.data_append]

/-- C7: for every request with an id whose method returns normally with a value slot that
is not a channel, the reply `r` that `handle` builds has `r.jsonrpc = "2.0"`, `r.id` equal
to the request's id, `r.result` equal to the value slot verbatim when `valOut != -1` (nil
otherwise), and `r.error` equal to `{code 1, message = text of the error}` when
`errOut != -1` and the error slot is non-nil, and absent otherwise; `handle` writes this
reply as its only frame when the encoder can encode the value slot, and writes no frame
at all when it cannot. -/
theorem handle_normal_reply (decode : Decoder) (h : handlers) (ctx : Value)
    (req : request) (chOut : Option chanOut) (wr : Writer) (hd : rpcHandler) (outCh : Bool)
    (vs out : List Value) (id : Int)
    (hdisp : Dispatches h req chOut hd outCh) (hdec : DecodesTo decode hd req vs)
    (hret : hd.handlerFunc.call (callPrefix hd ctx ++ vs) = CallOutcome.returns out)
    (hslots : SlotsOk hd out) (hnochan : (valueSlot hd out).isChan = false)
    (hid : req.ID = some id) :
    (handle decode h ctx req (directWriter wr) rpcError doneEvent chOut).fault = none ∧
    ∃ r : response,
      frames (handle decode h ctx req (directWriter wr) rpcError doneEvent chOut).events =
        (if r.Result.jsonEncodable = true then [r] else []) ∧
      r.Jsonrpc = "2.0" ∧ r.ID = id ∧
      (hd.valOut ≠ -1 → index? out hd.valOut = some r.Result) ∧
      (hd.valOut = -1 → r.Result = Value.nil) ∧
      (∀ m, hd.errOut ≠ -1 → index? out hd.errOut = some (Value.err m) →
        r.Error = some { Code := 1, Message := m }) ∧
      ((hd.errOut = -1 ∨ index? out hd.errOut = some Value.nil) → r.Error = none) := by
  have hev : ∀ n i, frames ((List.range' i n).map Event.decode) = [] := by
    intro n
    induction n with
    | zero => intro i; rfl
    | succ n ih => intro i; simp [List.range'_succ, frames, ih]
  rw [handle_dispatches decode h ctx req _ _ _ chOut hd outCh hdisp,
    handleBody_decoded decode ctx req _ _ chOut hd outCh vs hdisp.gate hdisp.count
      hdisp.types hdec, hret, hid]
  simp only [handleReply_eq hd out id _ chOut hslots, hnochan, Bool.false_eq_true, if_false]
  refine ⟨?_, response.mk "2.0" (valueSlot hd out) id
    ((errorSlot hd out).map (fun m => respError.mk 1 m)), ?_, rfl, rfl, ?_, ?_, ?_, ?_⟩
  · first | rfl | trivial
  · by_cases henc : (valueSlot hd out).jsonEncodable = true
    · have hfr := frames_encode (response.mk "2.0" (valueSlot hd out) id
        ((errorSlot hd out).map (fun m => respError.mk 1 m))) henc
      simp [frames_append, hev, frames, directWriter, doneEvent, hfr, henc]
    · have henc' : (valueSlot hd out).jsonEncodable = false := by simpa using henc
      have hfr := frames_encode_not (response.mk "2.0" (valueSlot hd out) id
        ((errorSlot hd out).map (fun m => respError.mk 1 m))) henc'
      simp [frames_append, hev, frames, directWriter, doneEvent, hfr, henc']
  · intro hv
    obtain ⟨v, hv'⟩ := hslots.val hv
    simp [valueSlot, hv, hv']
  · intro hv
    simp [valueSlot, hv]
  · intro m he hm
    simp [errorSlot, he, hm, Value.errorText]
  · rintro (he | he)
    · simp [errorSlot, he]
    · by_cases he' : hd.errOut = -1
      · simp [errorSlot, he']
      · simp [errorSlot, he', he, Value.errorText]

/-- What `handle` does for a request with an id whose method returns a channel in its
value slot: the stream-opener is called with the channel and the request's id; if it
succeeds, `handle` writes no frame; if it returns an error `e`, the reply that `handle`
prepares, `{id, error {code 1, message = e}}`, still holds the channel as its result
(line 254), the encoder rejects it, and again no frame is written. -/
theorem handle_stream_reply (decode : Decoder) (h : handlers) (ctx : Value)
    (req : request) (open_ : chanOut) (wr : Writer) (hd : rpcHandler) (outCh : Bool)
    (vs out : List Value) (id : Int) (c : Nat)
    (hdisp : Dispatches h req (some open_) hd outCh) (hdec : DecodesTo decode hd req vs)
    (hret : hd.handlerFunc.call (callPrefix hd ctx ++ vs) = CallOutcome.returns out)
    (hslots : SlotsOk hd out) (hchan : valueSlot hd out = Value.chan c)
    (hid : req.ID = some id) :
    (handle decode h ctx req (directWriter wr) rpcError doneEvent (some open_)).fault = none ∧
    Event.openStream (Value.chan c) id ∈
      (handle decode h ctx req (directWriter wr) rpcError doneEvent (some open_)).events ∧
    frames (handle decode h ctx req (directWriter wr) rpcError doneEvent (some open_)).events
      = [] ∧
    (∀ e, open_ (Value.chan c) id = some e →
      ∀ w : WriteFn, handleReply hd out id w (some open_) =
        { events := Event.openStream (Value.chan c) id ::
            w (fun _ => encode { Jsonrpc := "2.0", Result := Value.chan c, ID := id,
                                 Error := some { Code := 1, Message := e } }) }) := by
  have hev : ∀ n i, frames ((List.range' i n).map Event.decode) = [] := by
    intro n
    induction n with
    | zero => intro i; rfl
    | succ n ih => intro i; simp [List.range'_succ, frames, ih]
  rw [handle_dispatches decode h ctx req _ _ _ (some open_) hd outCh hdisp,
    handleBody_decoded decode ctx req _ _ (some open_) hd outCh vs hdisp.gate hdisp.count
      hdisp.types hdec, hret, hid]
  simp only [handleReply_eq hd out id _ (some open_) hslots, hchan, Value.isChan, if_true]
  refine ⟨?_, ?_, ?_, ?_⟩
  · cases open_ (Value.chan c) id <;> rfl
  · cases open_ (Value.chan c) id <;> simp
  · cases open_ (Value.chan c) id <;>
      simp [frames_append, hev, frames, doneEvent, directWriter, encode, Value.jsonEncodable]
  · intro e ho w
    simp [ho]

/-! ## Reply counting -/

/-- For a notification the body of `handle` writes no frame, on every path. -/
theorem handleBody_notification (decode : Decoder) (ctx : Value) (req : request)
    (wr : Writer) (chOut : Option chanOut) (hd : rpcHandler) (outCh : Bool)
    (hid : req.ID = none) :
    frames (handleBody decode ctx req (directWriter wr) rpcError chOut hd outCh).events
      = [] := by
  unfold handleBody
  split
  · exact frames_rpcError_none _ _ _ _ hid
  · simp only []
    split
    · rename_i evs heq
      have h1 := congrArg Prod.fst heq
      simp only at h1
      rw [← h1]
      exact (decodeLoop_events _ _ _ _ _ _).1
    · rename_i evs k e heq
      have h1 := congrArg Prod.fst heq
      simp only at h1
      have e1 : frames evs = [] := by
        rw [← h1]; exact (decodeLoop_events _ _ _ _ _ _).1
      simp [frames_append, e1, frames_rpcError_none _ _ _ _ hid]
    · rename_i evs cp heq
      have h1 := congrArg Prod.fst heq
      simp only at h1
      have e1 : frames evs = [] := by
        rw [← h1]; exact (decodeLoop_events _ _ _ _ _ _).1
      simp only [doCall]
      cases hd.handlerFunc.call cp with
      | panics p => simp [frames_append, e1, frames, frames_rpcError_none _ _ _ _ hid]
      | returns out => simp [hid, frames_append, e1, frames]

/-- Notifications: for every request with a nil id, `handle` with the server's
`rpcError` writes no response frame, whatever the registry, the params, the decoder,
the method's behaviour and the stream-opener. -/
theorem handle_notification_no_frame (decode : Decoder) (h : handlers) (ctx : Value)
    (req : request) (wr : Writer) (chOut : Option chanOut) (hid : req.ID = none) :
    frames (handle decode h ctx req (directWriter wr) rpcError doneEvent chOut).events
      = [] := by
  unfold handle
  split
  · simp [frames_append, frames_rpcError_none _ _ _ _ hid, doneEvent, frames]
  · split
    · simp [frames_append, frames_rpcError_none _ _ _ _ hid, doneEvent, frames]
    · split
      · rfl
      · simp [frames_append, handleBody_notification _ _ _ _ _ _ _ hid, doneEvent, frames]

/-- The reply stage, when it does not panic, either writes exactly one frame, carrying
the request's id, or the value slot held a channel, the stream-opener was called with
it, and nothing is written, or the result is a value that cannot be encoded and nothing
is written. -/
theorem handleReply_frames (hd : rpcHandler) (out : List Value) (id : Int) (wr : Writer)
    (chOut : Option chanOut)
    (hok : (handleReply hd out id (directWriter wr) chOut).fault = none) :
    (∃ r, frames (handleReply hd out id (directWriter wr) chOut).events = [r] ∧ r.ID = id) ∨
    (frames (handleReply hd out id (directWriter wr) chOut).events = [] ∧
      ∃ open_ ch, chOut = some open_ ∧ ch.isChan = true ∧
        Event.openStream ch id ∈ (handleReply hd out id (directWriter wr) chOut).events) ∨
    (frames (handleReply hd out id (directWriter wr) chOut).events = [] ∧
      ∃ v : Value, index? out hd.valOut = some v ∧ v.isChan = false ∧
        v.jsonEncodable = false) := by
  revert hok
  unfold handleReply
  simp only []
  split
  · simp
  · rename_i resp1 h1
    have hid1 : resp1.ID = id := by
      repeat' split at h1
      all_goals (cases h1; try rfl)
    have hres1 : resp1.Result = Value.nil := by
      repeat' split at h1
      all_goals (cases h1; try rfl)
    split
    · simp
    · rename_i resp2 h2
      have hid2 : resp2.ID = id := by
        repeat' split at h2
        all_goals (cases h2; try first | exact hid1 | rfl)
      have hval : resp2.Result.jsonEncodable = false →
          index? out hd.valOut = some resp2.Result := by
        intro hne
        repeat' split at h2
        · cases h2
        · cases h2
          assumption
        · cases h2
          rw [hres1] at hne
          cases hne
      split
      · rename_i hch
        split
        · simp
        · rename_i open_
          intro _
          right
          left
          split
          · exact ⟨by simp [frames], open_, resp2.Result, rfl, hch.2, by simp⟩
          · refine ⟨?_, open_, resp2.Result, rfl, hch.2, by simp⟩
            simp only [frames, directWriter]
            exact frames_encode_chan _ hch.2
      · rename_i hch
        intro _
        by_cases henc : resp2.Result.jsonEncodable = true
        · left
          exact ⟨resp2, frames_encode _ henc, hid2⟩
        · right
          right
          have henc' : resp2.Result.jsonEncodable = false := by simpa using henc
          exact ⟨frames_encode_not _ henc', resp2.Result, hval henc',
            isChan_false_of _ hch, henc'⟩

/-- For a request with an id, the body of `handle`, when it does not panic, either
writes exactly one frame carrying that id, or a stream was opened and nothing is
written, or the result cannot be encoded and nothing is written. -/
theorem handleBody_frames (decode : Decoder) (ctx : Value) (req : request)
    (wr : Writer) (chOut : Option chanOut) (hd : rpcHandler) (outCh : Bool) (id : Int)
    (hid : req.ID = some id)
    (hok : (handleBody decode ctx req (directWriter wr) rpcError chOut hd outCh).fault = none) :
    (∃ r, frames (handleBody decode ctx req (directWriter wr) rpcError chOut hd outCh).events
        = [r] ∧ r.ID = id) ∨
    (frames (handleBody decode ctx req (directWriter wr) rpcError chOut hd outCh).events = [] ∧
      ∃ open_ ch, chOut = some open_ ∧ ch.isChan = true ∧
        Event.openStream ch id ∈
          (handleBody decode ctx req (directWriter wr) rpcError chOut hd outCh).events) ∨
    (frames (handleBody decode ctx req (directWriter wr) rpcError chOut hd outCh).events = [] ∧
      ∃ (cp out : List Value) (v : Value),
        hd.handlerFunc.call cp = CallOutcome.returns out ∧
        index? out hd.valOut = some v ∧ v.isChan = false ∧ v.jsonEncodable = false) := by
  revert hok
  unfold handleBody
  split
  · intro _
    exact Or.inl ⟨_, frames_rpcError_some _ _ _ _ id hid, rfl⟩
  · simp only []
    split
    · simp
    · rename_i evs k e heq
      have h1 := congrArg Prod.fst heq
      simp only at h1
      have e1 : frames evs = [] := by
        rw [← h1]; exact (decodeLoop_events _ _ _ _ _ _).1
      intro _
      exact Or.inl ⟨_, Eq.trans (by simp [frames_append, e1]; rfl)
        (frames_rpcError_some wr req _ _ id hid), rfl⟩
    · rename_i evs cp heq
      have h1 := congrArg Prod.fst heq
      simp only at h1
      have e1 : frames evs = [] := by
        rw [← h1]; exact (decodeLoop_events _ _ _ _ _ _).1
      simp only [doCall]
      cases hcall : hd.handlerFunc.call cp with
      | panics p =>
        intro _
        exact Or.inl ⟨_, Eq.trans (by simp [frames_append, e1, frames]; rfl)
          (frames_rpcError_some wr req _ _ id hid), rfl⟩
      | returns out =>
        simp only [hid]
        intro hok
        rcases handleReply_frames hd out id wr chOut hok with
          ⟨r, hr, hrid⟩ | ⟨hr, o, ch, ho, hs, hm⟩ | ⟨hr, v, hv⟩
        · exact Or.inl ⟨r, by simp [frames_append, e1, frames, hr], hrid⟩
        · exact Or.inr (Or.inl ⟨by simp [frames_append, e1, frames, hr], o, ch, ho, hs,
            by simp [hm]⟩)
        · exact Or.inr (Or.inr ⟨by simp [frames_append, e1, frames, hr], cp, out, v,
            hcall, hv⟩)

/-- Requests with an id: whenever `handle` returns without a run-time panic, it has
written exactly one frame, carrying the request's id, or the value slot held a channel,
the stream-opener was called with it and the request's id, and `handle` has written no
frame, or the result is a value that cannot be encoded and `handle` has written no
frame. -/
theorem handle_frames (decode : Decoder) (h : handlers) (ctx : Value)
    (req : request) (wr : Writer) (chOut : Option chanOut) (id : Int)
    (hid : req.ID = some id)
    (hok : (handle decode h ctx req (directWriter wr) rpcError doneEvent chOut).fault = none) :
    (∃ r, frames (handle decode h ctx req (directWriter wr) rpcError doneEvent chOut).events
        = [r] ∧ r.ID = id) ∨
    (frames (handle decode h ctx req (directWriter wr) rpcError doneEvent chOut).events = [] ∧
      ∃ open_ ch, chOut = some open_ ∧ ch.isChan = true ∧
        Event.openStream ch id ∈
          (handle decode h ctx req (directWriter wr) rpcError doneEvent chOut).events) ∨
    (frames (handle decode h ctx req (directWriter wr) rpcError doneEvent chOut).events = [] ∧
      ∃ (hd : rpcHandler) (cp out : List Value) (v : Value),
        h.lookup req.Method = some hd ∧
        hd.handlerFunc.call cp = CallOutcome.returns out ∧
        index? out hd.valOut = some v ∧ v.isChan = false ∧ v.jsonEncodable = false) := by
  revert hok
  unfold handle
  split
  · intro _
    exact Or.inl ⟨_, Eq.trans (by simp [frames_append, doneEvent, frames]; rfl)
      (frames_rpcError_some wr req _ _ id hid), rfl⟩
  · split
    · intro _
      exact Or.inl ⟨_, Eq.trans (by simp [frames_append, doneEvent, frames]; rfl)
        (frames_rpcError_some wr req _ _ id hid), rfl⟩
    · split
      · simp
      · intro hok
        rcases handleBody_frames decode ctx req wr chOut _ _ id hid hok with
          ⟨r, hr, hrid⟩ | ⟨hr, o, ch, ho, hs, hm⟩ | ⟨hr, cp, out, v, hc, hv⟩
        · exact Or.inl ⟨r, by simp [frames_append, hr, doneEvent, frames], hrid⟩
        · exact Or.inr (Or.inl ⟨by simp [frames_append, hr, doneEvent, frames], o, ch, ho, hs,
            by simp [hm]⟩)
        · exact Or.inr (Or.inr ⟨by simp [frames_append, hr, doneEvent, frames], _, cp, out, v,
            by assumption, hc, hv⟩)

/-- The multiplexer's part: a successful `handleChanOut` sends one registration for
the request id, and the registration step of `handleOutChans` writes exactly one
message, the response `{id: reqID, result: chanId}`. -/
theorem registration_writes_response (c : wsConn) (ch : Value) (req : Int) (s : OutChans) :
    (handleChanOut c ch req true).2.2 = none ∧
    (handleChanOut c ch req true).2.1 =
      some { reqID := req, chID := (c.chanCtr + 1) % 2 ^ 64, ch := ch } ∧
    handleOutChansStep s
        (Selected.registration { reqID := req, chID := (c.chanCtr + 1) % 2 ^ 64, ch := ch }) =
      StepResult.continue_
        { cases := s.cases ++ [ch], caseToID := s.caseToID ++ [(c.chanCtr + 1) % 2 ^ 64] }
        [Msg.response { Jsonrpc := "2.0", ID := req,
                        Result := Value.u64 ((c.chanCtr + 1) % 2 ^ 64) }] := by
  refine ⟨rfl, rfl, rfl⟩

/-- C1, the failing inputs. Over HTTP (`handleReader`, no stream-opener) the request
`{"id":1,"method":"Svc.Get","params":[]}` to a method declared `Get() interface{}` that
returns a channel makes `handle` call the nil stream-opener: the run panics after the
method was invoked and no response frame is written. With a stream-opener that fails
("connection closing") the request `{"id":4,"method":"Svc.Tail","params":[]}` opens no
stream and still gets no response frame. -/
theorem handle_reply_count_failing_inputs :
    handleReader sampleDecode sampleRegistry Value.nil (mkRequest (some 1) "Svc.Get" []) none
        { isHTTP := true } rpcError =
      { events := [Event.invoke "Svc.Get" [Value.obj "svc"]],
        fault := some "nil func call" } ∧
    (frames (handleReader sampleDecode sampleRegistry Value.nil
      (mkRequest (some 1) "Svc.Get" []) none { isHTTP := true } rpcError).events).length = 0 ∧
    sampleOpener false (Value.chan 7) 4 ≠ none ∧
    (frames (handle sampleDecode sampleRegistry Value.nil (mkRequest (some 4) "Svc.Tail" [])
      (directWriter { isHTTP := false }) rpcError doneEvent
      (some (sampleOpener false))).events).length = 0 := by
  decide

/-! ## Shutdown of the connection engine -/

theorem cancelled_append (xs ys : List WsEvent) :
    cancelled (xs ++ ys) = cancelled xs ++ cancelled ys := by
  induction xs with
  | nil => rfl
  | cons e es ih => cases e <;> simp [cancelled, ih]

/-- Among the deliveries of `closeInFlight`, the one for an entry occurs once when the
keys of the table are distinct. -/
theorem count_delivery (l : List (Int × clientRequest)) (e : Int × clientRequest)
    (hnd : (l.map Prod.fst).Nodup) (hmem : e ∈ l) :
    (l.map (fun x => WsEvent.deliver x.2.ready (closedResponse x.1))).count
      (WsEvent.deliver e.2.ready (closedResponse e.1)) = 1 := by
  induction l with
  | nil => cases hmem
  | cons x xs ih =>
    simp only [List.map_cons, List.nodup_cons] at hnd
    obtain ⟨hx, hxs⟩ := hnd
    have hkey : ∀ y ∈ xs, y.1 ≠ x.1 := by
      intro y hy heq
      exact hx (heq ▸ List.mem_map_of_mem Prod.fst hy)
    rcases List.mem_cons.mp hmem with rfl | hin
    · have hzero : (xs.map (fun x => WsEvent.deliver x.2.ready (closedResponse x.1))).count
          (WsEvent.deliver e.2.ready (closedResponse e.1)) = 0 := by
        rw [List.count_eq_zero]
        intro hm
        obtain ⟨y, hy, hye⟩ := List.mem_map.mp hm
        simp only [WsEvent.deliver.injEq, closedResponse, clientResponse.mk.injEq] at hye
        exact hkey y hy hye.2.2.2.1
      simp [List.map_cons, List.count_cons, hzero]
    · have hne : WsEvent.deliver x.2.ready (closedResponse x.1) ≠
          WsEvent.deliver e.2.ready (closedResponse e.1) := by
        intro heq
        simp only [WsEvent.deliver.injEq, closedResponse, clientResponse.mk.injEq] at heq
        exact hkey e hin heq.2.2.2.1.symm
      simp only [List.map_cons, List.count_cons, ih hxs hin]
      simp [hne]

/-- C9: for every inflight table, `closeInFlight` delivers to each entry's ready slot the
response with the entry's key as id and the error `{code 2, "handler: websocket connection
closed"}` (exactly once per entry, the keys of a table being distinct), delivers nothing
else, invokes the cancellation handle of every handling-table entry, and leaves the
inflight table and the handling table empty. -/
theorem closeInFlight_spec (c : wsConn) :
    (closeInFlight c).2 =
      c.inflight.map (fun e => WsEvent.deliver e.2.ready
        { Jsonrpc := "2.0", ID := e.1,
          Error := some { Code := 2, Message := "handler: websocket connection closed" } })
      ++ c.handling.map (fun e => WsEvent.cancel e.2) ∧
    ((c.inflight.map Prod.fst).Nodup → ∀ e ∈ c.inflight,
      (closeInFlight c).2.count (WsEvent.deliver e.2.ready
        { Jsonrpc := "2.0", ID := e.1,
          Error := some { Code := 2, Message := "handler: websocket connection closed" } })
        = 1) ∧
    cancelled (closeInFlight c).2 = c.handling.map Prod.snd ∧
    (closeInFlight c).1.inflight = [] ∧
    (closeInFlight c).1.handling = [] := by
  have hcancel : ∀ l : List (Int × Nat),
      cancelled (l.map (fun e => WsEvent.cancel e.2)) = l.map Prod.snd := by
    intro l
    induction l with
    | nil => rfl
    | cons x xs ih => simp [cancelled, ih]
  have hdel : ∀ l : List (Int × clientRequest),
      cancelled (l.map (fun x => WsEvent.deliver x.2.ready (closedResponse x.1))) = [] := by
    intro l
    induction l with
    | nil => rfl
    | cons x xs ih => simp [cancelled, ih]
  refine ⟨rfl, ?_, ?_, rfl, rfl⟩
  · intro hnd e hmem
    have h1 := count_delivery c.inflight e hnd hmem
    have h2 : (c.handling.map (fun e => WsEvent.cancel e.2)).count
        (WsEvent.deliver e.2.ready (closedResponse e.1)) = 0 := by
      rw [List.count_eq_zero]
      intro hm
      obtain ⟨y, _, hy⟩ := List.mem_map.mp hm
      cases hy
    show ((c.inflight.map (fun x => WsEvent.deliver x.2.ready (closedResponse x.1)))
      ++ c.handling.map (fun e => WsEvent.cancel e.2)).count
        (WsEvent.deliver e.2.ready (closedResponse e.1)) = 1
    rw [List.count_append, h1, h2]
  · show cancelled ((c.inflight.map (fun x => WsEvent.deliver x.2.ready (closedResponse x.1)))
      ++ c.handling.map (fun e => WsEvent.cancel e.2)) = c.handling.map Prod.snd
    rw [cancelled_append, hdel, hcancel]
    rfl

/-- C9, an instance: the sample connection has distinct inflight keys; its one entry
(id 6, reply slot 60) gets the code-2 response once. -/
theorem closeInFlight_spec_witness :
    (sampleConn.inflight.map Prod.fst).Nodup ∧
    (closeInFlight sampleConn).2.count (WsEvent.deliver 60
      { Jsonrpc := "2.0", ID := 6,
        Error := some { Code := 2, Message := "handler: websocket connection closed" } }) = 1 :=
  ⟨by decide,
   (closeInFlight_spec sampleConn).2.1 (by decide)
     (6, { req := { Jsonrpc := "2.0", ID := some 6, Method := "Svc.Echo" }, ready := 60 })
     (by decide)⟩

/-- C10 (as amended): when `handleWsConn` returns, its deferred shutdown steps run in the
reverse order of their `defer` statements: the socket is closed first, then `closeChans`
runs, then `closeInFlight`. -/
theorem handleWsConn_shutdown_order (c : wsConn) :
    shutdownOrder = [Deferred.connClose, Deferred.closeChans, Deferred.closeInFlight] ∧
    handleWsConnReturn c =
      (closeChans c).map (fun r =>
        ((closeInFlight r.1).1, WsEvent.connClose :: (r.2 ++ (closeInFlight r.1).2))) := by
  refine ⟨rfl, ?_⟩
  unfold handleWsConnReturn
  show runDefers [Deferred.connClose, Deferred.closeChans, Deferred.closeInFlight] c = _
  simp only [runDefers, runDeferred]
  cases closeChans c with
  | none => rfl
  | some r => obtain ⟨c', evs⟩ := r; simp

/-- C10, counterexample: on the sample connection the socket is closed before the
incoming channel handler gets its final call, and the inflight call is failed and the
handled call cancelled only after that; `closeInFlight` does not run first. -/
theorem handleWsConn_shutdown_not_inflight_first :
    handleWsConnReturn sampleConn =
      some ({ inflight := [], chanHandlers := [], handling := [], chanCtr := 0 },
        [WsEvent.connClose,
         WsEvent.chanCall 30 none false,
         WsEvent.deliver 60 (closedResponse 6),
         WsEvent.cancel 50]) ∧
    shutdownOrder ≠ [Deferred.closeInFlight, Deferred.closeChans, Deferred.connClose] := by
  decide

/-! ## Instances on the sample service -/

/-- C2, an instance: `Svc.Nope` is not registered; the reply to request 2 is the
-32601 error frame of scenario 2. -/
theorem handle_unknown_method_witness :
    "Svc.Nope" ∉ sampleRegistry.map Prod.fst ∧
    frames (handle sampleDecode sampleRegistry Value.nil (mkRequest (some 2) "Svc.Nope" [])
      (directWriter { isHTTP := false }) rpcError doneEvent none).events =
      [{ Jsonrpc := "2.0", ID := 2,
         Error := some { Code := -32601, Message := "method 'Svc.Nope' not found" } }] :=
  ⟨by decide,
   (handle_unknown_method sampleDecode sampleRegistry Value.nil
      (mkRequest (some 2) "Svc.Nope" []) none { isHTTP := false } (by decide)).2.1 2 rfl⟩

/-- C3, an instance: `Svc.Echo` takes one param; request 3 with two params gets the
-32602 error frame of scenario 3. -/
theorem handle_wrong_param_count_witness :
    sampleRegistry.lookup "Svc.Echo" = some echoHandler ∧
    (mkRequest (some 3) "Svc.Echo" ["\"a\"", "\"b\""]).Params.length ≠ echoHandler.nParams ∧
    frames (handle sampleDecode sampleRegistry Value.nil
      (mkRequest (some 3) "Svc.Echo" ["\"a\"", "\"b\""])
      (directWriter { isHTTP := false }) rpcError doneEvent none).events =
      [{ Jsonrpc := "2.0", ID := 3,
         Error := some { Code := -32602, Message := "wrong param count" } }] :=
  ⟨rfl, by decide,
   (handle_wrong_param_count sampleDecode sampleRegistry Value.nil
      (mkRequest (some 3) "Svc.Echo" ["\"a\"", "\"b\""]) none { isHTTP := false }
      echoHandler rfl (by decide)).2.2.1 3 rfl⟩

/-- C4, an instance: `Svc.Tail` streams; without a stream-opener request 4 gets the
-32601 error frame and `done(true)`. -/
theorem handle_stream_unsupported_witness :
    sampleRegistry.lookup "Svc.Tail" = some tailHandler ∧
    (mkRequest (some 4) "Svc.Tail" []).Params.length = tailHandler.nParams ∧
    isStream tailHandler ∧
    frames (handle sampleDecode sampleRegistry Value.nil (mkRequest (some 4) "Svc.Tail" [])
      (directWriter { isHTTP := true }) rpcError doneEvent none).events =
      [{ Jsonrpc := "2.0", ID := 4,
         Error := some { Code := -32601,
                         Message := "method 'Svc.Tail' not supported in this mode (no out channel support)" } }] ∧
    doneCalls (handle sampleDecode sampleRegistry Value.nil (mkRequest (some 4) "Svc.Tail" [])
      (directWriter { isHTTP := true }) rpcError doneEvent none).events = [true] :=
  ⟨rfl, rfl, by decide,
   (handle_stream_unsupported sampleDecode sampleRegistry Value.nil
      (mkRequest (some 4) "Svc.Tail" []) { isHTTP := true } tailHandler rfl rfl
      (by decide)).2.2.1 4 rfl,
   (handle_stream_unsupported sampleDecode sampleRegistry Value.nil
      (mkRequest (some 4) "Svc.Tail" []) { isHTTP := true } tailHandler rfl rfl
      (by decide)).2.2.2.1⟩

/-- The request `Svc.Echo("hi")` reaches the decoding loop. -/
theorem echo_dispatches (id : Option Int) (chOut : Option chanOut) (data : String) :
    Dispatches sampleRegistry (mkRequest id "Svc.Echo" [data]) chOut echoHandler false :=
  ⟨rfl, rfl, rfl, fun _ => rfl, rfl⟩

/-- C5, an instance: the param of `Svc.Echo("hi")` decodes and the method is invoked
with the receiver and the decoded value; the empty param of the second request does not
decode and the method is not invoked. -/
theorem handle_decode_params_witness :
    Dispatches sampleRegistry (mkRequest (some 1) "Svc.Echo" ["\"hi\""]) none echoHandler false ∧
    DecodesTo sampleDecode echoHandler (mkRequest (some 1) "Svc.Echo" ["\"hi\""])
      [Value.obj "\"hi\""] ∧
    invocations (handle sampleDecode sampleRegistry Value.nil
      (mkRequest (some 1) "Svc.Echo" ["\"hi\""]) (directWriter { isHTTP := false }) rpcError
      doneEvent none).events = [("Svc.Echo", [Value.obj "svc", Value.obj "\"hi\""])] ∧
    DecodeFails sampleDecode echoHandler (mkRequest (some 1) "Svc.Echo" [""]) ∧
    invocations (handle sampleDecode sampleRegistry Value.nil
      (mkRequest (some 1) "Svc.Echo" [""]) (directWriter { isHTTP := false }) rpcError
      doneEvent none).events = [] :=
  have hdec : DecodesTo sampleDecode echoHandler (mkRequest (some 1) "Svc.Echo" ["\"hi\""])
      [Value.obj "\"hi\""] := List.Forall₂.cons rfl List.Forall₂.nil
  have hbad : DecodeFails sampleDecode echoHandler (mkRequest (some 1) "Svc.Echo" [""]) :=
    ⟨({ name := "string" }, { data := "" }), by decide, fun v => by simp [sampleDecode]⟩
  ⟨echo_dispatches _ _ _, hdec,
   (handle_decode_params sampleDecode sampleRegistry Value.nil
      (mkRequest (some 1) "Svc.Echo" ["\"hi\""]) none { isHTTP := false } echoHandler false
      (echo_dispatches _ _ _)).2 _ hdec,
   hbad,
   ((handle_decode_params sampleDecode sampleRegistry Value.nil
      (mkRequest (some 1) "Svc.Echo" [""]) none { isHTTP := false } echoHandler false
      (echo_dispatches _ _ _)).1 hbad).2.1⟩

/-- C5, counterexample: `Svc.Watch` passes the lookup and arity checks, but without a
stream-opener its param is never decoded: a decodable param does not lead to an
invocation, and an undecodable one is answered with code -32601, not -32700. -/
theorem handle_decode_params_stream_gate :
    watchRegistry.lookup "Svc.Watch" = some watchHandler ∧
    (mkRequest (some 4) "Svc.Watch" ["\"a\""]).Params.length = watchHandler.nParams ∧
    DecodesTo sampleDecode watchHandler (mkRequest (some 4) "Svc.Watch" ["\"a\""])
      [Value.obj "\"a\""] ∧
    invocations (handle sampleDecode watchRegistry Value.nil
      (mkRequest (some 4) "Svc.Watch" ["\"a\""]) (directWriter { isHTTP := true }) rpcError
      doneEvent none).events = [] ∧
    DecodeFails sampleDecode watchHandler (mkRequest (some 4) "Svc.Watch" [""]) ∧
    frames (handle sampleDecode watchRegistry Value.nil
      (mkRequest (some 4) "Svc.Watch" [""]) (directWriter { isHTTP := true }) rpcError
      doneEvent none).events =
      [{ Jsonrpc := "2.0", ID := 4,
         Error := some { Code := -32601,
                         Message := "method 'Svc.Watch' not supported in this mode (no out channel support)" } }] :=
  ⟨rfl, rfl, List.Forall₂.cons rfl List.Forall₂.nil, by decide,
   ⟨({ name := "string" }, { data := "" }), by decide, fun v => by simp [sampleDecode]⟩,
   by decide⟩

/-- C6, an instance: `Svc.Boom` panics with "boom"; request 7 gets one frame with
code 0 and the message naming the method and the panic value. -/
theorem handle_method_panics_witness :
    Dispatches sampleRegistry (mkRequest (some 7) "Svc.Boom" []) none boomHandler false ∧
    DecodesTo sampleDecode boomHandler (mkRequest (some 7) "Svc.Boom" []) [] ∧
    boomHandler.handlerFunc.call (callPrefix boomHandler (Value.obj "ctx") ++ []) =
      CallOutcome.panics "boom" ∧
    frames (handle sampleDecode sampleRegistry (Value.obj "ctx")
      (mkRequest (some 7) "Svc.Boom" []) (directWriter { isHTTP := false }) rpcError
      doneEvent none).events =
      [{ Jsonrpc := "2.0", Result := Value.nil, ID := 7,
         Error := some { Code := 0,
                         Message := "fatal error calling 'Svc.Boom': panic in rpc method 'Svc.Boom': boom" } }] :=
  have hdisp : Dispatches sampleRegistry (mkRequest (some 7) "Svc.Boom" []) none
      boomHandler false := ⟨rfl, rfl, rfl, fun _ => rfl, rfl⟩
  ⟨hdisp, List.Forall₂.nil, rfl,
   (handle_method_panics sampleDecode sampleRegistry (Value.obj "ctx")
      (mkRequest (some 7) "Svc.Boom" []) none { isHTTP := false } boomHandler false []
      "boom" 7 hdisp List.Forall₂.nil rfl rfl).2.2.1⟩

/-- The return slots of `Echo("hi")` fit its descriptor. -/
theorem echo_slots : SlotsOk echoHandler [Value.obj "\"hi\"", Value.nil] :=
  ⟨fun _ => ⟨Value.obj "\"hi\"", rfl⟩, fun _ => ⟨Value.nil, rfl, Or.inl rfl⟩⟩

/-- C7, an instance: scenario 1, `Svc.Echo("hi")` with id 1 is answered by a frame with
`jsonrpc` "2.0", id 1 and the result verbatim. -/
theorem handle_normal_reply_witness :
    Dispatches sampleRegistry (mkRequest (some 1) "Svc.Echo" ["\"hi\""]) none echoHandler false ∧
    DecodesTo sampleDecode echoHandler (mkRequest (some 1) "Svc.Echo" ["\"hi\""])
      [Value.obj "\"hi\""] ∧
    echoHandler.handlerFunc.call (callPrefix echoHandler Value.nil ++ [Value.obj "\"hi\""]) =
      CallOutcome.returns [Value.obj "\"hi\"", Value.nil] ∧
    SlotsOk echoHandler [Value.obj "\"hi\"", Value.nil] ∧
    (valueSlot echoHandler [Value.obj "\"hi\"", Value.nil]).isChan = false ∧
    ∃ r : response,
      frames (handle sampleDecode sampleRegistry Value.nil
        (mkRequest (some 1) "Svc.Echo" ["\"hi\""]) (directWriter { isHTTP := false })
        rpcError doneEvent none).events =
        (if r.Result.jsonEncodable = true then [r] else []) ∧
      r.Jsonrpc = "2.0" ∧ r.ID = 1 :=
  have hdec : DecodesTo sampleDecode echoHandler (mkRequest (some 1) "Svc.Echo" ["\"hi\""])
      [Value.obj "\"hi\""] := List.Forall₂.cons rfl List.Forall₂.nil
  ⟨echo_dispatches _ _ _, hdec, rfl, echo_slots, rfl,
   match (handle_normal_reply sampleDecode sampleRegistry Value.nil
      (mkRequest (some 1) "Svc.Echo" ["\"hi\""]) none { isHTTP := false } echoHandler false
      [Value.obj "\"hi\""] [Value.obj "\"hi\"", Value.nil] 1 (echo_dispatches _ _ _) hdec rfl
      echo_slots rfl rfl).2 with
   | ⟨r, hr, hj, hi, _⟩ => ⟨r, hr, hj, hi⟩⟩

/-- C8, the failing input: `Svc.Tail` returns channel 7 and `handleChanOut` fails with
"connection closing" (the connection is exiting): `handle` calls the stream-opener,
prepares the error reply with the channel still in its result field, and writes no
frame at all; when the opener succeeds no frame is written either, as the claim says. -/
theorem handle_stream_opener_fails :
    sampleOpener false (Value.chan 7) 4 = some "connection closing" ∧
    handle sampleDecode sampleRegistry Value.nil (mkRequest (some 4) "Svc.Tail" [])
        (directWriter { isHTTP := false }) rpcError doneEvent (some (sampleOpener false)) =
      { events := [Event.invoke "Svc.Tail" [Value.obj "svc"],
                   Event.openStream (Value.chan 7) 4, Event.done true],
        fault := none } ∧
    frames (handle sampleDecode sampleRegistry Value.nil (mkRequest (some 4) "Svc.Tail" [])
      (directWriter { isHTTP := false }) rpcError doneEvent (some (sampleOpener false))).events
      = [] ∧
    encode { Jsonrpc := "2.0", Result := Value.chan 7, ID := 4,
             Error := some { Code := 1, Message := "connection closing" } } = [] ∧
    sampleOpener true (Value.chan 7) 4 = none ∧
    frames (handle sampleDecode sampleRegistry Value.nil (mkRequest (some 4) "Svc.Tail" [])
      (directWriter { isHTTP := false }) rpcError doneEvent (some (sampleOpener true))).events
      = [] := by
  decide

/-! ## Maps as association lists -/

theorem lookup_mapDelete_self {κ α : Type} [BEq κ] [LawfulBEq κ] (m : List (κ × α)) (k : κ) :
    (mapDelete m k).lookup k = none := by
  induction m with
  | nil => rfl
  | cons e es ih =>
    obtain ⟨k', v⟩ := e
    unfold mapDelete at ih ⊢
    by_cases h : k' = k
    · subst h; simpa [List.filter] using ih
    · have h1 : (k' != k) = true := by simpa using h
      have h2 : (k == k') = false := by simpa using fun hh : k = k' => h hh.symm
      simp [List.filter, h1, List.lookup, h2, ih]

theorem lookup_mapDelete_ne {κ α : Type} [BEq κ] [LawfulBEq κ] (m : List (κ × α)) (k k' : κ)
    (hne : k' ≠ k) : (mapDelete m k).lookup k' = m.lookup k' := by
  induction m with
  | nil => rfl
  | cons e es ih =>
    obtain ⟨k0, v⟩ := e
    unfold mapDelete at ih ⊢
    by_cases h : k0 = k
    · subst h
      have h2 : (k' == k0) = false := by simpa using hne
      simpa [List.filter, List.lookup, h2] using ih
    · have h1 : (k0 != k) = true := by simpa using h
      simp only [List.filter, h1, List.lookup]
      cases (k' == k0) <;> simp [ih]

theorem lookup_append {κ α : Type} [BEq κ] (m n : List (κ × α)) (k : κ) :
    (m ++ n).lookup k = (m.lookup k).orElse (fun _ => n.lookup k) := by
  induction m with
  | nil => simp [List.lookup]
  | cons e es ih =>
    obtain ⟨k0, v⟩ := e
    simp only [List.cons_append, List.lookup]
    cases (k == k0) <;> simp [ih]

theorem lookup_mapSet_self {κ α : Type} [BEq κ] [LawfulBEq κ] (m : List (κ × α)) (k : κ)
    (v : α) : (mapSet m k v).lookup k = some v := by
  unfold mapSet
  rw [lookup_append, lookup_mapDelete_self]
  simp [List.lookup]

theorem lookup_mapSet_ne {κ α : Type} [BEq κ] [LawfulBEq κ] (m : List (κ × α)) (k k' : κ)
    (v : α) (hne : k' ≠ k) : (mapSet m k v).lookup k' = m.lookup k' := by
  unfold mapSet
  rw [lookup_append, lookup_mapDelete_ne m k k' hne]
  have h2 : (k' == k) = false := by simpa using hne
  cases m.lookup k' <;> simp [List.lookup, h2]

/-! ## Responses to local calls -/

/-- The run of `handleResponse` on every path that reaches the delivery (lines 306-312):
the entry exists and, when it has a stream-opener and the result is present, the result
parses as a chanId. -/
theorem handleResponse_delivers (unmarshal : Unmarshal Nat) (c : wsConn) (f : frame)
    (id : Int) (req : clientRequest) (hidf : f.ID = some id)
    (hin : c.inflight.lookup id = some req)
    (hparse : ∀ opener, req.retCh = some opener → f.Result ≠ "" →
      ∃ chid, unmarshal f.Result = some chid) :
    ∃ c' evs, handleResponse unmarshal c f = some (c', evs) ∧
      deliveredTo req.ready evs =
        [{ Jsonrpc := f.Jsonrpc, Result := f.Result, ID := id, Error := f.Error }] ∧
      (∀ ready resp, WsEvent.deliver ready resp ∈ evs → ready = req.ready) ∧
      c'.inflight = mapDelete c.inflight id ∧
      c'.inflight.lookup id = none ∧
      (∀ id', id' ≠ id → c'.inflight.lookup id' = c.inflight.lookup id') ∧
      (∀ opener chid, req.retCh = some opener → f.Result ≠ "" →
        unmarshal f.Result = some chid → c'.chanHandlers.lookup chid = some opener) := by
  unfold handleResponse
  simp only [hidf, hin]
  cases hret : req.retCh with
  | none =>
    refine ⟨_, _, rfl, ?_, ?_, rfl, lookup_mapDelete_self _ _,
      fun id' hne => lookup_mapDelete_ne _ _ _ hne, ?_⟩
    · simp [deliveredTo]
    · intro ready resp hm
      simp at hm
      exact hm.1
    · intro opener chid h; cases h
  | some opener =>
    by_cases hres : f.Result = ""
    · simp only [hres, ne_eq, not_true_eq_false, decide_False]
      refine ⟨_, _, rfl, ?_, ?_, rfl, lookup_mapDelete_self _ _,
        fun id' hne => lookup_mapDelete_ne _ _ _ hne, ?_⟩
      · simp [deliveredTo]
      · intro ready resp hm
        simp at hm
        exact hm.1
      · intro o chid _ h; exact absurd h (by simp)
    · obtain ⟨chid, hchid⟩ := hparse opener hret hres
      simp only [ne_eq, hres, not_false_eq_true, decide_True, hchid]
      refine ⟨_, _, rfl, ?_, ?_, rfl, lookup_mapDelete_self _ _,
        fun id' hne => lookup_mapDelete_ne _ _ _ hne, ?_⟩
      · simp [deliveredTo]
      · intro ready resp hm
        simp at hm
        exact hm.1
      · intro o n ho _ hn
        cases ho
        cases hn
        exact lookup_mapSet_self _ _ _

/-- C11, the failing input: call 7 is in flight with a stream-opener and the response
`{"id":7,"result":"\"abc\""}` carries a result that is not a chanId: `handleResponse`
returns at line 298, nothing is delivered to the reply slot 70 and the entry for 7
stays in the inflight table. A response for the ordinary call 8 is delivered and its
entry removed. -/
theorem handleResponse_unparsable_chanId :
    clientConn.inflight.lookup 7 =
      some { req := { Jsonrpc := "2.0", ID := some 7, Method := "Svc.Tail" },
             ready := 70, retCh := some 9 } ∧
    sampleUnmarshalNat "\"abc\"" = none ∧
    handleResponse sampleUnmarshalNat clientConn
        { Jsonrpc := "2.0", ID := some 7, Result := "\"abc\"" } = some (clientConn, []) ∧
    handleResponse sampleUnmarshalNat clientConn
        { Jsonrpc := "2.0", ID := some 8, Result := "\"abc\"" } =
      some ({ clientConn with
                inflight := [(7, { req := { Jsonrpc := "2.0", ID := some 7,
                                            Method := "Svc.Tail" },
                                   ready := 70, retCh := some 9 })] },
            [WsEvent.deliver 80 { Jsonrpc := "2.0", Result := "\"abc\"", ID := 8 }]) := by
  decide

/-! ## Channel ids -/

/-- As long as the counter does not wrap, the calls allocate consecutive ids. -/
theorem allocChanIds_range (calls : List (Value × Int × Bool)) :
    ∀ c : wsConn, c.chanCtr + calls.length < 2 ^ 64 →
      allocChanIds c calls = List.range' (c.chanCtr + 1) calls.length := by
  induction calls with
  | nil => intro c _; rfl
  | cons call rest ih =>
    intro c hlen
    obtain ⟨ch, req, registered⟩ := call
    simp only [List.length_cons] at hlen
    have hctr : (handleChanOut c ch req registered).1.chanCtr = c.chanCtr + 1 := by
      unfold handleChanOut
      cases registered <;> simp <;> omega
    simp only [allocChanIds, List.length_cons, List.range'_succ, hctr]
    rw [ih (handleChanOut c ch req registered).1 (by rw [hctr]; omega), hctr]

/-- The registration that a call sends carries the chanId that the call allocated. -/
theorem chanOutRuns_eq (calls : List (Value × Int × Bool)) :
    ∀ c : wsConn,
      chanOutRuns c calls = List.zipWith chanOutResult calls (allocChanIds c calls) := by
  induction calls with
  | nil => intro c; rfl
  | cons call rest ih =>
    intro c
    obtain ⟨ch, req, registered⟩ := call
    simp only [chanOutRuns, allocChanIds, List.zipWith_cons_cons, ih]
    congr 1
    unfold handleChanOut chanOutResult
    cases registered <;> simp

theorem sentChanIds_sublist (calls : List (Value × Int × Bool)) :
    ∀ c : wsConn, (sentChanIds c calls).Sublist (allocChanIds c calls) := by
  induction calls with
  | nil => intro c; exact List.Sublist.refl _
  | cons call rest ih =>
    intro c
    obtain ⟨ch, req, registered⟩ := call
    have ih' := ih (handleChanOut c ch req registered).1
    unfold sentChanIds at ih' ⊢
    simp only [chanOutRuns, allocChanIds, List.filterMap_cons]
    cases registered with
    | false =>
      have h : (handleChanOut c ch req false).2.1 = none := by simp [handleChanOut]
      simp only [h, Option.map_none']
      exact List.Sublist.cons _ ih'
    | true =>
      have h : ((handleChanOut c ch req true).2.1).map (fun reg => reg.chID) =
          some (handleChanOut c ch req true).1.chanCtr := by simp [handleChanOut]
      simp only [h]
      exact List.Sublist.cons₂ _ ih'

/-- C12: for every sequence of fewer than 2^64 `handleChanOut` calls on a connection
whose counter starts at 0, whatever branch each call's `select` takes, the chanIds
allocated are 1, 2, 3, ... in call order; so each is strictly greater than every one
allocated before it and they are pairwise distinct. A call whose registration is
received sends the multiplexer its channel and request id under exactly the chanId it
allocated and returns no error; a call on an exiting connection sends nothing and
returns an error. So the chanIds that streams are registered under are strictly
increasing and pairwise distinct too. -/
theorem chanIds_increasing (c : wsConn) (calls : List (Value × Int × Bool))
    (hfresh : c.chanCtr = 0) (hlen : calls.length < 2 ^ 64) :
    allocChanIds c calls = List.range' 1 calls.length ∧
    (allocChanIds c calls).Pairwise (fun a b => a < b) ∧
    (allocChanIds c calls).Nodup ∧
    chanOutRuns c calls =
      List.zipWith chanOutResult calls (List.range' 1 calls.length) ∧
    (sentChanIds c calls).Pairwise (fun a b => a < b) ∧
    (sentChanIds c calls).Nodup := by
  have h := allocChanIds_range calls c (by rw [hfresh]; omega)
  rw [hfresh] at h
  have hsub := sentChanIds_sublist calls c
  have hruns := chanOutRuns_eq calls c
  rw [h] at hsub hruns
  rw [h]
  exact ⟨rfl, List.pairwise_lt_range' 1 calls.length, List.nodup_range' 1 calls.length,
    hruns, (List.pairwise_lt_range' 1 calls.length).sublist hsub,
    (List.nodup_range' 1 calls.length).sublist hsub⟩

/-- C12, an instance: three calls on a fresh connection, the second of which fails to
register, get the chanIds 1, 2, 3; the streams of the first and the third call are
registered under 1 and 3. -/
theorem chanIds_increasing_witness :
    ({} : wsConn).chanCtr = 0 ∧
    [(Value.chan 7, (4 : Int), true), (Value.chan 8, 5, false),
      (Value.chan 9, 6, true)].length < 2 ^ 64 ∧
    allocChanIds {} [(Value.chan 7, 4, true), (Value.chan 8, 5, false),
      (Value.chan 9, 6, true)] = [1, 2, 3] ∧
    chanOutRuns {} [(Value.chan 7, 4, true), (Value.chan 8, 5, false),
      (Value.chan 9, 6, true)] =
      [(some { reqID := 4, chID := 1, ch := Value.chan 7 }, none),
       (none, some "connection closing"),
       (some { reqID := 6, chID := 3, ch := Value.chan 9 }, none)] :=
  ⟨rfl, by decide,
   (chanIds_increasing {} [(Value.chan 7, 4, true), (Value.chan 8, 5, false),
      (Value.chan 9, 6, true)] rfl (by decide)).1,
   (chanIds_increasing {} [(Value.chan 7, 4, true), (Value.chan 8, 5, false),
      (Value.chan 9, 6, true)] rfl (by decide)).2.2.2.1⟩

/-! ## Cancellation -/

/-- C15: for every handling table and every `xrpc.cancel` frame whose first param decodes
to id `n`, `cancelCtx` invokes the cancellation handle stored under `n` if there is one
and does nothing else: it enqueues no message and leaves the whole connection state,
hence the keys of the handling table, unchanged; applying it twice with the same frame
gives the same state as applying it once, and cancelling an id without entry causes no
event at all. -/
theorem cancelCtx_spec (unmarshal : Unmarshal Int) (c : wsConn) (f : frame) (p : param)
    (rest : List param) (n : Int) (hparams : f.Params = p :: rest)
    (hid : unmarshal p.data = some n) :
    cancelCtx unmarshal c f =
      some (c, match c.handling.lookup n with
               | some cf => [WsEvent.cancel cf]
               | none => []) ∧
    (∀ c' evs, cancelCtx unmarshal c f = some (c', evs) →
      c' = c ∧ enqueued evs = [] ∧
      c'.handling.map Prod.fst = c.handling.map Prod.fst ∧
      (cancelCtx unmarshal c' f).map Prod.fst = some c') ∧
    (c.handling.lookup n = none → cancelCtx unmarshal c f = some (c, [])) := by
  have hrun : cancelCtx unmarshal c f =
      some (c, match c.handling.lookup n with
               | some cf => [WsEvent.cancel cf]
               | none => []) := by
    unfold cancelCtx
    simp only [hparams, List.getElem?_cons_zero, hid]
    cases c.handling.lookup n <;> rfl
  refine ⟨hrun, ?_, ?_⟩
  · intro c' evs h
    rw [hrun] at h
    cases h
    refine ⟨rfl, ?_, rfl, by rw [hrun]; rfl⟩
    cases c.handling.lookup n <;> rfl
  · intro hnone
    rw [hrun, hnone]

/-- C15, an instance: on the sample connection, `xrpc.cancel` for the handled call 5
invokes its cancellation handle 50 and leaves the connection as it was. -/
theorem cancelCtx_spec_witness :
    ({ Method := "xrpc.cancel", Params := [{ data := "5" }] } : frame).Params
      = [{ data := "5" }] ∧
    sampleUnmarshalInt "5" = some 5 ∧
    cancelCtx sampleUnmarshalInt sampleConn
        { Method := "xrpc.cancel", Params := [{ data := "5" }] } =
      some (sampleConn, [WsEvent.cancel 50]) :=
  ⟨rfl, rfl,
   (cancelCtx_spec sampleUnmarshalInt sampleConn
      { Method := "xrpc.cancel", Params := [{ data := "5" }] } { data := "5" } [] 5
      rfl rfl).1⟩

/-! ## Incoming channel handlers -/

theorem filter_ne_of_not_key (t : List (Nat × Nat)) (k : Nat) (hk : k ∉ t.map Prod.fst) :
    t.filter (fun e => e.1 != k) = t := by
  rw [List.filter_eq_self]
  intro e he
  have : e.1 ≠ k := fun h => hk (h ▸ List.mem_map_of_mem Prod.fst he)
  simpa using this

/-- On a table with distinct keys the loop of `closeChans` calls every handler once
with `(nil, false)`, in table order, and empties the table. -/
theorem closeChansLoop_nodup (t : List (Nat × Nat)) (hnd : (t.map Prod.fst).Nodup) :
    closeChansLoop (t.map Prod.fst) t =
      some ([], t.map (fun e => WsEvent.chanCall e.2 none false)) := by
  induction t with
  | nil => rfl
  | cons e es ih =>
    obtain ⟨k, h⟩ := e
    simp only [List.map_cons, List.nodup_cons] at hnd
    have hfilter : ((k, h) :: es).filter (fun e => e.1 != k) = es := by
      simp [List.filter, filter_ne_of_not_key es k hnd.1]
    simp only [List.map_cons, closeChansLoop, List.lookup, beq_self_eq_true, hfilter,
      ih hnd.2]

/-- C17: `handleChanClose` for a chanId present in the table calls that handler once
with `(nil, false)`, removes exactly that key and leaves every other entry and table
unchanged; `closeChans` calls every handler of the table once with `(nil, false)` and
leaves the table empty; and an `xrpc.ch.val` frame for a chanId that is not in the table
(as after either) calls no handler and changes nothing. -/
theorem chanHandlers_final_call (unmarshal : Unmarshal Nat) (c : wsConn) (f : frame)
    (p : param) (rest : List param) (chid : Nat) (hparams : f.Params = p :: rest)
    (hid : unmarshal p.data = some chid) :
    (∀ hnd, c.chanHandlers.lookup chid = some hnd →
      handleChanClose unmarshal c f =
        some ({ c with chanHandlers := mapDelete c.chanHandlers chid },
              [WsEvent.chanCall hnd none false]) ∧
      (mapDelete c.chanHandlers chid).lookup chid = none ∧
      (∀ k, k ≠ chid → (mapDelete c.chanHandlers chid).lookup k = c.chanHandlers.lookup k)) ∧
    ((c.chanHandlers.map Prod.fst).Nodup →
      closeChans c =
        some ({ c with chanHandlers := [] },
              c.chanHandlers.map (fun e => WsEvent.chanCall e.2 none false))) ∧
    (∀ c' : wsConn, c'.chanHandlers.lookup chid = none →
      handleChanMessage unmarshal c' f = some (c', [])) := by
  refine ⟨?_, ?_, ?_⟩
  · intro hnd hl
    refine ⟨?_, lookup_mapDelete_self _ _, fun k hk => lookup_mapDelete_ne _ _ _ hk⟩
    unfold handleChanClose
    simp only [hparams, List.getElem?_cons_zero, hid, hl]
  · intro hnodup
    unfold closeChans
    rw [closeChansLoop_nodup c.chanHandlers hnodup]
    rfl
  · intro c' hl
    unfold handleChanMessage
    simp only [hparams, List.getElem?_cons_zero, hid, hl]

/-- C17, an instance: on the sample connection `xrpc.ch.close [3]` gives handler 30 its
final call and removes chanId 3, `closeChans` does the same for the whole table, and a
later `xrpc.ch.val [3, "x"]` reaches no handler. -/
theorem chanHandlers_final_call_witness :
    ({ Method := "xrpc.ch.close", Params := [{ data := "3" }] } : frame).Params
      = [{ data := "3" }] ∧
    sampleUnmarshalNat "3" = some 3 ∧
    sampleConn.chanHandlers.lookup 3 = some 30 ∧
    (sampleConn.chanHandlers.map Prod.fst).Nodup ∧
    handleChanClose sampleUnmarshalNat sampleConn
        { Method := "xrpc.ch.close", Params := [{ data := "3" }] } =
      some ({ sampleConn with chanHandlers := mapDelete sampleConn.chanHandlers 3 },
            [WsEvent.chanCall 30 none false]) ∧
    closeChans sampleConn =
      some ({ sampleConn with chanHandlers := [] }, [WsEvent.chanCall 30 none false]) :=
  ⟨rfl, rfl, rfl, by decide,
   ((chanHandlers_final_call sampleUnmarshalNat sampleConn
      { Method := "xrpc.ch.close", Params := [{ data := "3" }] } { data := "3" } [] 3
      rfl rfl).1 30 rfl).1,
   (chanHandlers_final_call sampleUnmarshalNat sampleConn
      { Method := "xrpc.ch.close", Params := [{ data := "3" }] } { data := "3" } [] 3
      rfl rfl).2.1 (by decide)⟩

/-! ## The completion callback -/

/-- The reply stage calls no `done`. -/
theorem handleReply_doneCalls (hd : rpcHandler) (out : List Value) (id : Int)
    (wr : Writer) (chOut : Option chanOut) :
    doneCalls (handleReply hd out id (directWriter wr) chOut).events = [] := by
  unfold handleReply
  simp only []
  repeat' split
  all_goals simp [doneCalls, directWriter, doneCalls_encode]

/-- The body of `handle` calls no `done` itself. -/
theorem handleBody_doneCalls (decode : Decoder) (ctx : Value) (req : request)
    (wr : Writer) (chOut : Option chanOut) (hd : rpcHandler) (outCh : Bool) :
    doneCalls (handleBody decode ctx req (directWriter wr) rpcError chOut hd outCh).events
      = [] := by
  unfold handleBody
  split
  · exact doneCalls_rpcError _ _ _ _
  · simp only []
    split
    · rename_i evs heq
      have h1 := congrArg Prod.fst heq
      simp only at h1
      rw [← h1]
      exact (decodeLoop_events _ _ _ _ _ _).2.1
    · rename_i evs k e heq
      have h1 := congrArg Prod.fst heq
      simp only at h1
      have e1 : doneCalls evs = [] := by
        rw [← h1]; exact (decodeLoop_events _ _ _ _ _ _).2.1
      simp [doneCalls_append, e1, doneCalls_rpcError]
    · rename_i evs cp heq
      have h1 := congrArg Prod.fst heq
      simp only at h1
      have e1 : doneCalls evs = [] := by
        rw [← h1]; exact (decodeLoop_events _ _ _ _ _ _).2.1
      simp only [doCall]
      cases hd.handlerFunc.call cp with
      | panics p => simp [doneCalls_append, e1, doneCalls, doneCalls_rpcError]
      | returns out =>
        cases req.ID with
        | none => simp [doneCalls_append, e1, doneCalls]
        | some id => simp [doneCalls_append, e1, doneCalls, handleReply_doneCalls]

/-- Once a request has passed the lookup and arity checks, `done` is called exactly
once, by the `defer` of line 198, with the static stream test as argument, whatever
happens afterwards. -/
theorem handle_doneCalls (decode : Decoder) (h : handlers) (ctx : Value) (req : request)
    (wr : Writer) (chOut : Option chanOut) (hd : rpcHandler) (outCh : Bool)
    (hreg : h.lookup req.Method = some hd) (hcount : req.Params.length = hd.nParams)
    (hslot : outCh? hd = some outCh) :
    doneCalls (handle decode h ctx req (directWriter wr) rpcError doneEvent chOut).events
      = [outCh] := by
  simp [handle, hreg, hcount, hslot, doneCalls_append, handleBody_doneCalls, doneEvent,
    doneCalls]

/-- A reply writer that does not call `done`: the reply stage calls no `done`. -/
theorem handleReply_doneCalls_of (hd : rpcHandler) (out : List Value) (id : Int)
    (w : WriteFn) (hw : ∀ cb, doneCalls (w cb) = []) (chOut : Option chanOut) :
    doneCalls (handleReply hd out id w chOut).events = [] := by
  unfold handleReply
  simp only []
  repeat' split
  all_goals simp [doneCalls, hw]

/-- A reply writer that does not call `done`: the body of `handle` calls no `done`. -/
theorem handleBody_doneCalls_of (decode : Decoder) (ctx : Value) (req : request)
    (w : WriteFn) (hw : ∀ cb, doneCalls (w cb) = []) (chOut : Option chanOut)
    (hd : rpcHandler) (outCh : Bool) :
    doneCalls (handleBody decode ctx req w rpcError chOut hd outCh).events = [] := by
  have hre : ∀ code msg, doneCalls (rpcError w req code msg) = [] :=
    fun code msg => hw _
  unfold handleBody
  split
  · exact hre _ _
  · simp only []
    split
    · rename_i evs heq
      have h1 := congrArg Prod.fst heq
      simp only at h1
      rw [← h1]
      exact (decodeLoop_events _ _ _ _ _ _).2.1
    · rename_i evs k e heq
      have h1 := congrArg Prod.fst heq
      simp only at h1
      have e1 : doneCalls evs = [] := by
        rw [← h1]; exact (decodeLoop_events _ _ _ _ _ _).2.1
      simp [doneCalls_append, e1, hre]
    · rename_i evs cp heq
      have h1 := congrArg Prod.fst heq
      simp only at h1
      have e1 : doneCalls evs = [] := by
        rw [← h1]; exact (decodeLoop_events _ _ _ _ _ _).2.1
      simp only [doCall]
      cases hd.handlerFunc.call cp with
      | panics p => simp [doneCalls_append, e1, doneCalls, hre]
      | returns out =>
        cases req.ID with
        | none => simp [doneCalls_append, e1, doneCalls]
        | some id =>
          simp [doneCalls_append, e1, doneCalls, handleReply_doneCalls_of _ _ _ w hw]

/-- Once a request has passed the lookup and arity checks, `done` is called exactly
once, by the `defer` of line 198, with the static stream test as argument, whatever
happens afterwards and whatever the reply writer does with what it is given. -/
theorem handle_doneCalls_of (decode : Decoder) (h : handlers) (ctx : Value) (req : request)
    (w : WriteFn) (hw : ∀ cb, doneCalls (w cb) = []) (chOut : Option chanOut)
    (hd : rpcHandler) (outCh : Bool)
    (hreg : h.lookup req.Method = some hd) (hcount : req.Params.length = hd.nParams)
    (hslot : outCh? hd = some outCh) :
    doneCalls (handle decode h ctx req w rpcError doneEvent chOut).events = [outCh] := by
  simp [handle, hreg, hcount, hslot, doneCalls_append,
    handleBody_doneCalls_of decode ctx req w hw, doneEvent, doneCalls]

theorem nextWriter_doneCalls (enqueue : WriteFn) (hw : ∀ cb, doneCalls (enqueue cb) = [])
    (id : Option Int) : ∀ cb, doneCalls (nextWriter enqueue id cb) = [] := by
  intro cb
  cases id with
  | none => rfl
  | some n => exact hw cb

/-- C16, as the code has it: for an inbound call with id `n` dispatched by `handleCall`,
whatever the reply writer does with what it is given (as long as it does not call the
completion callback), the handling table holds the call's cancellation handle under `n` from the
dispatch on. On a method miss or an arity mismatch the completion callback runs once with
`false`: the context is cancelled and the entry for `n` removed. Once the lookup and
arity checks have passed, the callback runs once with the static stream test `outCh` as
argument, whatever the call does afterwards (reply, error reply, decode failure, panic,
stream-opener failure or success): for a method whose declared value slot is not a
channel the context is cancelled and the entry removed, so no entry for `n` remains; for
a method whose declared value slot is a channel the entry is retained and the context is
not cancelled. -/
theorem handleCall_handling_entry (decode : Decoder) (h : handlers) (ctx : Value)
    (c : wsConn) (f : frame) (cancel : Nat) (chOut : chanOut) (enqueue : WriteFn) (n : Int)
    (hid : f.ID = some n) (hw : ∀ cb, doneCalls (enqueue cb) = []) :
    handleCall decode (some h) ctx c f cancel chOut enqueue =
      (handleCallRegister c f cancel,
       some (handle decode h ctx (frameRequest f) (nextWriter enqueue f.ID) rpcError
         doneEvent (some chOut))) ∧
    (handleCallRegister c f cancel).handling.lookup n = some cancel ∧
    ((h.lookup f.Method = none ∨
        ∃ hd, h.lookup f.Method = some hd ∧ f.Params.length ≠ hd.nParams) →
      completeCall f cancel (handleCallRegister c f cancel)
          (handle decode h ctx (frameRequest f) (nextWriter enqueue f.ID) rpcError
            doneEvent (some chOut)) =
        ({ handleCallRegister c f cancel with
             handling := mapDelete (handleCallRegister c f cancel).handling n },
         [WsEvent.cancel cancel]) ∧
      (mapDelete (handleCallRegister c f cancel).handling n).lookup n = none) ∧
    (∀ hd outCh, h.lookup f.Method = some hd → f.Params.length = hd.nParams →
      outCh? hd = some outCh →
      (outCh = false →
        completeCall f cancel (handleCallRegister c f cancel)
            (handle decode h ctx (frameRequest f) (nextWriter enqueue f.ID) rpcError
              doneEvent (some chOut)) =
          ({ handleCallRegister c f cancel with
               handling := mapDelete (handleCallRegister c f cancel).handling n },
           [WsEvent.cancel cancel]) ∧
        (mapDelete (handleCallRegister c f cancel).handling n).lookup n = none) ∧
      (outCh = true →
        completeCall f cancel (handleCallRegister c f cancel)
            (handle decode h ctx (frameRequest f) (nextWriter enqueue f.ID) rpcError
              doneEvent (some chOut)) =
          (handleCallRegister c f cancel, []) ∧
        (handleCallRegister c f cancel).handling.lookup n = some cancel)) := by
  have hwn := nextWriter_doneCalls enqueue hw f.ID
  have hre : ∀ code msg,
      doneCalls (rpcError (nextWriter enqueue f.ID) (frameRequest f) code msg) = [] :=
    fun code msg => hwn _
  have hreg0 : (handleCallRegister c f cancel).handling.lookup n = some cancel := by
    simp only [handleCallRegister, hid]
    exact lookup_mapSet_self _ _ _
  have hfalse : ∀ run : Run, doneCalls run.events = [false] →
      completeCall f cancel (handleCallRegister c f cancel) run =
        ({ handleCallRegister c f cancel with
             handling := mapDelete (handleCallRegister c f cancel).handling n },
         [WsEvent.cancel cancel]) := by
    intro run hrun
    simp [completeCall, hrun, handleCallDone, hid]
  have htrue : ∀ run : Run, doneCalls run.events = [true] →
      completeCall f cancel (handleCallRegister c f cancel) run =
        (handleCallRegister c f cancel, []) := by
    intro run hrun
    simp [completeCall, hrun, handleCallDone, hid]
  refine ⟨rfl, hreg0, ?_, ?_⟩
  · intro hcase
    refine ⟨hfalse _ ?_, lookup_mapDelete_self _ _⟩
    rcases hcase with hmiss | ⟨hd, hreg, hcount⟩
    · rw [handle_miss decode h ctx (frameRequest f) _ _ _ _ hmiss]
      simp [doneCalls_append, hre, doneEvent, doneCalls]
    · rw [handle_arity decode h ctx (frameRequest f) _ _ _ _ hd hreg hcount]
      simp [doneCalls_append, hre, doneEvent, doneCalls]
  · intro hd outCh hreg hcount hslot
    have hdone := handle_doneCalls_of decode h ctx (frameRequest f)
      (nextWriter enqueue f.ID) hwn (some chOut) hd outCh hreg hcount hslot
    refine ⟨fun hf => ⟨hfalse _ (by rw [hdone, hf]), lookup_mapDelete_self _ _⟩,
      fun ht => ⟨htrue _ (by rw [hdone, ht]), hreg0⟩⟩

/-- C16, an instance: on the sample connection the call `Svc.Echo("hi")` with id 9 and
cancellation handle 90 is entered in the handling table; `Echo` is not a streaming
method, so its completion cancels the context and removes the entry. -/
theorem handleCall_handling_entry_witness :
    (mkFrame (some 9) "Svc.Echo" ["\"hi\""]).ID = some 9 ∧
    (∀ cb, doneCalls (sampleWriter cb) = []) ∧
    (handleCallRegister sampleConn (mkFrame (some 9) "Svc.Echo" ["\"hi\""]) 90).handling.lookup 9
      = some 90 ∧
    completeCall (mkFrame (some 9) "Svc.Echo" ["\"hi\""]) 90
        (handleCallRegister sampleConn (mkFrame (some 9) "Svc.Echo" ["\"hi\""]) 90)
        (handle sampleDecode sampleRegistry Value.nil
          (frameRequest (mkFrame (some 9) "Svc.Echo" ["\"hi\""]))
          (nextWriter sampleWriter (mkFrame (some 9) "Svc.Echo" ["\"hi\""]).ID) rpcError
          doneEvent (some (sampleOpener true))) =
      ({ handleCallRegister sampleConn (mkFrame (some 9) "Svc.Echo" ["\"hi\""]) 90 with
           handling := mapDelete
             (handleCallRegister sampleConn (mkFrame (some 9) "Svc.Echo" ["\"hi\""]) 90).handling
             9 },
       [WsEvent.cancel 90]) :=
  ⟨rfl, fun _ => rfl,
   (handleCall_handling_entry sampleDecode sampleRegistry Value.nil sampleConn
      (mkFrame (some 9) "Svc.Echo" ["\"hi\""]) 90 (sampleOpener true) sampleWriter 9 rfl
      (fun _ => rfl)).2.1,
   (((handleCall_handling_entry sampleDecode sampleRegistry Value.nil sampleConn
      (mkFrame (some 9) "Svc.Echo" ["\"hi\""]) 90 (sampleOpener true) sampleWriter 9 rfl
      (fun _ => rfl)).2.2.2
      echoHandler false rfl rfl rfl).1 rfl).1⟩

/-- C16, where the claim fails: the calls `Svc.Watch("")` (its param does not decode:
no method is invoked and no stream is opened) and `Svc.Tail()` with a failing
stream-opener complete without an open stream; yet the completion callback gets `true`,
the context is not cancelled and the entry for id 9 stays in the handling table. -/
theorem handleCall_stream_error_keeps_entry :
    (handle sampleDecode watchRegistry Value.nil
      (frameRequest (mkFrame (some 9) "Svc.Watch" [""])) (nextWriter sampleWriter (some 9))
      rpcError doneEvent (some (sampleOpener true))).events =
      [Event.decode 0, Event.done true] ∧
    completeCall (mkFrame (some 9) "Svc.Watch" [""]) 90
        (handleCallRegister sampleConn (mkFrame (some 9) "Svc.Watch" [""]) 90)
        (handle sampleDecode watchRegistry Value.nil
          (frameRequest (mkFrame (some 9) "Svc.Watch" [""])) (nextWriter sampleWriter (some 9))
          rpcError doneEvent (some (sampleOpener true))) =
      (handleCallRegister sampleConn (mkFrame (some 9) "Svc.Watch" [""]) 90, []) ∧
    (handleCallRegister sampleConn (mkFrame (some 9) "Svc.Watch" [""]) 90).handling.lookup 9
      = some 90 ∧
    sampleOpener false (Value.chan 7) 9 = some "connection closing" ∧
    completeCall (mkFrame (some 9) "Svc.Tail" []) 90
        (handleCallRegister sampleConn (mkFrame (some 9) "Svc.Tail" []) 90)
        (handle sampleDecode watchRegistry Value.nil
          (frameRequest (mkFrame (some 9) "Svc.Tail" [])) (nextWriter sampleWriter (some 9))
          rpcError doneEvent (some (sampleOpener false))) =
      (handleCallRegister sampleConn (mkFrame (some 9) "Svc.Tail" []) 90, []) := by
  decide

/-! ## The HTTP transport -/

theorem wire_append (xs ys : List Event) : wire (xs ++ ys) = wire xs ++ wire ys := by
  induction xs with
  | nil => rfl
  | cons e es ih => cases e <;> simp [wire, ih]

theorem wire_encode (r : response) : wire (encode r) = encode r := by
  unfold encode; split <;> rfl

/-- Over HTTP `rpcError` sets status 500 and then writes the error frame, if the
request has an id. -/
theorem wire_rpcError_http (req : request) (code : Int) (msg : String) :
    wire (rpcError (directWriter { isHTTP := true }) req code msg) =
      Event.header 500 ::
        (match req.ID with
         | none => []
         | some id =>
           [Event.frame { Jsonrpc := "2.0", ID := id,
                          Error := some { Code := code, Message := msg } }]) := by
  rw [rpcError_direct]
  cases req.ID <;> rfl

/-- An error reply of `rpcError` over HTTP has one of the shapes of `HttpReply`. -/
theorem httpReply_rpcError (req : request) (code : Int) (msg : String)
    (hcode : code ∈ [rpcParseError, rpcMethodNotFound, rpcInvalidParams, 0]) :
    HttpReply req (wire (rpcError (directWriter { isHTTP := true }) req code msg)) := by
  rw [wire_rpcError_http]
  cases hid : req.ID with
  | none => exact Or.inr (Or.inl rfl)
  | some id => exact Or.inr (Or.inr (Or.inl ⟨id, code, msg, hid, hcode, rfl⟩))

/-- The reply stage writes no status; what it writes is at most one frame, with the
request's id and either no error or an error of code 1. -/
theorem handleReply_wire (hd : rpcHandler) (out : List Value) (id : Int) (wr : Writer)
    (chOut : Option chanOut) :
    wire (handleReply hd out id (directWriter wr) chOut).events = [] ∨
    ∃ r : response, r.ID = id ∧
      (r.Error = none ∨ ∃ m, r.Error = some { Code := 1, Message := m }) ∧
      wire (handleReply hd out id (directWriter wr) chOut).events = [Event.frame r] := by
  have hencode : ∀ r : response, r.ID = id →
      (r.Error = none ∨ ∃ m, r.Error = some { Code := 1, Message := m }) →
      (wire (encode r) = [] ∨ ∃ r' : response, r'.ID = id ∧
        (r'.Error = none ∨ ∃ m, r'.Error = some { Code := 1, Message := m }) ∧
        wire (encode r) = [Event.frame r']) := by
    intro r hr he
    unfold encode
    split
    · exact Or.inr ⟨r, hr, he, rfl⟩
    · exact Or.inl rfl
  unfold handleReply
  simp only []
  split
  · exact Or.inl rfl
  · rename_i resp1 h1
    have hp1 : resp1.ID = id ∧
        (resp1.Error = none ∨ ∃ m, resp1.Error = some { Code := 1, Message := m }) := by
      repeat' split at h1
      all_goals (cases h1; try first | exact ⟨rfl, Or.inl rfl⟩ | exact ⟨rfl, Or.inr ⟨_, rfl⟩⟩)
    split
    · exact Or.inl rfl
    · rename_i resp2 h2
      have hp2 : resp2.ID = id ∧
          (resp2.Error = none ∨ ∃ m, resp2.Error = some { Code := 1, Message := m }) := by
        repeat' split at h2
        all_goals (cases h2; try first | exact hp1 | exact ⟨hp1.1, hp1.2⟩)
      split
      · split
        · exact Or.inl rfl
        · split
          · exact Or.inl rfl
          · rename_i open_ _ e _
            have := hencode { resp2 with Error := some { Code := 1, Message := e } } hp2.1
              (Or.inr ⟨e, rfl⟩)
            simpa [wire, directWriter] using this
      · have := hencode resp2 hp2.1 hp2.2
        simpa [wire, directWriter] using this

/-- The decoding loop puts nothing on the wire. -/
theorem decodeLoop_wire (decode : Decoder) (hd : rpcHandler) (req : request) :
    ∀ (n i : Nat) (cp : List Value), wire (decodeLoop decode hd req n i cp).1 = [] := by
  intro n
  induction n with
  | zero => intro i cp; simp [decodeLoop, wire]
  | succ n ih =>
    intro i cp
    rw [decodeLoop]
    cases h1 : hd.paramReceivers[i]? with
    | none => simp [wire]
    | some ty =>
      cases h2 : req.Params[i]? with
      | none => simp [wire]
      | some p =>
        cases h3 : decode ty p.data with
        | error e => simp [h3, wire]
        | ok v =>
          have := ih (i + 1) (cp.set (i + 1 + hd.hasCtx) v)
          simpa [h3, wire] using this

/-- The body of `handle` over HTTP puts one of the shapes of `HttpReply` on the wire. -/
theorem handleBody_httpReply (decode : Decoder) (ctx : Value) (req : request)
    (chOut : Option chanOut) (hd : rpcHandler) (outCh : Bool) :
    HttpReply req
      (wire (handleBody decode ctx req (directWriter { isHTTP := true }) rpcError chOut hd
        outCh).events) := by
  unfold handleBody
  split
  · exact httpReply_rpcError _ _ _ (by simp)
  · simp only []
    split
    · rename_i evs heq
      have h1 := congrArg Prod.fst heq
      simp only at h1
      have e1 : wire evs = [] := by
        rw [← h1]; exact decodeLoop_wire _ _ _ _ _ _
      exact Or.inl e1
    · rename_i evs k e heq
      have h1 := congrArg Prod.fst heq
      simp only at h1
      have e1 : wire evs = [] := by
        rw [← h1]; exact decodeLoop_wire _ _ _ _ _ _
      simp only [wire_append, e1, List.nil_append]
      exact httpReply_rpcError _ _ _ (by simp)
    · rename_i evs cp heq
      have h1 := congrArg Prod.fst heq
      simp only at h1
      have e1 : wire evs = [] := by
        rw [← h1]; exact decodeLoop_wire _ _ _ _ _ _
      simp only [doCall]
      cases hd.handlerFunc.call cp with
      | panics p =>
        simp only [wire_append, e1, List.nil_append, wire]
        exact httpReply_rpcError _ _ _ (by simp)
      | returns out =>
        cases hid : req.ID with
        | none =>
          simp only [wire_append, e1, wire]
          exact Or.inl rfl
        | some id =>
          simp only [wire_append, e1, List.nil_append, wire]
          rcases handleReply_wire hd out id { isHTTP := true } chOut with h0 | ⟨r, hr, he, hw⟩
          · exact Or.inl h0
          · exact Or.inr (Or.inr (Or.inr ⟨r, by rw [hr]; exact hid, he, hw⟩))

/-- Every response to a request over HTTP has one of the shapes of `HttpReply`. -/
theorem handleReader_httpReply (decode : Decoder) (h : handlers) (ctx : Value)
    (req : request) (decoded : Option String) :
    HttpReply req
      (wire (handleReader decode h ctx req decoded { isHTTP := true } rpcError).events) := by
  unfold handleReader
  cases decoded with
  | some e => exact httpReply_rpcError _ _ _ (by simp)
  | none =>
    simp only []
    unfold handle
    split
    · simp only [List.append_nil]
      exact httpReply_rpcError _ _ _ (by simp)
    · split
      · simp only [List.append_nil]
        exact httpReply_rpcError _ _ _ (by simp)
      · split
        · exact Or.inl rfl
        · simp only [List.append_nil]
          exact handleBody_httpReply _ _ _ _ _ _

theorem wire_decodes (n i : Nat) : wire ((List.range' i n).map Event.decode) = [] := by
  induction n generalizing i with
  | zero => rfl
  | succ n ih => simp [List.range'_succ, wire, ih]

theorem httpWire_rpcError (req : request) (code : Int) (msg : String) :
    wire (rpcError (directWriter { isHTTP := true }) req code msg) =
      httpError req code msg :=
  wire_rpcError_http req code msg

/-- The body of `handle` over HTTP when some param does not decode: status 500 and the
error frame with code -32700. -/
theorem handleBody_decode_failed_wire (decode : Decoder) (ctx : Value) (req : request)
    (hd : rpcHandler) (hcount : req.Params.length = hd.nParams)
    (htypes : hd.paramReceivers.length = hd.nParams) (hbad : DecodeFails decode hd req) :
    ∃ e : String,
      wire (handleBody decode ctx req (directWriter { isHTTP := true }) rpcError none hd
        false).events =
        httpError req (-32700)
          ("unmarshaling params for '" ++ hd.handlerFunc.text ++ "': " ++ e) := by
  obtain ⟨k, e, ty, p, _, _, _, h4⟩ :=
    decodeLoop_failed_aux decode hd req hd.nParams [] hd.paramReceivers [] req.Params 0
      (callPrefix hd ctx ++ List.replicate hd.nParams Value.nil)
      (by simp) (by simp) rfl rfl htypes hcount hbad
  have hw := decodeLoop_wire decode hd req hd.nParams 0
    (callPrefix hd ctx ++ List.replicate hd.nParams Value.nil)
  refine ⟨e, ?_⟩
  unfold handleBody
  simp only [Bool.false_eq_true, and_false, if_false]
  rw [initial_callParams]
  generalize decodeLoop decode hd req hd.nParams 0
      (callPrefix hd ctx ++ List.replicate hd.nParams Value.nil) = r at h4 hw ⊢
  obtain ⟨evs, res⟩ := r
  simp only at h4 hw
  subst h4
  simp only [wire_append, hw, List.nil_append, rpcParseError]
  exact httpWire_rpcError _ _ _

/-- C18 (as amended): over the HTTP transport every error reply that `rpcError` writes is
sent after `WriteHeader(500)`, and its body is the JSON-RPC response object with the
request's id and the error: code -32700 for a body that does not parse and for a param
that does not decode, -32601 for an unknown method and for a streaming method, -32602
for a wrong param count, and 0 for a method that panics. The reply of a method that
returns, whether it carries no error or the application error with code 1, is written by
`handle` itself with no status set, so it goes out with the default status; it is the
JSON-RPC response object with the request's id, the result and the error, and it is
written when the result can be encoded. -/
theorem handleReader_http_status (decode : Decoder) (h : handlers) (ctx : Value)
    (req : request) :
    (∀ e : String, httpWire decode h ctx req (some e) =
      httpError req (-32700) ("unmarshaling request: " ++ e)) ∧
    (h.lookup req.Method = none →
      httpWire decode h ctx req none =
        httpError req (-32601) ("method '" ++ req.Method ++ "' not found")) ∧
    (∀ hd : rpcHandler, h.lookup req.Method = some hd → req.Params.length ≠ hd.nParams →
      httpWire decode h ctx req none = httpError req (-32602) "wrong param count") ∧
    (∀ hd : rpcHandler, h.lookup req.Method = some hd → req.Params.length = hd.nParams →
      isStream hd →
      httpWire decode h ctx req none =
        httpError req (-32601)
          ("method '" ++ req.Method ++
            "' not supported in this mode (no out channel support)")) ∧
    (∀ hd : rpcHandler, Dispatches h req none hd false → DecodeFails decode hd req →
      ∃ e : String, httpWire decode h ctx req none =
        httpError req (-32700)
          ("unmarshaling params for '" ++ hd.handlerFunc.text ++ "': " ++ e)) ∧
    (∀ (hd : rpcHandler) (vs : List Value) (p : String),
      Dispatches h req none hd false → DecodesTo decode hd req vs →
      hd.handlerFunc.call (callPrefix hd ctx ++ vs) = CallOutcome.panics p →
      httpWire decode h ctx req none =
        httpError req 0 ("fatal error calling '" ++ req.Method ++ "': " ++
          ("panic in rpc method '" ++ req.Method ++ "': " ++ p))) ∧
    (∀ (hd : rpcHandler) (vs out : List Value) (id : Int),
      Dispatches h req none hd false → DecodesTo decode hd req vs →
      hd.handlerFunc.call (callPrefix hd ctx ++ vs) = CallOutcome.returns out →
      SlotsOk hd out → (valueSlot hd out).isChan = false → req.ID = some id →
      httpWire decode h ctx req none =
        if (valueSlot hd out).jsonEncodable = true then
          [Event.frame { Jsonrpc := "2.0", Result := valueSlot hd out, ID := id,
                         Error := (errorSlot hd out).map
                           (fun m => { Code := 1, Message := m }) }]
        else []) := by
  refine ⟨?_, ?_, ?_, ?_, ?_, ?_, ?_⟩
  · intro e
    exact httpWire_rpcError _ _ _
  · intro hmiss
    unfold httpWire handleReader
    simp only [handle_miss decode h ctx req _ _ _ none hmiss, List.append_nil]
    exact httpWire_rpcError _ _ _
  · intro hd hreg hcount
    unfold httpWire handleReader
    simp only [handle_arity decode h ctx req _ _ _ none hd hreg hcount, List.append_nil]
    exact httpWire_rpcError _ _ _
  · intro hd hreg hcount hstream
    unfold httpWire handleReader
    simp only [handle_no_opener decode h ctx req _ _ _ hd hreg hcount hstream,
      List.append_nil]
    exact httpWire_rpcError _ _ _
  · intro hd hdisp hbad
    obtain ⟨e, he⟩ := handleBody_decode_failed_wire decode ctx req hd hdisp.count
      hdisp.types hbad
    refine ⟨e, ?_⟩
    unfold httpWire handleReader
    simp only [handle_dispatches decode h ctx req _ _ _ none hd false hdisp,
      List.append_nil]
    exact he
  · intro hd vs p hdisp hdec hpanic
    unfold httpWire handleReader
    simp only [handle_dispatches decode h ctx req _ _ _ none hd false hdisp,
      handleBody_decoded decode ctx req _ _ none hd false vs hdisp.gate hdisp.count
        hdisp.types hdec, hpanic, List.append_nil, wire_append, wire_decodes, wire,
      List.nil_append]
    exact httpWire_rpcError _ _ _
  · intro hd vs out id hdisp hdec hret hslots hnochan hid
    unfold httpWire handleReader
    simp only [handle_dispatches decode h ctx req _ _ _ none hd false hdisp,
      handleBody_decoded decode ctx req _ _ none hd false vs hdisp.gate hdisp.count
        hdisp.types hdec, hret, hid, handleReply_eq hd out id _ none hslots, hnochan,
      Bool.false_eq_true, if_false, List.append_nil, wire_append, wire_decodes, wire,
      List.nil_append, directWriter, wire_encode]
    unfold encode
    rfl

/-- C18, an instance: over HTTP the unknown method `Svc.Nope` is answered with status 500
and the error frame with code -32601. -/
theorem handleReader_http_status_witness :
    sampleRegistry.lookup (mkRequest (some 2) "Svc.Nope" []).Method = none ∧
    httpWire sampleDecode sampleRegistry Value.nil (mkRequest (some 2) "Svc.Nope" []) none =
      [Event.header 500,
       Event.frame { Jsonrpc := "2.0", ID := 2,
                     Error := some { Code := -32601,
                                     Message := "method 'Svc.Nope' not found" } }] :=
  ⟨rfl,
   (handleReader_http_status sampleDecode sampleRegistry Value.nil
      (mkRequest (some 2) "Svc.Nope" [])).2.1 rfl⟩

/-- C18, counterexample: over HTTP the method `Svc.Fail`, which returns the error
"nope", is answered by a frame with the application error code 1 and no status 500 is
set; the unknown method `Svc.Nope` is answered after status 500. -/
theorem handleReader_application_error_status :
    wire (handleReader sampleDecode sampleRegistry Value.nil (mkRequest (some 1) "Svc.Fail" [])
      none { isHTTP := true } rpcError).events =
      [Event.frame { Jsonrpc := "2.0", Result := Value.obj "", ID := 1,
                     Error := some { Code := 1, Message := "nope" } }] ∧
    Event.header 500 ∉
      (handleReader sampleDecode sampleRegistry Value.nil (mkRequest (some 1) "Svc.Fail" [])
        none { isHTTP := true } rpcError).events ∧
    wire (handleReader sampleDecode sampleRegistry Value.nil (mkRequest (some 2) "Svc.Nope" [])
      none { isHTTP := true } rpcError).events =
      [Event.header 500,
       Event.frame { Jsonrpc := "2.0", ID := 2,
                     Error := some { Code := -32601,
                                     Message := "method 'Svc.Nope' not found" } }] := by
  decide

/-! ## The selector state of the multiplexer -/

theorem zip_set_set {α β : Type} (l1 : List α) (l2 : List β) (i : Nat) (a : α) (b : β) :
    (l1.set i a).zip (l2.set i b) = (l1.zip l2).set i (a, b) := by
  induction l1 generalizing l2 i with
  | nil => simp
  | cons x xs ih =>
    cases l2 with
    | nil => simp
    | cons y ys =>
      cases i with
      | zero => simp
      | succ i => simp [ih]

theorem take_zip_zip {α β : Type} (l1 : List α) (l2 : List β) (n : Nat) :
    (l1.zip l2).take n = (l1.take n).zip (l2.take n) := by
  induction l1 generalizing l2 n with
  | nil => simp
  | cons x xs ih =>
    cases l2 with
    | nil => simp
    | cons y ys =>
      cases n with
      | zero => simp
      | succ n => simp [ih]

/-- Overwriting position `j` with the last element and dropping the last position
removes exactly the element at `j`, up to the order of the others. -/
theorem swapRemove_perm {α : Type} :
    ∀ (l : List α) (j : Nat) (last : α), l.getLast? = some last → j < l.length →
      ((l.set j last).take (l.length - 1)).Perm (l.eraseIdx j) := by
  intro l
  induction l with
  | nil => intro j last _ hj; simp at hj
  | cons x t ih =>
    intro j last hlast hj
    cases t with
    | nil =>
      have : j = 0 := by simpa using hj
      subst this
      simp
    | cons y t =>
      have hlast' : (y :: t).getLast? = some last := by
        simpa [List.getLast?_cons_cons] using hlast
      cases j with
      | zero =>
        have hsplit : y :: t = (y :: t).dropLast ++ [last] := by
          have := List.dropLast_append_getLast? last hlast'
          exact this.symm
        have htake : (y :: t).take (t.length) = (y :: t).dropLast := by
          rw [List.dropLast_eq_take]; simp
        simp only [List.set_cons_zero, List.length_cons, Nat.add_sub_cancel,
          List.take_succ_cons, List.eraseIdx_cons_zero, htake]
        conv_rhs => rw [hsplit]
        exact (List.perm_append_singleton last (y :: t).dropLast).symm
      | succ j =>
        have := ih j last hlast' (by simpa using hj)
        simp only [List.set_cons_succ, List.length_cons, Nat.add_sub_cancel,
          List.take_succ_cons, List.eraseIdx_cons_succ] at this ⊢
        exact List.Perm.cons x this

/-- A state that satisfies the invariant consists of the two internal slots followed
by as many sources as `caseToID` has entries. -/
theorem inv_cases (s : OutChans) (regV exitV : Value) (hinv : s.Inv regV exitV) :
    ∃ srcs, s.cases = regV :: exitV :: srcs ∧ srcs.length = s.caseToID.length := by
  obtain ⟨hlen, h0, h1⟩ := hinv
  match hc : s.cases, hlen, h0, h1 with
  | a :: b :: srcs, hlen, h0, h1 =>
    simp at h0 h1
    subst h0 h1
    exact ⟨srcs, rfl, by simpa using hlen⟩

/-- A value received at source slot `j + 2` is forwarded under `caseToID[j]`; the
selector state does not change. -/
theorem step_value (a b : Value) (srcs : List Value) (ids : List Nat)
    (hlen : srcs.length = ids.length) (j : Nat) (hj : j < ids.length) (v : Value) :
    ∃ src id, srcs[j]? = some src ∧ ids[j]? = some id ∧
      handleOutChansStep { cases := a :: b :: srcs, caseToID := ids }
          (Selected.source (j + 2) v true) =
        StepResult.continue_ { cases := a :: b :: srcs, caseToID := ids }
          [chanValMsg id v] := by
  have hs : j < srcs.length := by omega
  refine ⟨srcs[j], ids[j], List.getElem?_eq_getElem hs, List.getElem?_eq_getElem hj, ?_⟩
  simp [handleOutChansStep, List.getElem?_eq_getElem hj, chanValMsg]

/-- A source closed at slot `j + 2`: the close notification carries `caseToID[j]`, the
last source and the last chanId are moved to position `j` and both lists lose their
last position. -/
theorem step_close (a b : Value) (srcs : List Value) (ids : List Nat)
    (hlen : srcs.length = ids.length) (j : Nat) (hj : j < ids.length) (v : Value) :
    ∃ src id lastS lastI, srcs[j]? = some src ∧ ids[j]? = some id ∧
      srcs.getLast? = some lastS ∧ ids.getLast? = some lastI ∧
      handleOutChansStep { cases := a :: b :: srcs, caseToID := ids }
          (Selected.source (j + 2) v false) =
        StepResult.continue_
          { cases := a :: b :: (srcs.set j lastS).take (ids.length - 1),
            caseToID := (ids.set j lastI).take (ids.length - 1) }
          [chanCloseMsg id] := by
  have hs : j < srcs.length := by omega
  have hls : ids.length - 1 < srcs.length := by omega
  have hli : ids.length - 1 < ids.length := by omega
  refine ⟨srcs[j], ids[j], srcs[ids.length - 1], ids[ids.length - 1],
    List.getElem?_eq_getElem hs, List.getElem?_eq_getElem hj, ?_, ?_, ?_⟩
  · rw [List.getLast?_eq_getElem?, hlen, List.getElem?_eq_getElem hls]
  · rw [List.getLast?_eq_getElem?, List.getElem?_eq_getElem hli]
  · have h1 : (a :: b :: srcs)[srcs.length + 1]? = some srcs[ids.length - 1] := by
      have : srcs.length + 1 = (ids.length - 1) + 2 := by omega
      rw [this]
      simp [List.getElem?_eq_getElem hls]
    have h2 : ids[srcs.length + 1 - 2]? = some ids[ids.length - 1] := by
      have : srcs.length + 1 - 2 = ids.length - 1 := by omega
      rw [this, List.getElem?_eq_getElem hli]
    have h3 : j + 2 < srcs.length + 1 + 1 := by omega
    have h4 : srcs.length + 1 - 2 = ids.length - 1 := by omega
    have h5 : srcs.length + 1 = (ids.length - 1) + 2 := by omega
    simp only [handleOutChansStep, Nat.add_sub_cancel, List.getElem?_eq_getElem hj,
      List.length_cons, h1, h2, h3, decide_True, h4, chanCloseMsg]
    simp [h5, List.getElem?_eq_getElem hli]

theorem pairs_explicit (a b : Value) (srcs : List Value) (ids : List Nat) :
    OutChans.pairs { cases := a :: b :: srcs, caseToID := ids } = srcs.zip ids := by
  simp [OutChans.pairs]

theorem getLast?_zip {α β : Type} (l1 : List α) (l2 : List β) (hlen : l1.length = l2.length)
    (x : α) (y : β) (h1 : l1.getLast? = some x) (h2 : l2.getLast? = some y) :
    (l1.zip l2).getLast? = some (x, y) := by
  rw [List.getLast?_eq_getElem?] at h1 h2 ⊢
  rw [List.getElem?_zip_eq_some]
  simp only [List.length_zip, hlen, Nat.min_self]
  exact ⟨by rw [← hlen]; exact h1, h2⟩

/-- The state in which the loop starts satisfies the invariant and holds no pair. -/
theorem initOutChans_inv (regV exitV : Value) :
    (initOutChans regV exitV).Inv regV exitV ∧ (initOutChans regV exitV).pairs = [] :=
  ⟨⟨rfl, rfl, rfl⟩, rfl⟩

/-- A registration appends exactly one (source, chanId) pair and enqueues the response
that announces the chanId. -/
theorem registration_step (regV exitV : Value) (s : OutChans) (hinv : s.Inv regV exitV)
    (reg : outChanReg) :
    ∃ s', handleOutChansStep s (Selected.registration reg) =
        StepResult.continue_ s' [chanResponse reg.reqID reg.chID] ∧
      s'.Inv regV exitV ∧ s'.pairs = s.pairs ++ [(reg.ch, reg.chID)] := by
  obtain ⟨srcs, hc, hl⟩ := inv_cases s regV exitV hinv
  obtain ⟨cases, ids⟩ := s
  simp only at hc hl
  subst hc
  refine ⟨_, rfl, ⟨?_, by simp, by simp⟩, ?_⟩
  · simp [hl]
  · simp only [pairs_explicit, List.cons_append]
    rw [List.zip_append hl]
    rfl

/-- A value received at a source slot `k` is forwarded under the chanId paired with
that slot; the selector state does not change. -/
theorem value_step (regV exitV : Value) (s : OutChans) (hinv : s.Inv regV exitV)
    (k : Nat) (v : Value) (h2 : 2 ≤ k) (hk : k < s.cases.length) :
    ∃ src id, s.pairs[k - 2]? = some (src, id) ∧ s.cases[k]? = some src ∧
      handleOutChansStep s (Selected.source k v true) =
        StepResult.continue_ s [chanValMsg id v] := by
  obtain ⟨srcs, hc, hl⟩ := inv_cases s regV exitV hinv
  obtain ⟨cases, ids⟩ := s
  simp only at hc hl hk
  subst hc
  obtain ⟨j, rfl⟩ : ∃ j, k = j + 2 := ⟨k - 2, by omega⟩
  have hj : j < ids.length := by simp at hk; omega
  obtain ⟨src, id, hs, hi, hstep⟩ := step_value regV exitV srcs ids hl j hj v
  refine ⟨src, id, ?_, by simpa using hs, hstep⟩
  simp only [pairs_explicit, Nat.add_sub_cancel]
  rw [List.getElem?_zip_eq_some]
  exact ⟨hs, hi⟩

/-- A source closed at slot `k`: the close notification carries the chanId paired with
slot `k`; the pair at slot `k` is overwritten by the last pair and the last position
is dropped, so exactly that pair is removed and all other pairs stay. -/
theorem close_step (regV exitV : Value) (s : OutChans) (hinv : s.Inv regV exitV)
    (k : Nat) (v : Value) (h2 : 2 ≤ k) (hk : k < s.cases.length) :
    ∃ src id last s', s.pairs[k - 2]? = some (src, id) ∧ s.cases[k]? = some src ∧
      s.pairs.getLast? = some last ∧
      handleOutChansStep s (Selected.source k v false) =
        StepResult.continue_ s' [chanCloseMsg id] ∧
      s'.Inv regV exitV ∧
      s'.pairs = (s.pairs.set (k - 2) last).take (s.pairs.length - 1) ∧
      s'.pairs.Perm (s.pairs.eraseIdx (k - 2)) := by
  obtain ⟨srcs, hc, hl⟩ := inv_cases s regV exitV hinv
  obtain ⟨cases, ids⟩ := s
  simp only at hc hl hk
  subst hc
  obtain ⟨j, rfl⟩ : ∃ j, k = j + 2 := ⟨k - 2, by omega⟩
  have hj : j < ids.length := by simp at hk; omega
  obtain ⟨src, id, lastS, lastI, hs, hi, hls, hli, hstep⟩ :=
    step_close regV exitV srcs ids hl j hj v
  have hlast : (srcs.zip ids).getLast? = some (lastS, lastI) :=
    getLast?_zip srcs ids hl lastS lastI hls hli
  have hzl : (srcs.zip ids).length = ids.length := by simp [hl]
  have hpairs : OutChans.pairs
        { cases := regV :: exitV :: (srcs.set j lastS).take (ids.length - 1),
          caseToID := (ids.set j lastI).take (ids.length - 1) }
      = ((srcs.zip ids).set j (lastS, lastI)).take ((srcs.zip ids).length - 1) := by
    rw [pairs_explicit, hzl, ← zip_set_set, take_zip_zip]
  refine ⟨src, id, (lastS, lastI), _, ?_, by simpa using hs, ?_, hstep,
    ⟨?_, by simp, by simp⟩, ?_, ?_⟩
  · simp only [pairs_explicit, Nat.add_sub_cancel]
    rw [List.getElem?_zip_eq_some]
    exact ⟨hs, hi⟩
  · rw [pairs_explicit]; exact hlast
  · simp only [List.length_cons, List.length_take, List.length_set]
    omega
  · simp only [Nat.add_sub_cancel]
    rw [hpairs, pairs_explicit]
  · simp only [Nat.add_sub_cancel]
    rw [hpairs, pairs_explicit]
    exact swapRemove_perm _ j _ hlast (by rw [hzl]; exact hj)

/-! ## The multiplexer under events that name their case -/

theorem pairs_map_fst (s : OutChans) (regV exitV : Value) (hinv : s.Inv regV exitV) :
    s.pairs.map Prod.fst = s.cases.drop 2 := by
  unfold OutChans.pairs
  apply List.map_fst_zip
  have := hinv.len
  simp only [List.length_drop]
  omega

theorem pairs_map_snd (s : OutChans) (regV exitV : Value) (hinv : s.Inv regV exitV) :
    s.pairs.map Prod.snd = s.caseToID := by
  unfold OutChans.pairs
  apply List.map_snd_zip
  have := hinv.len
  simp only [List.length_drop]
  omega

/-- In a list without duplicates, erasing a position is erasing its element. -/
theorem eraseIdx_eq_erase {α : Type} [BEq α] [LawfulBEq α] :
    ∀ (l : List α) (j : Nat) (a : α), l.Nodup → l[j]? = some a → l.eraseIdx j = l.erase a := by
  intro l
  induction l with
  | nil => intro j a _ h; simp at h
  | cons x t ih =>
    intro j a hnd h
    rw [List.nodup_cons] at hnd
    cases j with
    | zero =>
      simp only [List.getElem?_cons_zero, Option.some.injEq] at h
      subst h
      simp
    | succ j =>
      simp only [List.getElem?_cons_succ] at h
      have hmem : a ∈ t := List.mem_iff_getElem?.mpr ⟨j, h⟩
      have hne : x ≠ a := fun hxa => hnd.1 (hxa ▸ hmem)
      have hbeq : ¬ (x == a) = true := by simpa using hne
      rw [List.eraseIdx_cons_succ, List.erase_cons_tail hbeq, ih j a hnd.2 h]

theorem pairs_length (s : OutChans) (regV exitV : Value) (hinv : s.Inv regV exitV) :
    s.pairs.length = s.caseToID.length := by
  have h := hinv.len
  simp only [OutChans.pairs, List.length_zip, List.length_drop]
  omega

/-- A case that the selector holds is found at a valid source slot. -/
theorem slotOf_spec (s : OutChans) (regV exitV : Value) (hinv : s.Inv regV exitV)
    (src : Value) (c : Nat) (hmem : (src, c) ∈ s.pairs) :
    ∃ k, slotOf s src c = some k ∧ 2 ≤ k ∧ k < s.cases.length ∧
      s.pairs[k - 2]? = some (src, c) := by
  have hidx : s.pairs.findIdx (fun p => decide (p = (src, c))) < s.pairs.length :=
    List.findIdx_lt_length_of_exists ⟨(src, c), hmem, by simp⟩
  have hget : s.pairs[s.pairs.findIdx (fun p => decide (p = (src, c)))]? = some (src, c) := by
    rw [List.getElem?_eq_getElem hidx]
    have h := List.findIdx_getElem (w := hidx)
    simpa using h
  have hlen := pairs_length s regV exitV hinv
  have hl := hinv.len
  refine ⟨s.pairs.findIdx (fun p => decide (p = (src, c))) + 2, ?_, by omega, by omega, ?_⟩
  · simp [slotOf, hmem]
  · simpa using hget

theorem slotOf_none (s : OutChans) (src : Value) (c : Nat) (hmem : (src, c) ∉ s.pairs) :
    slotOf s src c = none := by
  simp [slotOf, hmem]

/-- A value received at a case of the selector is forwarded under the chanId of that
case; the state does not change. -/
theorem mux_value (regV exitV : Value) (s : OutChans) (hinv : s.Inv regV exitV)
    (src v : Value) (c : Nat) (hmem : (src, c) ∈ s.pairs) :
    ∃ sel, selectOf s (MuxEvent.value src c v) = some sel ∧
      handleOutChansStep s sel = StepResult.continue_ s [chanValMsg c v] := by
  obtain ⟨k, hk, h2, hlt, hp⟩ := slotOf_spec s regV exitV hinv src c hmem
  obtain ⟨src1, c1, hp1, _, hstep⟩ := value_step regV exitV s hinv k v h2 hlt
  rw [hp] at hp1
  cases hp1
  exact ⟨Selected.source k v true, by simp [selectOf, hk], hstep⟩

/-- A case of the selector reported closed: the close notification is enqueued under
the chanId of that case and exactly that pair is removed. -/
theorem mux_close (regV exitV : Value) (s : OutChans) (hinv : s.Inv regV exitV)
    (src : Value) (c : Nat) (hmem : (src, c) ∈ s.pairs) (hnd : s.pairs.Nodup) :
    ∃ sel s', selectOf s (MuxEvent.closed src c) = some sel ∧
      handleOutChansStep s sel = StepResult.continue_ s' [chanCloseMsg c] ∧
      s'.Inv regV exitV ∧ s'.pairs.Perm (s.pairs.erase (src, c)) := by
  obtain ⟨k, hk, h2, hlt, hp⟩ := slotOf_spec s regV exitV hinv src c hmem
  obtain ⟨src1, c1, last, s', hp1, _, _, hstep, hinv', _, hperm⟩ :=
    close_step regV exitV s hinv k Value.nil h2 hlt
  rw [hp] at hp1
  cases hp1
  refine ⟨Selected.source k Value.nil false, s', by simp [selectOf, hk], hstep, hinv', ?_⟩
  rw [← eraseIdx_eq_erase s.pairs (k - 2) (src, c) hnd hp]
  exact hperm

/-! ## The frames of one stream -/

theorem concerns_response (c r : Nat) (id : Int) :
    Msg.concerns c (chanResponse id r) = decide (r = c) := by
  simp [Msg.concerns, chanResponse]

theorem concerns_val (c r : Nat) (v : Value) :
    Msg.concerns c (chanValMsg r v) = decide (r = c) := by
  simp [Msg.concerns, chanValMsg]

theorem concerns_close (c r : Nat) : Msg.concerns c (chanCloseMsg r) = decide (r = c) := by
  simp [Msg.concerns, chanCloseMsg]

theorem concerning_cons_of (c : Nat) (m : Msg) (out : List Msg)
    (h : Msg.concerns c m = true) : concerning c (m :: out) = m :: concerning c out := by
  simp [concerning, List.filter, h]

theorem concerning_cons_not (c : Nat) (m : Msg) (out : List Msg)
    (h : Msg.concerns c m = false) : concerning c (m :: out) = concerning c out := by
  simp [concerning, List.filter, h]

theorem chanFrames_register (c : Nat) (src : Value) (reg : outChanReg)
    (rest : List MuxEvent) :
    chanFrames c src (MuxEvent.register reg :: rest) = chanFrames c src rest := by
  simp [chanFrames, valuesFrom, closedIn]

theorem chanFrames_value_self (c : Nat) (src v : Value) (rest : List MuxEvent) :
    chanFrames c src (MuxEvent.value src c v :: rest) =
      chanValMsg c v :: chanFrames c src rest := by
  simp [chanFrames, valuesFrom, closedIn]

theorem chanFrames_value_other (c c1 : Nat) (src src1 v : Value) (rest : List MuxEvent)
    (hne : c ≠ c1) :
    chanFrames c1 src1 (MuxEvent.value src c v :: rest) = chanFrames c1 src1 rest := by
  simp [chanFrames, valuesFrom, closedIn, hne]

theorem chanFrames_closed_other (c c1 : Nat) (src src1 : Value) (rest : List MuxEvent)
    (hne : c ≠ c1) :
    chanFrames c1 src1 (MuxEvent.closed src c :: rest) = chanFrames c1 src1 rest := by
  have : ¬ c1 = c := fun h => hne h.symm
  simp [chanFrames, valuesFrom, closedIn, this]

theorem chanFrames_closed_self (c : Nat) (src : Value) (rest : List MuxEvent)
    (hvals : valuesFrom src c rest = []) :
    chanFrames c src (MuxEvent.closed src c :: rest) = [chanCloseMsg c] := by
  simp [chanFrames, valuesFrom, closedIn, hvals]

/-- A shorter list of keys, up to order, keeps a list of distinct keys distinct. -/
theorem nodup_append_of_perm_sublist {α : Type} (l1 l2 l3 x : List α) (hp : l1.Perm l2)
    (hs : l2.Sublist l3) (hnd : (l3 ++ x).Nodup) : (l1 ++ x).Nodup :=
  ((hp.append_right x).nodup_iff).mpr (List.Nodup.sublist (hs.append_right x) hnd)

/-! ## One event of a run -/

theorem muxRun_cons (s s' : OutChans) (e : MuxEvent) (rest : List MuxEvent)
    (out : List Msg) (sel : Selected) (s1 : OutChans) (o1 : List Msg)
    (hsel : selectOf s e = some sel)
    (hstep : handleOutChansStep s sel = StepResult.continue_ s1 o1)
    (hrun : muxRun s (e :: rest) = some (s', out)) :
    ∃ out', muxRun s1 rest = some (s', out') ∧ out = o1 ++ out' := by
  unfold muxRun at hrun
  simp only [hsel, hstep] at hrun
  cases h : muxRun s1 rest with
  | none => simp [h] at hrun
  | some r =>
    obtain ⟨s2, o2⟩ := r
    simp only [h, Option.some.injEq, Prod.mk.injEq] at hrun
    exact ⟨o2, by rw [hrun.1], hrun.2.symm⟩

theorem muxRun_source_known (s s' : OutChans) (e : MuxEvent) (rest : List MuxEvent)
    (out : List Msg) (src : Value) (c : Nat)
    (he : (∃ v, e = MuxEvent.value src c v) ∨ e = MuxEvent.closed src c)
    (hrun : muxRun s (e :: rest) = some (s', out)) :
    (src, c) ∈ s.pairs := by
  by_contra hmem
  have hnone := slotOf_none s src c hmem
  unfold muxRun at hrun
  rcases he with ⟨v, rfl⟩ | rfl <;> simp [selectOf, hnone] at hrun

theorem pairs_snd_inj (l : List (Value × Nat)) (hnd : (l.map Prod.snd).Nodup)
    (p q : Value × Nat) (hp : p ∈ l) (hq : q ∈ l) (h : p.2 = q.2) : p = q :=
  List.inj_on_of_nodup_map hnd hp hq h

theorem closedIn_cons_other (src : Value) (c : Nat) (e : MuxEvent) (rest : List MuxEvent)
    (hne : e ≠ MuxEvent.closed src c) :
    closedIn src c (e :: rest) = closedIn src c rest := by
  have : ¬ MuxEvent.closed src c = e := fun h => hne h.symm
  simp [closedIn, this]

theorem muxFacts_register (regV exitV : Value) (s s1 s' : OutChans) (reg0 : outChanReg)
    (rest : List MuxEvent) (out' : List Msg)
    (hI : (s.pairs.map Prod.snd ++
      (registrations (MuxEvent.register reg0 :: rest)).map (fun r => r.chID)).Nodup)
    (hp : s1.pairs = s.pairs ++ [(reg0.ch, reg0.chID)])
    (ih : MuxFacts regV exitV s1 rest s' out') :
    MuxFacts regV exitV s (MuxEvent.register reg0 :: rest) s'
      (chanResponse reg0.reqID reg0.chID :: out') := by
  simp only [registrations, List.map_cons] at hI
  rw [List.nodup_append] at hI
  obtain ⟨_, hI2, hI3⟩ := hI
  have hfresh : reg0.chID ∉ (registrations rest).map (fun r => r.chID) :=
    (List.nodup_cons.mp hI2).1
  refine ⟨ih.inv, ?_, ?_, ?_, ?_, ?_⟩
  · intro p hp'
    rcases ih.origin p hp' with h | ⟨reg, hreg, rfl⟩
    · rw [hp] at h
      rcases List.mem_append.mp h with h | h
      · exact Or.inl h
      · exact Or.inr ⟨reg0, by simp [registrations], by simpa using h⟩
    · exact Or.inr ⟨reg, by simp [registrations, hreg], rfl⟩
  · intro src c hm
    have hne : reg0.chID ≠ c := fun h =>
      hI3 (List.mem_map.mpr ⟨(src, c), hm, rfl⟩) (h ▸ List.mem_cons_self _ _)
    rw [concerning_cons_not _ _ _ (by simp [concerns_response, hne]), chanFrames_register]
    exact ih.live src c (by rw [hp]; simp [hm])
  · intro reg hreg
    simp only [registrations, List.mem_cons] at hreg
    rcases hreg with rfl | hreg
    · rw [concerning_cons_of _ _ _ (by simp [concerns_response]), chanFrames_register]
      congr 1
      exact ih.live reg.ch reg.chID (by rw [hp]; simp)
    · have hne : reg0.chID ≠ reg.chID := fun h =>
        hfresh (List.mem_map.mpr ⟨reg, hreg, h.symm⟩)
      rw [concerning_cons_not _ _ _ (by simp [concerns_response, hne]),
        chanFrames_register]
      exact ih.fresh reg hreg
  · intro c h1 h2
    simp only [registrations, List.map_cons, List.mem_cons, not_or] at h2
    have hne : reg0.chID ≠ c := fun h => h2.1 h.symm
    rw [concerning_cons_not _ _ _ (by simp [concerns_response, hne])]
    refine ih.silent c ?_ h2.2
    rw [hp]
    simp only [List.map_append, List.map_cons, List.map_nil, List.mem_append,
      List.mem_singleton, not_or]
    exact ⟨h1, h2.1⟩
  · intro src c h1 h2
    simp only [registrations, List.map_cons, List.mem_cons, not_or] at h2
    have h := ih.absent src c (by
      rw [hp]
      simp only [List.map_append, List.map_cons, List.map_nil, List.mem_append,
        List.mem_singleton, not_or]
      exact ⟨h1, h2.1⟩) h2.2
    rw [closedIn_cons_other src c _ rest (by simp)]
    exact ⟨by simpa [valuesFrom] using h.1, h.2⟩

theorem muxFacts_value (regV exitV : Value) (s s' : OutChans) (src v : Value) (c : Nat)
    (rest : List MuxEvent) (out' : List Msg)
    (hI : (s.pairs.map Prod.snd ++ (registrations rest).map (fun r => r.chID)).Nodup)
    (hm : (src, c) ∈ s.pairs)
    (ih : MuxFacts regV exitV s rest s' out') :
    MuxFacts regV exitV s (MuxEvent.value src c v :: rest) s' (chanValMsg c v :: out') := by
  rw [List.nodup_append] at hI
  obtain ⟨hI1, _, hI3⟩ := hI
  have hregs : registrations (MuxEvent.value src c v :: rest) = registrations rest := rfl
  refine ⟨ih.inv, ?_, ?_, ?_, ?_, ?_⟩
  · intro p hp'
    rw [hregs]
    exact ih.origin p hp'
  · intro src1 c1 hm1
    by_cases hc : c = c1
    · subst hc
      have hs : src1 = src := congrArg Prod.fst (pairs_snd_inj s.pairs hI1 _ _ hm1 hm rfl)
      subst hs
      rw [concerning_cons_of _ _ _ (by simp [concerns_val]), chanFrames_value_self]
      congr 1
      exact ih.live src1 c hm1
    · rw [concerning_cons_not _ _ _ (by simp [concerns_val, hc]),
        chanFrames_value_other _ _ _ _ _ _ hc]
      exact ih.live src1 c1 hm1
  · intro reg hreg
    rw [hregs] at hreg
    have hne : c ≠ reg.chID := fun h =>
      hI3 (List.mem_map.mpr ⟨(src, c), hm, rfl⟩) (List.mem_map.mpr ⟨reg, hreg, h.symm⟩)
    rw [concerning_cons_not _ _ _ (by simp [concerns_val, hne]),
      chanFrames_value_other _ _ _ _ _ _ hne]
    exact ih.fresh reg hreg
  · intro c1 h1 h2
    have hne : c ≠ c1 := fun h => h1 (List.mem_map.mpr ⟨(src, c), hm, h⟩)
    rw [concerning_cons_not _ _ _ (by simp [concerns_val, hne])]
    exact ih.silent c1 h1 h2
  · intro src1 c1 h1 h2
    have hne : c ≠ c1 := fun h => h1 (List.mem_map.mpr ⟨(src, c), hm, h⟩)
    have h := ih.absent src1 c1 h1 h2
    rw [closedIn_cons_other src1 c1 _ rest (by simp)]
    exact ⟨by simpa [valuesFrom, hne] using h.1, h.2⟩

theorem muxFacts_closed (regV exitV : Value) (s s1 s' : OutChans) (src : Value) (c : Nat)
    (rest : List MuxEvent) (out' : List Msg)
    (hI : (s.pairs.map Prod.snd ++ (registrations rest).map (fun r => r.chID)).Nodup)
    (hm : (src, c) ∈ s.pairs)
    (hperm : s1.pairs.Perm (s.pairs.erase (src, c)))
    (ih : MuxFacts regV exitV s1 rest s' out') :
    MuxFacts regV exitV s (MuxEvent.closed src c :: rest) s' (chanCloseMsg c :: out') := by
  rw [List.nodup_append] at hI
  obtain ⟨hI1, _, hI3⟩ := hI
  have hregs : registrations (MuxEvent.closed src c :: rest) = registrations rest := rfl
  have hnd : s.pairs.Nodup := List.Nodup.of_map Prod.snd hI1
  have hmem1 : ∀ p, p ∈ s1.pairs ↔ p ≠ (src, c) ∧ p ∈ s.pairs := fun p =>
    (hperm.mem_iff).trans (hnd.mem_erase_iff)
  have hc1 : c ∉ s1.pairs.map Prod.snd := by
    intro h
    obtain ⟨p, hp1, hp2⟩ := List.mem_map.mp h
    have hp := (hmem1 p).mp hp1
    exact hp.1 (pairs_snd_inj s.pairs hI1 _ _ hp.2 hm hp2)
  have hcreg : c ∉ (registrations rest).map (fun r => r.chID) := fun h =>
    hI3 (List.mem_map.mpr ⟨(src, c), hm, rfl⟩) h
  refine ⟨ih.inv, ?_, ?_, ?_, ?_, ?_⟩
  · intro p hp'
    rw [hregs]
    rcases ih.origin p hp' with h | h
    · exact Or.inl ((hmem1 p).mp h).2
    · exact Or.inr h
  · intro src2 c2 hm2
    by_cases hc : c = c2
    · subst hc
      have hs : src2 = src := congrArg Prod.fst (pairs_snd_inj s.pairs hI1 _ _ hm2 hm rfl)
      subst hs
      rw [concerning_cons_of _ _ _ (by simp [concerns_close]),
        chanFrames_closed_self _ _ _ (ih.absent src2 c hc1 hcreg).1,
        ih.silent c hc1 hcreg]
    · rw [concerning_cons_not _ _ _ (by simp [concerns_close, hc]),
        chanFrames_closed_other _ _ _ _ _ hc]
      refine ih.live src2 c2 ((hmem1 _).mpr ⟨?_, hm2⟩)
      intro h
      exact hc (congrArg Prod.snd h).symm
  · intro reg hreg
    rw [hregs] at hreg
    have hne : c ≠ reg.chID := fun h => hcreg (List.mem_map.mpr ⟨reg, hreg, h.symm⟩)
    rw [concerning_cons_not _ _ _ (by simp [concerns_close, hne]),
      chanFrames_closed_other _ _ _ _ _ hne]
    exact ih.fresh reg hreg
  · intro c2 h1 h2
    have hne : c ≠ c2 := fun h => h1 (List.mem_map.mpr ⟨(src, c), hm, h⟩)
    rw [concerning_cons_not _ _ _ (by simp [concerns_close, hne])]
    refine ih.silent c2 ?_ h2
    intro h
    obtain ⟨p, hp1, hp2⟩ := List.mem_map.mp h
    exact h1 (List.mem_map.mpr ⟨p, ((hmem1 p).mp hp1).2, hp2⟩)
  · intro src2 c2 h1 h2
    have hne : c ≠ c2 := fun h => h1 (List.mem_map.mpr ⟨(src, c), hm, h⟩)
    have h := ih.absent src2 c2 (by
      intro h
      obtain ⟨p, hp1, hp2⟩ := List.mem_map.mp h
      exact h1 (List.mem_map.mpr ⟨p, ((hmem1 p).mp hp1).2, hp2⟩)) h2
    rw [closedIn_cons_other src2 c2 _ rest (by
      intro h
      cases h
      exact hne rfl)]
    exact ⟨by simpa [valuesFrom] using h.1, h.2⟩

/-! ## Whole runs of the multiplexer -/

theorem muxRun_facts (regV exitV : Value) :
    ∀ (es : List MuxEvent) (s s' : OutChans) (out : List Msg),
      s.Inv regV exitV →
      (s.pairs.map Prod.snd ++ (registrations es).map (fun r => r.chID)).Nodup →
      muxRun s es = some (s', out) → MuxFacts regV exitV s es s' out := by
  intro es
  induction es with
  | nil =>
    intro s s' out hinv _ hrun
    simp only [muxRun, Option.some.injEq, Prod.mk.injEq] at hrun
    obtain ⟨rfl, rfl⟩ := hrun
    exact ⟨hinv, fun p hp => Or.inl hp, fun _ _ _ => by simp [concerning, chanFrames,
      valuesFrom, closedIn], fun reg hreg => by simp [registrations] at hreg,
      fun _ _ _ => rfl, fun _ _ _ _ => ⟨rfl, by simp [closedIn]⟩⟩
  | cons e rest ih =>
    intro s s' out hinv hI hrun
    cases e with
    | register reg0 =>
      obtain ⟨s1, hstep, hinv1, hp⟩ := registration_step regV exitV s hinv reg0
      obtain ⟨out', hrest, rfl⟩ := muxRun_cons s s' (MuxEvent.register reg0) rest out
        (Selected.registration reg0) s1 _ rfl hstep hrun
      have hI1 : (s1.pairs.map Prod.snd ++
          (registrations rest).map (fun r => r.chID)).Nodup := by
        simpa [hp, registrations] using hI
      exact muxFacts_register regV exitV s s1 s' reg0 rest out' hI hp
        (ih s1 s' out' hinv1 hI1 hrest)
    | value src c v =>
      have hmem := muxRun_source_known s s' _ rest out src c (Or.inl ⟨v, rfl⟩) hrun
      obtain ⟨sel, hsel, hstep⟩ := mux_value regV exitV s hinv src v c hmem
      obtain ⟨out', hrest, rfl⟩ := muxRun_cons s s' _ rest out sel s _ hsel hstep hrun
      exact muxFacts_value regV exitV s s' src v c rest out' hI hmem
        (ih s s' out' hinv hI hrest)
    | closed src c =>
      have hmem := muxRun_source_known s s' _ rest out src c (Or.inr rfl) hrun
      have hnd : s.pairs.Nodup := List.Nodup.of_map Prod.snd (List.nodup_append.mp hI).1
      obtain ⟨sel, s1, hsel, hstep, hinv1, hperm⟩ :=
        mux_close regV exitV s hinv src c hmem hnd
      obtain ⟨out', hrest, rfl⟩ := muxRun_cons s s' _ rest out sel s1 _ hsel hstep hrun
      have hI1 := nodup_append_of_perm_sublist _ _ _ _ (hperm.map Prod.snd)
        ((List.erase_sublist (src, c) s.pairs).map Prod.snd) hI
      exact muxFacts_closed regV exitV s s1 s' src c rest out' hI hmem hperm
        (ih s1 s' out' hinv1 hI1 hrest)

theorem muxRun_feasible (regV exitV : Value) :
    ∀ (es : List MuxEvent) (s : OutChans) (live : List (Value × Nat)),
      s.Inv regV exitV →
      (∀ p, p ∈ live ↔ p ∈ s.pairs) →
      (s.pairs.map Prod.snd ++ (registrations es).map (fun r => r.chID)).Nodup →
      feasible live es = true → ∃ s' out, muxRun s es = some (s', out) := by
  intro es
  induction es with
  | nil =>
    intro s live _ _ _ _
    exact ⟨s, [], rfl⟩
  | cons e rest ih =>
    intro s live hinv hlive hI hfe
    cases e with
    | register reg0 =>
      obtain ⟨s1, hstep, hinv1, hp⟩ := registration_step regV exitV s hinv reg0
      have hI1 : (s1.pairs.map Prod.snd ++
          (registrations rest).map (fun r => r.chID)).Nodup := by
        simpa [hp, registrations] using hI
      have hlive1 : ∀ p, p ∈ live ++ [(reg0.ch, reg0.chID)] ↔ p ∈ s1.pairs := by
        intro p
        rw [hp]
        simp only [List.mem_append, hlive p]
      obtain ⟨s', out', hrest⟩ := ih s1 (live ++ [(reg0.ch, reg0.chID)]) hinv1 hlive1 hI1
        (by simpa [feasible] using hfe)
      refine ⟨s', [chanResponse reg0.reqID reg0.chID] ++ out', ?_⟩
      unfold muxRun
      simp only [selectOf, hstep, hrest]
    | value src c v =>
      simp only [feasible, Bool.and_eq_true, decide_eq_true_eq] at hfe
      obtain ⟨sel, hsel, hstep⟩ :=
        mux_value regV exitV s hinv src v c ((hlive (src, c)).mp hfe.1)
      obtain ⟨s', out', hrest⟩ := ih s live hinv hlive hI hfe.2
      refine ⟨s', [chanValMsg c v] ++ out', ?_⟩
      unfold muxRun
      simp only [hsel, hstep, hrest]
    | closed src c =>
      simp only [feasible, Bool.and_eq_true, decide_eq_true_eq] at hfe
      have hnd : s.pairs.Nodup := List.Nodup.of_map Prod.snd (List.nodup_append.mp hI).1
      obtain ⟨sel, s1, hsel, hstep, hinv1, hperm⟩ :=
        mux_close regV exitV s hinv src c ((hlive (src, c)).mp hfe.1) hnd
      have hI1 := nodup_append_of_perm_sublist _ _ _ _ (hperm.map Prod.snd)
        ((List.erase_sublist (src, c) s.pairs).map Prod.snd) hI
      have hmem1 : ∀ p, p ∈ s1.pairs ↔ p ≠ (src, c) ∧ p ∈ s.pairs := fun p =>
        (hperm.mem_iff).trans (hnd.mem_erase_iff)
      have hlive1 : ∀ p, p ∈ live.filter (fun y => y != (src, c)) ↔ p ∈ s1.pairs := by
        intro p
        simp only [List.mem_filter, bne_iff_ne, ne_eq, hlive p, hmem1 p]
        exact ⟨fun h => ⟨h.2, h.1⟩, fun h => ⟨h.2, h.1⟩⟩
      obtain ⟨s', out', hrest⟩ := ih s1 _ hinv1 hlive1 hI1 hfe.2
      refine ⟨s', [chanCloseMsg c] ++ out', ?_⟩
      unfold muxRun
      simp only [hsel, hstep, hrest]

/-! ## The selector invariant -/

/-- C13: the loop of `handleOutChans` starts in a state that satisfies the invariant
(`len(cases) = len(caseToID) + 2`, slots 0 and 1 are the registration and exit
channels) and holds no pair. In a state that satisfies the invariant every source slot
`i + 2` is paired with `caseToID[i]`, and every step stays in the loop and keeps the
invariant, unless the registration or the exit channel is closed, on which the loop
returns. A registration enqueues the response and appends exactly the registered
(source, chanId) pair. A value at the source slot `k` is forwarded under the chanId
paired with that slot and leaves the state unchanged. A source closed at slot `k`
enqueues the close for the chanId paired with that slot and removes exactly that pair,
by moving the last pair into its place and dropping the last position, which leaves the
other pairs as they were. A message on the exit channel leaves the state unchanged. -/
theorem handleOutChans_selector_invariant (regV exitV : Value) (s : OutChans)
    (hinv : s.Inv regV exitV) :
    (initOutChans regV exitV).Inv regV exitV ∧ (initOutChans regV exitV).pairs = [] ∧
    s.pairs.length = s.caseToID.length ∧ s.pairs.length + 2 = s.cases.length ∧
    (∀ reg : outChanReg, ∃ s',
      handleOutChansStep s (Selected.registration reg) =
        StepResult.continue_ s' [chanResponse reg.reqID reg.chID] ∧
      s'.Inv regV exitV ∧ s'.pairs = s.pairs ++ [(reg.ch, reg.chID)]) ∧
    (∀ (k : Nat) (v : Value), 2 ≤ k → k < s.cases.length →
      ∃ src id, s.pairs[k - 2]? = some (src, id) ∧ s.cases[k]? = some src ∧
        handleOutChansStep s (Selected.source k v true) =
          StepResult.continue_ s [chanValMsg id v]) ∧
    (∀ (k : Nat) (v : Value), 2 ≤ k → k < s.cases.length →
      ∃ src id last s', s.pairs[k - 2]? = some (src, id) ∧ s.cases[k]? = some src ∧
        s.pairs.getLast? = some last ∧
        handleOutChansStep s (Selected.source k v false) =
          StepResult.continue_ s' [chanCloseMsg id] ∧
        s'.Inv regV exitV ∧
        s'.pairs = (s.pairs.set (k - 2) last).take (s.pairs.length - 1) ∧
        s'.pairs.Perm (s.pairs.eraseIdx (k - 2))) ∧
    handleOutChansStep s (Selected.exiting true) = StepResult.continue_ s [] ∧
    handleOutChansStep s (Selected.exiting false) = StepResult.return_ ∧
    handleOutChansStep s Selected.registrationClosed = StepResult.return_ := by
  have hlen := pairs_length s regV exitV hinv
  refine ⟨(initOutChans_inv regV exitV).1, (initOutChans_inv regV exitV).2, hlen, ?_,
    fun reg => registration_step regV exitV s hinv reg,
    fun k v h2 hk => value_step regV exitV s hinv k v h2 hk,
    fun k v h2 hk => close_step regV exitV s hinv k v h2 hk, rfl, rfl, rfl⟩
  rw [hlen, hinv.len]

/-- C13, an instance: in the sample selector state, with the sources 7 and 8 under the
chanIds 1 and 2, a registration of source 9 under chanId 3 appends that pair, a value at
slot 3 is forwarded under chanId 2, and the close of slot 2 removes the pair of chanId 1
and moves the pair of slot 3 into its place. -/
theorem handleOutChans_selector_invariant_witness :
    sampleOutChans.Inv (Value.obj "reg") (Value.obj "exit") ∧
    (∃ s', handleOutChansStep sampleOutChans
        (Selected.registration { reqID := 4, chID := 3, ch := Value.chan 9 }) =
        StepResult.continue_ s' [chanResponse 4 3] ∧
      s'.pairs = [(Value.chan 7, 1), (Value.chan 8, 2), (Value.chan 9, 3)]) ∧
    handleOutChansStep sampleOutChans (Selected.source 3 (Value.obj "x") true) =
      StepResult.continue_ sampleOutChans [chanValMsg 2 (Value.obj "x")] ∧
    (∃ s', handleOutChansStep sampleOutChans (Selected.source 2 Value.nil false) =
        StepResult.continue_ s' [chanCloseMsg 1] ∧
      s'.pairs = [(Value.chan 8, 2)]) := by
  have hinv : sampleOutChans.Inv (Value.obj "reg") (Value.obj "exit") := ⟨rfl, rfl, rfl⟩
  obtain ⟨_, _, _, _, hreg, hval, hclose, _⟩ :=
    handleOutChans_selector_invariant (Value.obj "reg") (Value.obj "exit") sampleOutChans hinv
  refine ⟨hinv, ?_, ?_, ?_⟩
  · obtain ⟨s', hstep, _, hp⟩ := hreg { reqID := 4, chID := 3, ch := Value.chan 9 }
    exact ⟨s', hstep, by rw [hp]; rfl⟩
  · obtain ⟨src, id, hp, _, hstep⟩ := hval 3 (Value.obj "x") (by decide) (by decide)
    have hid : id = 2 := by
      have h : sampleOutChans.pairs[3 - 2]? = some (Value.chan 8, 2) := rfl
      rw [h] at hp
      cases hp
      rfl
    rw [hstep, hid]
  · obtain ⟨src, id, last, s', hp, _, hlast, hstep, _, hset, _⟩ :=
      hclose 2 Value.nil (by decide) (by decide)
    have hid : id = 1 := by
      have h : sampleOutChans.pairs[2 - 2]? = some (Value.chan 7, 1) := rfl
      rw [h] at hp
      cases hp
      rfl
    have hl : last = (Value.chan 8, 2) := by
      have h : sampleOutChans.pairs.getLast? = some (Value.chan 8, 2) := rfl
      rw [h] at hlast
      cases hlast
      rfl
    refine ⟨s', by rw [hstep, hid], ?_⟩
    rw [hset, hl]
    rfl

/-! ## The frames of a stream, in order -/

/-- C14, as the code has it: for every sequence of multiplexer events that can happen
(a value or a close is reported at the case of a stream that is registered and open),
with pairwise distinct chanIds among the registrations, the loop of `handleOutChans`
runs through the sequence without a panic, and for every registration with request id
`r`, chanId `c` and source `src` the frames enqueued concerning `c` are, in order: the
one response carrying `r` and `c`, then one `xrpc.ch.val [c, v]` per value `v` received
from `src` at the case of `c`, in the order received, and then one `xrpc.ch.close [c]`
as the last frame if that case is reported closed within the sequence, and no close
frame otherwise. The sources need not be distinct. -/
theorem handleOutChans_stream_frames (regV exitV : Value) (es : List MuxEvent)
    (hid : ((registrations es).map (fun r => r.chID)).Nodup)
    (hfe : feasible [] es = true) :
    ∃ s out, muxRun (initOutChans regV exitV) es = some (s, out) ∧
      ∀ reg ∈ registrations es,
        concerning reg.chID out =
          chanResponse reg.reqID reg.chID ::
            ((valuesFrom reg.ch reg.chID es).map (chanValMsg reg.chID) ++
              (if closedIn reg.ch reg.chID es = true then [chanCloseMsg reg.chID]
               else [])) := by
  have hinv := (initOutChans_inv regV exitV).1
  have hp := (initOutChans_inv regV exitV).2
  have hI : ((initOutChans regV exitV).pairs.map Prod.snd ++
      (registrations es).map (fun r => r.chID)).Nodup := by
    rw [hp]
    simpa using hid
  obtain ⟨s, out, hrun⟩ := muxRun_feasible regV exitV es (initOutChans regV exitV) []
    hinv (by intro x; rw [hp]) hI hfe
  exact ⟨s, out, hrun, (muxRun_facts regV exitV es _ s out hinv hI hrun).fresh⟩

/-- C14, an instance: the calls 4 and 5 register the same source 7 under the chanIds 1
and 2; the case of chanId 2 receives "y", the case of chanId 1 receives "x" and is
reported closed. The frames for chanId 1 are its response, "x" and the close; the frames
for chanId 2 are its response and "y". -/
theorem handleOutChans_stream_frames_witness :
    ((registrations sampleMuxEvents).map (fun r => r.chID)).Nodup ∧
    feasible [] sampleMuxEvents = true ∧
    ∃ s out,
      muxRun (initOutChans (Value.obj "reg") (Value.obj "exit")) sampleMuxEvents
        = some (s, out) ∧
      concerning 1 out =
        [chanResponse 4 1, chanValMsg 1 (Value.obj "\"x\""), chanCloseMsg 1] ∧
      concerning 2 out = [chanResponse 5 2, chanValMsg 2 (Value.obj "\"y\"")] := by
  refine ⟨by decide, by decide, ?_⟩
  obtain ⟨s, out, hrun, h⟩ := handleOutChans_stream_frames (Value.obj "reg")
    (Value.obj "exit") sampleMuxEvents (by decide) (by decide)
  refine ⟨s, out, hrun, ?_, ?_⟩
  · have h1 := h { reqID := 4, chID := 1, ch := Value.chan 7 } (by decide)
    rw [h1]
    decide
  · have h2 := h { reqID := 5, chID := 2, ch := Value.chan 7 } (by decide)
    rw [h2]
    decide

/-- C14, where the claim fails: call 4 registers source 7 under chanId 1, the source
delivers "x", and then the exit channel is closed, on which the loop returns. The frames
for chanId 1 are the response and the value; no `xrpc.ch.close` is enqueued for it. -/
theorem handleOutChans_stream_without_close :
    feasible []
      [MuxEvent.register { reqID := 4, chID := 1, ch := Value.chan 7 },
       MuxEvent.value (Value.chan 7) 1 (Value.obj "\"x\"")] = true ∧
    muxRun (initOutChans (Value.obj "reg") (Value.obj "exit"))
      [MuxEvent.register { reqID := 4, chID := 1, ch := Value.chan 7 },
       MuxEvent.value (Value.chan 7) 1 (Value.obj "\"x\"")] =
      some ({ cases := [Value.obj "reg", Value.obj "exit", Value.chan 7], caseToID := [1] },
            [chanResponse 4 1, chanValMsg 1 (Value.obj "\"x\"")]) ∧
    handleOutChansStep
      { cases := [Value.obj "reg", Value.obj "exit", Value.chan 7], caseToID := [1] }
      (Selected.exiting false) = StepResult.return_ ∧
    concerning 1 [chanResponse 4 1, chanValMsg 1 (Value.obj "\"x\"")] =
      [chanResponse 4 1, chanValMsg 1 (Value.obj "\"x\"")] ∧
    chanCloseMsg 1 ∉ [chanResponse 4 1, chanValMsg 1 (Value.obj "\"x\"")] := by
  decide

/-! ## Replies through the wire -/

theorem unmarshalError_marshalError (e z : respError) :
    unmarshalError [("code", JLeaf.num e.Code), ("message", JLeaf.str e.Message)] z
      = some e := by
  simp [unmarshalError, storeError, JLeaf.asInt, JLeaf.asStr]

/-- The frame that a marshalled reply decodes to. -/
theorem unmarshalFrame_marshalResponse (enc : Value → Option String) (r : response)
    (members : List (String × JVal)) (hm : marshalResponse enc r = some members) :
    ∃ raw, unmarshalFrame members {} =
        some { Jsonrpc := r.Jsonrpc, ID := some r.ID, Result := raw, Error := r.Error } ∧
      (r.Result = Value.nil → raw = "") ∧
      (r.Result ≠ Value.nil → enc r.Result = some raw) := by
  obtain ⟨jr, res, id, err⟩ := r
  have hnil : ∀ e : Option respError,
      unmarshalFrame
        (("jsonrpc", JVal.leaf (JLeaf.str jr)) :: ("id", JVal.leaf (JLeaf.num id)) ::
          (match e with
           | none => []
           | some e => [("error", marshalError e)])) {} =
        some { Jsonrpc := jr, ID := some id, Result := "", Error := e } := by
    intro e
    cases e <;>
      simp [unmarshalFrame, storeFrame, JVal.asStr, JLeaf.asStr, JVal.asID, JVal.asError,
        marshalError, unmarshalError_marshalError]
  have hres : ∀ (t : String) (e : Option respError),
      unmarshalFrame
        (("jsonrpc", JVal.leaf (JLeaf.str jr)) :: ("result", JVal.raw t) ::
          ("id", JVal.leaf (JLeaf.num id)) ::
          (match e with
           | none => []
           | some e => [("error", marshalError e)])) {} =
        some { Jsonrpc := jr, ID := some id, Result := t, Error := e } := by
    intro t e
    cases e <;>
      simp [unmarshalFrame, storeFrame, JVal.asStr, JLeaf.asStr, JVal.asID, JVal.asError,
        JVal.asRaw, marshalError, unmarshalError_marshalError]
  cases res with
  | nil =>
    simp only [marshalResponse, Option.some.injEq] at hm
    subst hm
    exact ⟨"", hnil err, fun _ => rfl, fun h => absurd rfl h⟩
  | err m =>
    simp only [marshalResponse] at hm
    cases ht : enc (Value.err m) with
    | none => simp [ht] at hm
    | some t =>
      simp only [ht, Option.some.injEq] at hm
      subst hm
      exact ⟨t, hres t err, fun h => (by cases h), fun _ => rfl⟩
  | chan n =>
    simp only [marshalResponse] at hm
    cases ht : enc (Value.chan n) with
    | none => simp [ht] at hm
    | some t =>
      simp only [ht, Option.some.injEq] at hm
      subst hm
      exact ⟨t, hres t err, fun h => (by cases h), fun _ => rfl⟩
  | u64 n =>
    simp only [marshalResponse] at hm
    cases ht : enc (Value.u64 n) with
    | none => simp [ht] at hm
    | some t =>
      simp only [ht, Option.some.injEq] at hm
      subst hm
      exact ⟨t, hres t err, fun h => (by cases h), fun _ => rfl⟩
  | obj tag =>
    simp only [marshalResponse] at hm
    cases ht : enc (Value.obj tag) with
    | none => simp [ht] at hm
    | some t =>
      simp only [ht, Option.some.injEq] at hm
      subst hm
      exact ⟨t, hres t err, fun h => (by cases h), fun _ => rfl⟩
  | unsupported tag =>
    simp only [marshalResponse] at hm
    cases ht : enc (Value.unsupported tag) with
    | none => simp [ht] at hm
    | some t =>
      simp only [ht, Option.some.injEq] at hm
      subst hm
      exact ⟨t, hres t err, fun h => (by cases h), fun _ => rfl⟩

/-- C19, as the code has it: for every reply that `json.Marshal` can encode, decoding the
encoded members as a frame succeeds and yields a frame with empty method and no params
whose id, version text and error (code and message) are the reply's and whose result is
the encoded text of the reply's result (absent when the reply has none). When the
connection has an in-flight entry for the id and, for an entry with a stream-opener and
a present result, the result parses as a chanId, `handleResponse` delivers to the entry's
reply slot exactly one `clientResponse` with that id, result and error, and removes the
entry. On every connection without an in-flight entry for the id, `handleResponse`
returns with the connection unchanged and nothing delivered. -/
theorem reply_round_trip (enc : Value → Option String) (unmarshal : Unmarshal Nat)
    (c : wsConn) (r : response) (members : List (String × JVal))
    (hm : marshalResponse enc r = some members) :
    ∃ f, unmarshalFrame members {} = some f ∧
      f.Method = "" ∧ f.Params = [] ∧ f.ID = some r.ID ∧ f.Jsonrpc = r.Jsonrpc ∧
      f.Error = r.Error ∧
      (r.Result = Value.nil → f.Result = "") ∧
      (r.Result ≠ Value.nil → enc r.Result = some f.Result) ∧
      (c.inflight.lookup r.ID = none → handleResponse unmarshal c f = some (c, [])) ∧
      ∀ req, c.inflight.lookup r.ID = some req →
        (∀ opener, req.retCh = some opener → f.Result ≠ "" →
          ∃ chid, unmarshal f.Result = some chid) →
        ∃ c' evs, handleResponse unmarshal c f = some (c', evs) ∧
          deliveredTo req.ready evs =
            [{ Jsonrpc := r.Jsonrpc, Result := f.Result, ID := r.ID, Error := r.Error }] ∧
          c'.inflight.lookup r.ID = none := by
  obtain ⟨raw, hf, hnil, hres⟩ := unmarshalFrame_marshalResponse enc r members hm
  refine ⟨_, hf, rfl, rfl, rfl, rfl, rfl, hnil, hres, ?_, ?_⟩
  · intro hnone
    simp [handleResponse, hnone]
  intro req hin hparse
  obtain ⟨c', evs, hrun, hdel, _, _, hgone, _⟩ :=
    handleResponse_delivers unmarshal c
      { Jsonrpc := r.Jsonrpc, ID := some r.ID, Result := raw, Error := r.Error }
      r.ID req rfl hin hparse
  exact ⟨c', evs, hrun, hdel, hgone⟩

/-- C19, an instance: the reply "ok" to the ordinary call 8 of the sample client
connection decodes to a frame with id 8, and `handleResponse` delivers it to the reply
slot 80. -/
theorem reply_round_trip_witness :
    marshalResponse sampleMarshal sampleReply = some sampleReplyMembers ∧
    ∃ f, unmarshalFrame sampleReplyMembers {} = some f ∧ f.ID = some 8 ∧
      f.Result = "\"ok\"" ∧
      ∃ c' evs, handleResponse sampleUnmarshalNat clientConn f = some (c', evs) ∧
        deliveredTo 80 evs = [{ Jsonrpc := "2.0", Result := "\"ok\"", ID := 8 }] := by
  refine ⟨rfl, ?_⟩
  obtain ⟨f, hf, _, _, hid, _, _, _, hres, _, hdel⟩ :=
    reply_round_trip sampleMarshal sampleUnmarshalNat clientConn sampleReply
      sampleReplyMembers rfl
  have hr : f.Result = "\"ok\"" := by
    have h := hres (by decide)
    simp only [sampleReply, sampleMarshal, Option.some.injEq] at h
    exact h.symm
  obtain ⟨c', evs, hrun, hd, _⟩ := hdel
    { req := { Jsonrpc := "2.0", ID := some 8, Method := "Svc.Echo" }, ready := 80 }
    (by decide) (by intro opener h; cases h)
  refine ⟨f, hf, hid, hr, c', evs, hrun, ?_⟩
  rw [hd, hr]
  rfl

/-- C19, where the claim fails: a reply with id 99, for which the sample client
connection has no call in flight, decodes to a frame with id 99, and `handleResponse`
delivers nothing for it. -/
theorem reply_unknown_id_not_delivered :
    marshalResponse sampleMarshal { Jsonrpc := "2.0", Result := Value.obj "\"ok\"", ID := 99 }
      = some [("jsonrpc", JVal.leaf (JLeaf.str "2.0")), ("result", JVal.raw "\"ok\""),
              ("id", JVal.leaf (JLeaf.num 99))] ∧
    unmarshalFrame
      [("jsonrpc", JVal.leaf (JLeaf.str "2.0")), ("result", JVal.raw "\"ok\""),
       ("id", JVal.leaf (JLeaf.num 99))] {}
      = some { Jsonrpc := "2.0", ID := some 99, Result := "\"ok\"" } ∧
    handleResponse sampleUnmarshalNat clientConn
      { Jsonrpc := "2.0", ID := some 99, Result := "\"ok\"" } = some (clientConn, []) := by
  decide

/-! ## Inbound frames that make the engine fault -/

theorem handleResponse_none_iff (unmarshal : Unmarshal Nat) (c : wsConn) (f : frame) :
    handleResponse unmarshal c f = none ↔ f.ID = none := by
  unfold handleResponse
  cases hid : f.ID with
  | none => simp
  | some id =>
    simp only [false_iff, reduceCtorEq]
    cases c.inflight.lookup id with
    | none => simp
    | some req =>
      simp only
      split
      · split <;> simp
      · simp

theorem cancelCtx_none_iff (unmarshal : Unmarshal Int) (c : wsConn) (f : frame) :
    cancelCtx unmarshal c f = none ↔ f.Params = [] := by
  unfold cancelCtx
  cases hp : f.Params with
  | nil => simp
  | cons p ps =>
    simp only [List.getElem?_cons_zero, false_iff, reduceCtorEq]
    cases hu : unmarshal p.data with
    | none => simp
    | some id => cases hl : c.handling.lookup id <;> simp [hl]

theorem handleChanClose_none_iff (unmarshal : Unmarshal Nat) (c : wsConn) (f : frame) :
    handleChanClose unmarshal c f = none ↔ f.Params = [] := by
  unfold handleChanClose
  cases hp : f.Params with
  | nil => simp
  | cons p ps =>
    simp only [List.getElem?_cons_zero, false_iff, reduceCtorEq]
    cases hu : unmarshal p.data with
    | none => simp
    | some chid => cases hl : c.chanHandlers.lookup chid <;> simp [hl]

theorem handleChanMessage_none_iff (unmarshal : Unmarshal Nat) (c : wsConn) (f : frame) :
    handleChanMessage unmarshal c f = none ↔
      f.Params = [] ∨
      ∃ p chid hnd, f.Params = [p] ∧ unmarshal p.data = some chid ∧
        c.chanHandlers.lookup chid = some hnd := by
  unfold handleChanMessage
  cases hp : f.Params with
  | nil => simp
  | cons p ps =>
    simp only [List.getElem?_cons_zero, reduceCtorEq, false_or, List.cons.injEq]
    cases hu : unmarshal p.data with
    | none =>
      simp only [reduceCtorEq, false_iff, not_exists, not_and]
      intro p' chid' hnd' hpp hu'
      obtain ⟨rfl, _⟩ := hpp
      rw [hu] at hu'
      cases hu'
    | some chid =>
      cases hl : c.chanHandlers.lookup chid with
      | none =>
        simp only [hl, reduceCtorEq, false_iff, not_exists, not_and]
        intro p' chid' hnd' hpp hu'
        obtain ⟨rfl, _⟩ := hpp
        rw [hu] at hu'
        cases hu'
        simp [hl]
      | some hnd =>
        simp only [hl]
        cases ps with
        | nil =>
          simp only [List.getElem?_cons_succ, List.getElem?_nil, true_iff]
          exact ⟨p, chid, hnd, ⟨rfl, trivial⟩, hu, hl⟩
        | cons q qs => simp

/-- The frames on which `handleFrame` faults: a response without id, a cancel or a
channel close without params, and a channel value without params or with one param only
that names a registered handler. On every other frame `handleFrame` returns. -/
theorem handleFrame_fault_iff (unmarshalNat : Unmarshal Nat) (unmarshalInt : Unmarshal Int)
    (decode : Decoder) (handler : Option handlers) (ctx : Value) (now : String)
    (cancel : Nat) (chOut : chanOut) (enqueue : WriteFn) (c : wsConn) (f : frame) :
    handleFrame unmarshalNat unmarshalInt decode handler ctx now cancel chOut enqueue c f
        = none ↔
      (f.Method = "" ∧ f.ID = none) ∨
      (f.Method = wsCancel ∧ f.Params = []) ∨
      (f.Method = chClose ∧ f.Params = []) ∨
      (f.Method = chValue ∧
        (f.Params = [] ∨
         ∃ p chid hnd, f.Params = [p] ∧ unmarshalNat p.data = some chid ∧
           c.chanHandlers.lookup chid = some hnd)) := by
  unfold handleFrame
  simp only [wsCancel, wsPing, wsPong, chValue, chClose]
  generalize f.Method = m
  by_cases h1 : m = ""
  · subst h1
    simp [handleResponse_none_iff]
  · by_cases h2 : m = "xrpc.cancel"
    · subst h2
      simp [cancelCtx_none_iff]
    · by_cases h3 : m = "xrpc.ping"
      · subst h3
        simp
      · by_cases h4 : m = "xrpc.pong"
        · subst h4
          simp
        · by_cases h5 : m = "xrpc.ch.val"
          · subst h5
            simp [handleChanMessage_none_iff]
          · by_cases h6 : m = "xrpc.ch.close"
            · subst h6
              simp [handleChanClose_none_iff]
            · simp [h1, h2, h3, h4, h5, h6]

/-- C23, the failing inputs: on the sample connection `handleFrame` faults on a response
frame without id (`*frame.ID` in `handleResponse`), on `xrpc.cancel` and `xrpc.ch.close`
without params (`Params[0]`), and on `xrpc.ch.val` with the chanId of a registered handler
as its only param (`Params[1]` in `handleChanMessage`). -/
theorem handleFrame_faults :
    handleFrame sampleUnmarshalNat sampleUnmarshalInt sampleDecode (some sampleRegistry)
      Value.nil "now" 51 (sampleOpener true) sampleWriter sampleConn { Jsonrpc := "2.0" }
      = none ∧
    handleFrame sampleUnmarshalNat sampleUnmarshalInt sampleDecode (some sampleRegistry)
      Value.nil "now" 51 (sampleOpener true) sampleWriter sampleConn
      { Jsonrpc := "2.0", Method := "xrpc.cancel" } = none ∧
    handleFrame sampleUnmarshalNat sampleUnmarshalInt sampleDecode (some sampleRegistry)
      Value.nil "now" 51 (sampleOpener true) sampleWriter sampleConn
      { Jsonrpc := "2.0", Method := "xrpc.ch.close" } = none ∧
    handleFrame sampleUnmarshalNat sampleUnmarshalInt sampleDecode (some sampleRegistry)
      Value.nil "now" 51 (sampleOpener true) sampleWriter sampleConn
      { Jsonrpc := "2.0", Method := "xrpc.ch.val", Params := [{ data := "3" }] } = none := by
  decide

/-! ## Registration of a receiver's methods -/

theorem paramTypes_eq (ins : List RType) (start : Nat) :
    ∀ n, n + start ≤ ins.length → paramTypes ins start n = some ((ins.drop start).take n) := by
  intro n
  induction n with
  | zero =>
    intro _
    simp [paramTypes]
  | succ n ih =>
    intro hle
    have hlt : n + start < ins.length := by omega
    simp only [paramTypes, ih (by omega), List.getElem?_eq_getElem hlt]
    rw [List.take_succ, List.getElem?_drop, Nat.add_comm start n,
      List.getElem?_eq_getElem hlt]
    rfl

theorem hasCtxOf_le_one (ins : List RType) : hasCtxOf ins ≤ 1 := by
  unfold hasCtxOf
  split <;> simp

theorem hasCtxOf_lt (ins : List RType) (hrecv : ins ≠ []) : hasCtxOf ins < ins.length := by
  unfold hasCtxOf
  split
  · rename_i h
    omega
  · exact List.length_pos.mpr hrecv

/-- The loop body stores one descriptor, whose parameter types are the non-receiver
arguments behind the optional context. -/
theorem registerMethod_eq (nspace : String) (val : Value) (h : handlers) (m : reflectMethod)
    (hrecv : m.ins ≠ []) :
    registerMethod nspace val h m =
      some (mapSet h (nspace ++ "." ++ m.Name)
        { paramReceivers := m.args.drop (hasCtxOf m.ins),
          nParams := m.ins.length - 1 - hasCtxOf m.ins,
          handlerFunc := m.Func,
          receiver := val,
          hasCtx := hasCtxOf m.ins,
          errOut := (processFuncOut m.outs).2,
          valOut := (processFuncOut m.outs).1 }) := by
  have hlt := hasCtxOf_lt m.ins hrecv
  have hneg : ¬ ((m.ins.length : Int) - 1 - (hasCtxOf m.ins : Nat) < 0) := by omega
  unfold registerMethod
  rw [if_neg hneg, paramTypes_eq m.ins (1 + hasCtxOf m.ins) _ (by omega)]
  have hdrop : (m.ins.drop (1 + hasCtxOf m.ins)).take (m.ins.length - 1 - hasCtxOf m.ins) =
      m.args.drop (hasCtxOf m.ins) := by
    rw [reflectMethod.args, List.drop_drop]
    apply List.take_of_length_le
    simp only [List.length_drop]
    omega
  simp only [Option.map_some', hdrop]

theorem append_left_cancel (p a b : String) (h : p ++ a = p ++ b) : a = b := by
  have hd := congrArg String.data h
  simp only [String.data_append, List.append_cancel_left_eq] at hd
  exact String.ext hd

theorem registerLoop_lookup (nspace : String) (val : Value) :
    ∀ (ms : List reflectMethod) (h : handlers),
      (∀ m ∈ ms, m.ins ≠ []) → (ms.map (fun m => m.Name)).Nodup →
      ∃ h', registerLoop nspace val ms h = some h' ∧
        (∀ m ∈ ms, h'.lookup (nspace ++ "." ++ m.Name) = some (descriptorOf val m)) ∧
        (∀ key, (∀ m ∈ ms, key ≠ nspace ++ "." ++ m.Name) → h'.lookup key = h.lookup key) := by
  intro ms
  induction ms with
  | nil =>
    intro h _ _
    exact ⟨h, rfl, fun m hm => (by cases hm), fun _ _ => rfl⟩
  | cons m0 rest ih =>
    intro h hrecv hnd
    have hstep := registerMethod_eq nspace val h m0 (hrecv m0 (List.mem_cons_self _ _))
    simp only [List.map_cons, List.nodup_cons] at hnd
    obtain ⟨h', hrun, hin, hout⟩ :=
      ih (mapSet h (nspace ++ "." ++ m0.Name) (descriptorOf val m0))
        (fun m hm => hrecv m (List.mem_cons_of_mem _ hm)) hnd.2
    have hfresh : ∀ m ∈ rest, nspace ++ "." ++ m0.Name ≠ nspace ++ "." ++ m.Name := by
      intro m hm heq
      exact hnd.1 (List.mem_map.mpr ⟨m, hm, (append_left_cancel _ _ _ heq).symm⟩)
    refine ⟨h', ?_, ?_, ?_⟩
    · simp only [registerLoop, hstep]
      exact hrun
    · intro m hm
      rcases List.mem_cons.mp hm with rfl | hm'
      · rw [hout _ hfresh, lookup_mapSet_self]
      · exact hin m hm'
    · intro key hkey
      rw [hout key (fun m hm => hkey m (List.mem_cons_of_mem _ hm)),
        lookup_mapSet_ne _ _ _ _ (hkey m0 (List.mem_cons_self _ _))]

theorem hasCtxOf_eq (m : reflectMethod) :
    hasCtxOf m.ins = if m.args.head? = some contextType then 1 else 0 := by
  unfold hasCtxOf reflectMethod.args
  match m.ins with
  | [] => simp
  | [_] => simp
  | _ :: b :: _ => simp

/-- C22: for a receiver that is not nil, whose methods have pairwise distinct names and
carry the receiver as their first parameter, `handlers.register` returns, and for every
method with `k` arguments after the receiver the registry then holds under the key
`<namespace>.<MethodName>` a descriptor with `hasCtx = 1` if `k >= 1` and the first
non-receiver argument is the context type and `hasCtx = 0` otherwise,
`nParams = k - hasCtx`, and a parameter-type vector of length exactly `nParams` whose
`i`-th entry is the declared type of the `(i + hasCtx)`-th non-receiver argument. -/
theorem register_descriptors (h : handlers) (nspace : String) (val : Value)
    (methods : List reflectMethod) (hval : val ≠ Value.nil)
    (hrecv : ∀ m ∈ methods, m.ins ≠ [])
    (hnames : (methods.map (fun m => m.Name)).Nodup) :
    ∃ h', handlers.register h nspace val methods = some h' ∧
      ∀ m ∈ methods, ∃ hd, h'.lookup (nspace ++ "." ++ m.Name) = some hd ∧
        hd.hasCtx = (if m.args.head? = some contextType then 1 else 0) ∧
        hd.nParams = m.args.length - hd.hasCtx ∧
        hd.paramReceivers.length = hd.nParams ∧
        (∀ i, i < hd.nParams →
          ∃ t, hd.paramReceivers[i]? = some t ∧ m.args[i + hd.hasCtx]? = some t) ∧
        hd.receiver = val ∧ hd.handlerFunc = m.Func := by
  obtain ⟨h', hrun, hin, _⟩ := registerLoop_lookup nspace val methods h hrecv hnames
  refine ⟨h', by simp [handlers.register, hval, hrun], ?_⟩
  intro m hm
  have hlt := hasCtxOf_lt m.ins (hrecv m hm)
  have hlen : (m.args.drop (hasCtxOf m.ins)).length = m.ins.length - 1 - hasCtxOf m.ins := by
    simp only [reflectMethod.args, List.length_drop]
  refine ⟨descriptorOf val m, hin m hm, hasCtxOf_eq m, ?_, hlen, ?_, rfl, rfl⟩
  · simp [descriptorOf, reflectMethod.args]
  · intro i hi
    have hi' : i < (m.args.drop (hasCtxOf m.ins)).length := by
      rw [hlen]
      exact hi
    refine ⟨(m.args.drop (hasCtxOf m.ins))[i], List.getElem?_eq_getElem hi', ?_⟩
    rw [← List.getElem?_eq_getElem hi', List.getElem?_drop, Nat.add_comm]
    rfl

/-- C22, an instance: registering the sample methods under the namespace `Svc` stores
for `Get(context.Context, string)` a descriptor with `hasCtx = 1`, `nParams = 1` and one
parameter type. -/
theorem register_descriptors_witness :
    Value.obj "svc" ≠ Value.nil ∧ (sampleMethods.map (fun m => m.Name)).Nodup ∧
    ∃ h', handlers.register [] "Svc" (Value.obj "svc") sampleMethods = some h' ∧
      ∃ hd, h'.lookup "Svc.Get" = some hd ∧ hd.hasCtx = 1 ∧ hd.nParams = 1 ∧
        hd.paramReceivers.length = 1 := by
  have hnd : (sampleMethods.map (fun m => m.Name)).Nodup := by decide
  refine ⟨by decide, hnd, ?_⟩
  obtain ⟨h', hrun, hall⟩ := register_descriptors [] "Svc" (Value.obj "svc") sampleMethods
    (by decide) (by intro m hm; simp [sampleMethods, sampleGetIns] at hm; rcases hm with rfl | rfl <;> simp)
    hnd
  obtain ⟨hd, hlook, hctx, hn, hlen, _⟩ := hall
    { Name := "Get", ins := sampleGetIns, outs := [{ name := "string" }, errType],
      Func := getHandler.handlerFunc } (by simp [sampleMethods])
  have hctx' : hd.hasCtx = 1 := by
    rw [hctx]
    decide
  have hn' : hd.nParams = 1 := by
    rw [hn, hctx']
    rfl
  exact ⟨h', hrun, hd, hlook, hctx', hn', by rw [hlen, hn']⟩

end Jsonrpc

namespace Rockfmw

open Jsonrpc (mapSet mapDelete)

/-! ## The service registry -/

theorem setupMethod_eq (toLower : String → String) (isUpper : Char → Bool)
    (ms : List (String × serviceMethod)) (m : Method) :
    setupMethod toLower isUpper ms m =
      if eligible isUpper m = true then mapSet ms (toLower m.Name) (entryOf m) else ms := by
  obtain ⟨nm, pk, ins⟩ := m
  unfold setupMethod eligible entryOf
  by_cases hpk : pk = ""
  · subst hpk
    match ins with
    | [] => simp
    | [_] => simp
    | [_, _] => simp
    | _ :: _ :: _ :: _ :: _ => simp
    | [recv, args, reply] =>
      cases args with
      | named n q => simp
      | unnamed t => simp
      | ptr e =>
        have hb : isExportedOrBuiltin isUpper (GoType.ptr e) = isExportedOrBuiltin isUpper e := by
          simp [isExportedOrBuiltin, GoType.base]
        by_cases h1 : isExportedOrBuiltin isUpper e = true <;>
          by_cases h2 : reply = doneHandleType <;>
          simp [hb, h1, h2, GoType.Elem]
  · simp [hpk]

theorem mapSet_ne_nil {κ α : Type} [BEq κ] (m : List (κ × α)) (k : κ) (v : α) :
    mapSet m k v ≠ [] := by
  simp [mapSet]

theorem lookup_setupMethods (toLower : String → String) (isUpper : Char → Bool)
    (key : String) :
    ∀ (ms : List Method) (acc : List (String × serviceMethod)),
      (ms.foldl (setupMethod toLower isUpper) acc).lookup key =
        match lastEligible toLower isUpper key ms with
        | some m => some (entryOf m)
        | none => acc.lookup key := by
  intro ms
  induction ms with
  | nil =>
    intro acc
    simp [lastEligible]
  | cons m rest ih =>
    intro acc
    simp only [List.foldl_cons, ih, lastEligible]
    cases hl : lastEligible toLower isUpper key rest with
    | some m' => rfl
    | none =>
      simp only [setupMethod_eq]
      by_cases he : eligible isUpper m = true
      · by_cases hk : toLower m.Name = key
        · simp [he, hk, Jsonrpc.lookup_mapSet_self]
        · have hk' : key ≠ toLower m.Name := fun h => hk h.symm
          simp [he, hk, Jsonrpc.lookup_mapSet_ne _ _ _ _ hk']
      · simp [he]

theorem setupMethods_eq_nil (toLower : String → String) (isUpper : Char → Bool) :
    ∀ (ms : List Method) (acc : List (String × serviceMethod)),
      ms.foldl (setupMethod toLower isUpper) acc = [] ↔
        acc = [] ∧ ∀ m ∈ ms, eligible isUpper m = false := by
  intro ms
  induction ms with
  | nil =>
    intro acc
    simp
  | cons m rest ih =>
    intro acc
    simp only [List.foldl_cons, ih, setupMethod_eq, List.mem_cons, forall_eq_or_imp]
    by_cases he : eligible isUpper m = true
    · simp [he, mapSet_ne_nil]
    · have he' : eligible isUpper m = false := by simpa using he
      simp [he']

theorem lastEligible_some (toLower : String → String) (isUpper : Char → Bool)
    (key : String) (m : Method) :
    ∀ ms : List Method, lastEligible toLower isUpper key ms = some m →
      m ∈ ms ∧ eligible isUpper m = true ∧ toLower m.Name = key := by
  intro ms
  induction ms with
  | nil =>
    intro h
    simp [lastEligible] at h
  | cons m0 rest ih =>
    intro h
    simp only [lastEligible] at h
    cases hl : lastEligible toLower isUpper key rest with
    | some m' =>
      simp only [hl, Option.some.injEq] at h
      subst h
      obtain ⟨h1, h2, h3⟩ := ih hl
      exact ⟨List.mem_cons_of_mem _ h1, h2, h3⟩
    | none =>
      simp only [hl] at h
      split at h
      · rename_i hc
        cases h
        exact ⟨List.mem_cons_self _ _, hc.1, hc.2⟩
      · cases h

theorem lastEligible_isSome (toLower : String → String) (isUpper : Char → Bool)
    (m : Method) :
    ∀ ms : List Method, m ∈ ms → eligible isUpper m = true →
      ∃ m', lastEligible toLower isUpper (toLower m.Name) ms = some m' := by
  intro ms
  induction ms with
  | nil =>
    intro h
    cases h
  | cons m0 rest ih =>
    intro hm he
    simp only [lastEligible]
    cases hl : lastEligible toLower isUpper (toLower m.Name) rest with
    | some m' => exact ⟨m', rfl⟩
    | none =>
      rcases List.mem_cons.mp hm with rfl | hm'
      · exact ⟨m, by simp [he]⟩
      · obtain ⟨m', h⟩ := ih hm' he
        rw [hl] at h
        cases h

theorem mapDelete_of_lookup_none {α : Type} (m : List (String × α)) (k : String)
    (h : m.lookup k = none) : mapDelete m k = m := by
  induction m with
  | nil => rfl
  | cons e es ih =>
    obtain ⟨k0, v⟩ := e
    simp only [List.lookup] at h
    cases hk : (k == k0) with
    | true => simp [hk] at h
    | false =>
      simp only [hk] at h
      have hne : k0 ≠ k := fun heq => by simp [heq] at hk
      have hb : (k0 != k) = true := by simpa using hne
      unfold mapDelete at ih ⊢
      simp [List.filter, hb, ih h]

theorem resolved_eq (r : Receiver) (name : String)
    (hnil : name = "" → r.indirectName ≠ none) :
    (if name = "" then r.indirectName else some name) = some (resolvedName r name) := by
  unfold resolvedName
  by_cases hn : name = ""
  · cases hi : r.indirectName with
    | none => exact absurd hi (hnil hn)
    | some n => simp [hn]
  · simp [hn]

/-- C20, as the code has it: for a receiver that is not the nil interface and, when no
name is given, not a nil pointer, `register` returns. It returns an error exactly when
the resolved service name is empty, or no name is given and the name of the receiver's
type is not exported, or the receiver has no eligible method, or a service with the
resolved name is registered already; with an error the registry is unchanged. Otherwise
it returns no error and adds exactly one service under the resolved name. The methods of
that service are keyed by lower-cased method names: under each key it holds the last
eligible method with that lower-cased name, so every entry is an eligible method, no
ineligible method has an entry, the lower-cased name of every eligible method has an
entry, and an eligible method whose lower-cased name no other eligible method shares is
that entry itself. -/
theorem register_spec (toLower : String → String) (isUpper : Char → Bool)
    (slf : serviceMap) (r : Receiver) (name : String)
    (hnil : name = "" → r.indirectName ≠ none) :
    ∃ slf' err, register toLower isUpper slf (some r) name = some (slf', err) ∧
      (err.isSome = true ↔
        (resolvedName r name = "" ∨
         (name = "" ∧ isExported isUpper (resolvedName r name) = false) ∨
         (∀ m ∈ r.methods, eligible isUpper m = false) ∨
         (slf.services.lookup (resolvedName r name)).isSome = true)) ∧
      (err.isSome = true → slf' = slf) ∧
      (err = none → ∃ svc,
        slf'.services = slf.services ++ [(resolvedName r name, svc)] ∧
        slf.services.lookup (resolvedName r name) = none ∧
        svc.name = resolvedName r name ∧ svc.rcvr = r ∧
        (∀ key, svc.methods.lookup key =
          (lastEligible toLower isUpper key r.methods).map entryOf) ∧
        (∀ key sm, svc.methods.lookup key = some sm →
          sm.method ∈ r.methods ∧ eligible isUpper sm.method = true ∧
          toLower sm.method.Name = key ∧ sm = entryOf sm.method) ∧
        (∀ m ∈ r.methods, eligible isUpper m = true →
          ∃ m' ∈ r.methods, eligible isUpper m' = true ∧
            toLower m'.Name = toLower m.Name ∧
            svc.methods.lookup (toLower m.Name) = some (entryOf m')) ∧
        (∀ m ∈ r.methods, eligible isUpper m = true →
          (∀ m' ∈ r.methods, eligible isUpper m' = true →
            toLower m'.Name = toLower m.Name → m' = m) →
          svc.methods.lookup (toLower m.Name) = some (entryOf m))) := by
  have hres := resolved_eq r name hnil
  generalize resolvedName r name = sn at hres ⊢
  have hlook : ∀ key, (r.methods.foldl (setupMethod toLower isUpper) []).lookup key =
      (lastEligible toLower isUpper key r.methods).map entryOf := by
    intro key
    rw [lookup_setupMethods]
    cases lastEligible toLower isUpper key r.methods <;> rfl
  have hempty := setupMethods_eq_nil toLower isUpper r.methods []
  unfold register
  simp only [hres]
  by_cases h1 : name = "" ∧ isExported isUpper sn = false
  · rw [if_pos h1]
    exact ⟨slf, _, rfl, ⟨fun _ => Or.inr (Or.inl h1), fun _ => rfl⟩, fun _ => rfl,
      fun h => (by cases h)⟩
  · rw [if_neg h1]
    by_cases h2 : sn = ""
    · rw [if_pos h2]
      exact ⟨slf, _, rfl, ⟨fun _ => Or.inl h2, fun _ => rfl⟩, fun _ => rfl,
        fun h => (by cases h)⟩
    · rw [if_neg h2]
      by_cases h3 : (r.methods.foldl (setupMethod toLower isUpper) []).length = 0
      · simp only [h3, if_true]
        have h3' := hempty.mp (List.length_eq_zero.mp h3)
        exact ⟨slf, _, rfl, ⟨fun _ => Or.inr (Or.inr (Or.inl h3'.2)), fun _ => rfl⟩,
          fun _ => rfl, fun h => (by cases h)⟩
      · simp only [h3, if_false]
        have h3' : ¬ ∀ m ∈ r.methods, eligible isUpper m = false := fun h =>
          h3 (List.length_eq_zero.mpr (hempty.mpr ⟨rfl, h⟩))
        by_cases h4 : (slf.services.lookup sn).isSome = true
        · rw [if_pos h4]
          exact ⟨slf, _, rfl, ⟨fun _ => Or.inr (Or.inr (Or.inr h4)), fun _ => rfl⟩,
            fun _ => rfl, fun h => (by cases h)⟩
        · rw [if_neg h4]
          have h4' : slf.services.lookup sn = none := by
            cases h : slf.services.lookup sn with
            | none => rfl
            | some v => simp [h] at h4
          refine ⟨_, none, rfl, ?_, fun h => (by cases h), fun _ =>
            ⟨{ name := sn, rcvr := r,
               methods := r.methods.foldl (setupMethod toLower isUpper) [] },
             ?_, h4', rfl, rfl, hlook, ?_, ?_, ?_⟩⟩
          · constructor
            · intro h
              cases h
            · rintro (h | h | h | h)
              · exact absurd h h2
              · exact absurd h h1
              · exact absurd h h3'
              · exact absurd h h4
          · simp only [mapSet, mapDelete_of_lookup_none _ _ h4']
          · intro key sm hsm
            rw [hlook] at hsm
            cases hl : lastEligible toLower isUpper key r.methods with
            | none => simp [hl] at hsm
            | some m =>
              simp only [hl, Option.map_some', Option.some.injEq] at hsm
              subst hsm
              obtain ⟨a, b, c⟩ := lastEligible_some toLower isUpper key m r.methods hl
              exact ⟨a, b, c, rfl⟩
          · intro m hm he
            obtain ⟨m', hl⟩ := lastEligible_isSome toLower isUpper m r.methods hm he
            obtain ⟨a, b, c⟩ := lastEligible_some toLower isUpper _ m' r.methods hl
            exact ⟨m', a, b, c, by rw [hlook, hl]; rfl⟩
          · intro m hm he huniq
            obtain ⟨m', hl⟩ := lastEligible_isSome toLower isUpper m r.methods hm he
            obtain ⟨a, b, c⟩ := lastEligible_some toLower isUpper _ m' r.methods hl
            have := huniq m' a b c
            subst this
            rw [hlook, hl]
            rfl

/-- C20, an instance: the sample receiver of type `*Store` is registered without a name
in the empty registry; `register` returns, and an error would leave the registry
empty. -/
theorem register_spec_witness :
    sampleReceiver.indirectName ≠ none ∧
    ∃ slf' err,
      register sampleToLower sampleIsUpper {} (some sampleReceiver) "" = some (slf', err) ∧
      (err.isSome = true → slf' = {}) := by
  refine ⟨by decide, ?_⟩
  obtain ⟨slf', err, h, _, h2, _⟩ :=
    register_spec sampleToLower sampleIsUpper {} sampleReceiver "" (fun _ => by decide)
  exact ⟨slf', err, h, h2⟩

/-- C20, where the claim fails: the sample receiver has the eligible methods `GetX` and
`Getx`, whose lower-cased names are both `getx`. `register` returns no error and adds the
service `Store`, but the service holds `Getx` under `getx` and no entry for the eligible
method `GetX`. -/
theorem register_drops_eligible_method :
    register sampleToLower sampleIsUpper {} (some sampleReceiver) "" =
      some ({ services :=
                [("Store",
                  { name := "Store", rcvr := sampleReceiver,
                    methods := [("getx", entryOf (sampleMethod "Getx")),
                                ("put", entryOf (sampleMethod "Put"))] })] }, none) ∧
    sampleMethod "GetX" ∈ sampleReceiver.methods ∧
    eligible sampleIsUpper (sampleMethod "GetX") = true ∧
    ∀ e ∈ [("getx", entryOf (sampleMethod "Getx")), ("put", entryOf (sampleMethod "Put"))],
      e.2.method ≠ sampleMethod "GetX" := by
  decide

/-! ## Lookup of a registered method -/

theorem splitChars_no_dot (xs : List Char) (h : '.' ∉ xs) : splitChars xs = [xs] := by
  induction xs with
  | nil => rfl
  | cons c cs ih =>
    simp only [List.mem_cons, not_or] at h
    have hc : ¬ c = '.' := fun e => h.1 e.symm
    simp [splitChars, hc, ih h.2, consHead]

theorem splitChars_dot (xs ys : List Char) (h : '.' ∉ xs) :
    splitChars (xs ++ '.' :: ys) = xs :: splitChars ys := by
  induction xs with
  | nil => simp [splitChars]
  | cons c cs ih =>
    simp only [List.mem_cons, not_or] at h
    have hc : ¬ c = '.' := fun e => h.1 e.symm
    simp [splitChars, hc, ih h.2, consHead]

theorem split_two (a b : String) (ha : '.' ∉ a.data) (hb : '.' ∉ b.data) :
    split (a ++ "." ++ b) = [a, b] := by
  have hd : (a ++ "." ++ b).data = a.data ++ '.' :: b.data := by
    simp [String.data_append]
  simp [split, hd, splitChars_dot _ _ ha, splitChars_no_dot _ hb]

theorem get_illFormed (toLower : String → String) (slf : serviceMap) (method : String)
    (h : (split method).length ≠ 2) :
    get toLower slf method = Except.error (GetError.illFormed method) := by
  unfold get
  split
  · rename_i a b heq
    rw [heq] at h
    exact absurd rfl h
  · rfl

theorem get_two (toLower : String → String) (slf : serviceMap) (a b : String)
    (ha : '.' ∉ a.data) (hb : '.' ∉ b.data) :
    get toLower slf (a ++ "." ++ b) =
      match slf.services.lookup a with
      | none => Except.error (GetError.noService (a ++ "." ++ b))
      | some svc =>
        match svc.methods.lookup (toLower b) with
        | none => Except.error (GetError.noMethod (a ++ "." ++ b))
        | some sm => Except.ok (svc, sm) := by
  unfold get
  rw [split_two a b ha hb]

/-- What a successful `register` has done. -/
theorem register_ok (toLower : String → String) (isUpper : Char → Bool)
    (slf slf' : serviceMap) (r : Receiver) (name : String)
    (hreg : register toLower isUpper slf (some r) name = some (slf', none)) :
    slf.services.lookup (resolvedName r name) = none ∧
    slf'.services = mapSet slf.services (resolvedName r name)
      { name := resolvedName r name, rcvr := r,
        methods := r.methods.foldl (setupMethod toLower isUpper) [] } := by
  unfold register at hreg
  simp only at hreg
  cases hres : (if name = "" then r.indirectName else some name) with
  | none => simp [hres] at hreg
  | some sn =>
    have hsn : resolvedName r name = sn := by
      unfold resolvedName
      by_cases hn : name = ""
      · simp only [hn, if_true] at hres ⊢
        rw [hres]
        rfl
      · simp only [hn, if_false, Option.some.injEq] at hres ⊢
        exact hres
    simp only [hres] at hreg
    rw [hsn]
    by_cases h1 : name = "" ∧ isExported isUpper sn = false
    · rw [if_pos h1] at hreg
      simp at hreg
    · rw [if_neg h1] at hreg
      by_cases h2 : sn = ""
      · rw [if_pos h2] at hreg
        simp at hreg
      · rw [if_neg h2] at hreg
        by_cases h3 : (r.methods.foldl (setupMethod toLower isUpper) []).length = 0
        · simp [h3] at hreg
        · simp only [h3, if_false] at hreg
          by_cases h4 : (slf.services.lookup sn).isSome = true
          · rw [if_pos h4] at hreg
            simp at hreg
          · rw [if_neg h4] at hreg
            simp only [Option.some.injEq, Prod.mk.injEq, and_true] at hreg
            refine ⟨?_, by rw [← hreg]⟩
            cases h : slf.services.lookup sn with
            | none => rfl
            | some v => simp [h] at h4

theorem consHead_length (c : Char) (l : List (List Char)) (h : l ≠ []) :
    (consHead c l).length = l.length := by
  cases l with
  | nil => exact absurd rfl h
  | cons p ps => rfl

/-- The number of parts of a split is the number of dots plus one. -/
theorem splitChars_length (xs : List Char) : (splitChars xs).length = xs.count '.' + 1 := by
  induction xs with
  | nil => rfl
  | cons c cs ih =>
    by_cases hc : c = '.'
    · subst hc
      simp [splitChars, ih]
    · have hne : splitChars cs ≠ [] := by
        intro h
        rw [h] at ih
        simp at ih
      have hc' : ¬ ('.' = c) := fun e => hc e.symm
      simp only [splitChars, hc, if_false, consHead_length c _ hne, ih]
      rw [List.count_cons_of_ne hc']

theorem split_length (s : String) : (split s).length = s.data.count '.' + 1 := by
  simp [split, splitChars_length]

/-- A name whose service part contains a dot has at least three parts. -/
theorem get_dotted_service (toLower : String → String) (slf : serviceMap) (S M' : String)
    (hS : '.' ∈ S.data) :
    get toLower slf (S ++ "." ++ M') = Except.error (GetError.illFormed (S ++ "." ++ M')) := by
  apply get_illFormed
  rw [split_length]
  have hd : (S ++ "." ++ M').data = S.data ++ '.' :: M'.data := by
    simp [String.data_append]
  have hpos : 0 < S.data.count '.' := List.count_pos_iff.mpr hS
  rw [hd, List.count_append, List.count_cons_self]
  omega

/-- C21, as the code has it. After a successful `register` of a service under the name
`S`. If `S` contains no dot: for every eligible method `M` and every `M'` without a dot
that lower-cases to the same string as `M`, `get("S." + M')` returns the service and the
descriptor of the last eligible method whose lower-cased name is that string, which is
`M` when no other eligible method shares it; and a method name that no eligible method
matches after lower-casing is an error. If `S` contains a dot, `get("S." + M')` is an
error for every `M'`: the service cannot be found. A service part that is not registered
is an error, and any name other than `S` finds only what was registered before (the
service part is compared exactly); every name that does not split into exactly two parts
on the dot, that is every name without a dot or with more than one, is an error. In the
websocket engine, `handlers.register` stores each method under `namespace.Method`, and
`handle` answers any other method string that was not registered before with
method-not-found: the lookup is exact. -/
theorem get_registered (toLower : String → String) (isUpper : Char → Bool)
    (slf slf' : serviceMap) (r : Receiver) (name : String)
    (hreg : register toLower isUpper slf (some r) name = some (slf', none)) :
    ('.' ∉ (resolvedName r name).data →
      ∀ m ∈ r.methods, eligible isUpper m = true →
      ∀ M' : String, '.' ∉ M'.data → toLower M' = toLower m.Name →
        ∃ svc m0,
          get toLower slf' (resolvedName r name ++ "." ++ M') = Except.ok (svc, entryOf m0) ∧
          svc.name = resolvedName r name ∧ svc.rcvr = r ∧
          lastEligible toLower isUpper (toLower m.Name) r.methods = some m0 ∧
          m0 ∈ r.methods ∧ eligible isUpper m0 = true ∧ toLower m0.Name = toLower m.Name ∧
          ((∀ m' ∈ r.methods, eligible isUpper m' = true →
              toLower m'.Name = toLower m.Name → m' = m) → m0 = m)) ∧
    ('.' ∉ (resolvedName r name).data →
      ∀ M' : String, '.' ∉ M'.data →
      (∀ m ∈ r.methods, eligible isUpper m = true → toLower m.Name ≠ toLower M') →
      get toLower slf' (resolvedName r name ++ "." ++ M') =
        Except.error (GetError.noMethod (resolvedName r name ++ "." ++ M'))) ∧
    ('.' ∈ (resolvedName r name).data →
      ∀ M' : String,
        get toLower slf' (resolvedName r name ++ "." ++ M') =
          Except.error (GetError.illFormed (resolvedName r name ++ "." ++ M'))) ∧
    (∀ S M' : String, '.' ∉ S.data → '.' ∉ M'.data → slf'.services.lookup S = none →
      get toLower slf' (S ++ "." ++ M') = Except.error (GetError.noService (S ++ "." ++ M'))) ∧
    (∀ S : String, S ≠ resolvedName r name →
      slf'.services.lookup S = slf.services.lookup S) ∧
    (∀ method : String, (split method).length ≠ 2 →
      get toLower slf' method = Except.error (GetError.illFormed method)) ∧
    (∀ method : String, (split method).length = method.data.count '.' + 1) ∧
    (∀ (h : Jsonrpc.handlers) (nspace : String) (val : Jsonrpc.Value)
        (methods : List Jsonrpc.reflectMethod),
      val ≠ Jsonrpc.Value.nil → (∀ m ∈ methods, m.ins ≠ []) →
      (methods.map (fun m => m.Name)).Nodup →
      ∃ h', Jsonrpc.handlers.register h nspace val methods = some h' ∧
        (∀ m ∈ methods,
          h'.lookup (nspace ++ "." ++ m.Name) = some (Jsonrpc.descriptorOf val m)) ∧
        (∀ key : String, (∀ m ∈ methods, key ≠ nspace ++ "." ++ m.Name) →
          h.lookup key = none →
          ∀ (decode : Jsonrpc.Decoder) (ctx : Jsonrpc.Value) (req : Jsonrpc.request)
            (w : Jsonrpc.WriteFn) (re : Jsonrpc.rpcErrFunc)
            (done : Bool → List Jsonrpc.Event) (chOut : Option Jsonrpc.chanOut),
            req.Method = key →
            Jsonrpc.handle decode h' ctx req w re done chOut =
              { events := re w req (-32601) ("method '" ++ req.Method ++ "' not found") ++
                  done false,
                fault := none })) := by
  obtain ⟨hnew, hserv⟩ := register_ok toLower isUpper slf slf' r name hreg
  generalize resolvedName r name = sn at hnew hserv ⊢
  have hsvc : slf'.services.lookup sn =
      some { name := sn, rcvr := r,
             methods := r.methods.foldl (setupMethod toLower isUpper) [] } := by
    rw [hserv, Jsonrpc.lookup_mapSet_self]
  have hlook : ∀ key, (r.methods.foldl (setupMethod toLower isUpper) []).lookup key =
      (lastEligible toLower isUpper key r.methods).map entryOf := by
    intro key
    rw [lookup_setupMethods]
    cases lastEligible toLower isUpper key r.methods <;> rfl
  refine ⟨?_, ?_, ?_, ?_, ?_, ?_, ?_, ?_⟩
  · intro hdot m hm he M' hM' hlow
    obtain ⟨m0, hl⟩ := lastEligible_isSome toLower isUpper m r.methods hm he
    obtain ⟨a, b, c⟩ := lastEligible_some toLower isUpper _ m0 r.methods hl
    refine ⟨{ name := sn, rcvr := r,
              methods := r.methods.foldl (setupMethod toLower isUpper) [] },
      m0, ?_, rfl, rfl, hl, a, b, c, fun huniq => huniq m0 a b c⟩
    rw [get_two toLower slf' sn M' hdot hM', hsvc]
    simp only [hlook, hlow, hl, Option.map_some']
  · intro hdot M' hM' hnone
    rw [get_two toLower slf' sn M' hdot hM', hsvc]
    simp only [hlook]
    cases hl : lastEligible toLower isUpper (toLower M') r.methods with
    | none => rfl
    | some m0 =>
      obtain ⟨a, b, c⟩ := lastEligible_some toLower isUpper _ m0 r.methods hl
      exact absurd c (hnone m0 a b)
  · intro hdot M'
    exact get_dotted_service toLower slf' sn M' hdot
  · intro S M' hS hM' hno
    rw [get_two toLower slf' S M' hS hM', hno]
  · intro S hS
    rw [hserv, Jsonrpc.lookup_mapSet_ne _ _ _ _ hS]
  · intro method hlen
    exact get_illFormed toLower slf' method hlen
  · intro method
    exact split_length method
  · intro h nspace val methods hval hrecv hnames
    obtain ⟨h', hrun, hin, hout⟩ :=
      Jsonrpc.registerLoop_lookup nspace val methods h hrecv hnames
    refine ⟨h', by simp [Jsonrpc.handlers.register, hval, hrun], hin, ?_⟩
    intro key hkey hfree decode ctx req w re done chOut hreq
    apply Jsonrpc.handle_miss
    rw [hreq, hout key hkey]
    exact hfree

/-- C21, an instance: the sample receiver is registered as `Store`; `get("Store.GetX")`
finds the service `Store` and the descriptor of a method whose lower-cased name is
`getx`. -/
theorem get_registered_witness :
    register sampleToLower sampleIsUpper {} (some sampleReceiver) "" =
      some (sampleServices "Store", none) ∧
    ∃ svc m0, get sampleToLower (sampleServices "Store") ("Store" ++ "." ++ "GetX") =
        Except.ok (svc, entryOf m0) ∧
      svc.name = "Store" ∧ sampleToLower m0.Name = "getx" := by
  have hreg : register sampleToLower sampleIsUpper {} (some sampleReceiver) "" =
      some (sampleServices "Store", none) := by decide
  refine ⟨hreg, ?_⟩
  obtain ⟨svc, m0, hget, hname, _, _, _, _, hlow, _⟩ :=
    (get_registered sampleToLower sampleIsUpper {} (sampleServices "Store") sampleReceiver ""
      hreg).1 (by decide) (sampleMethod "Getx") (by decide) (by decide) "GetX" (by decide)
      (by decide)
  exact ⟨svc, m0, hget, hname, hlow⟩

/-- C21, where the claim fails. Registered under the name `my.store`, the sample service
is never found: `get("my.store.Put")` splits into three parts and is an error. And
registered as `Store`, with the eligible methods `GetX` and `Getx`, `get("Store.GetX")`
returns the descriptor of `Getx`, not the one of `GetX`. -/
theorem get_misses_registered_method :
    register sampleToLower sampleIsUpper {} (some sampleReceiver) "my.store" =
      some (sampleServices "my.store", none) ∧
    eligible sampleIsUpper (sampleMethod "Put") = true ∧
    get sampleToLower (sampleServices "my.store") "my.store.Put" =
      Except.error (GetError.illFormed "my.store.Put") ∧
    register sampleToLower sampleIsUpper {} (some sampleReceiver) "" =
      some (sampleServices "Store", none) ∧
    eligible sampleIsUpper (sampleMethod "GetX") = true ∧
    get sampleToLower (sampleServices "Store") "Store.GetX" =
      Except.ok ({ name := "Store", rcvr := sampleReceiver, methods := sampleEntries },
                 entryOf (sampleMethod "Getx")) ∧
    entryOf (sampleMethod "Getx") ≠ entryOf (sampleMethod "GetX") :=
  ⟨by decide, by decide, rfl, by decide, by decide, rfl, by decide⟩

end Rockfmw
